import Mathlib

/-!
# kvdroid: a shallow embedding of the wire codec, the storage engine and the client

The Go sources embedded here are `common.go` (codec), `server.go` (storage
engine and request handler) and `client.go` (client library).

Modelling conventions.

* A byte is a `Fin 256`; a Go `string` used as a key is its byte sequence.
* A `uint32` is a `Nat` below `2^32`; every arithmetic operation the source
  performs on `uint32` values is written with an explicit `% 2^32`.
* A `net.Conn` endpoint is the list of bytes still to be read (the stream ends
  after them), the list of bytes written so far, and a script telling which
  of the coming `Write` calls fail.
* A Go `[]byte` is a `GoSlice`: its elements together with the rest of the
  backing array up to the capacity, so that re-slicing and `append` behave as
  in Go.
* A Go function that may panic is a `Proc`: a state transformer whose result
  is either a value or a panic, the state being kept in both cases.
* A Go `int` is an `Int`; the server options only compare and copy such values.
* The goroutine that runs `Server.Start` is a step function on a `Process`
  (the server and the frame of `Start`); a blocked goroutine has no step. The
  stop channel is the list of the values in its buffer, which holds one value.
  Clients and workers act on a process through events.
-/

namespace Kvdroid

/-! ## Bytes and 32-bit words -/

abbrev Byte := Fin 256

/-- Keys are Go strings, that is, byte sequences. -/
abbrev Key := List Byte

/-- The conversion `uint32(n)` of a Go `int`. -/
def u32 (n : Nat) : Nat := n % 2 ^ 32

/-- Wrapping `uint32` addition. -/
def add32 (a b : Nat) : Nat := (a + b) % 2 ^ 32

/-- Wrapping `uint32` subtraction (both operands below `2^32`). -/
def sub32 (a b : Nat) : Nat := (a + 2 ^ 32 - b) % 2 ^ 32

/-- The four bytes `binary.LittleEndian.PutUint32` writes. -/
def PutUint32 (v : Nat) : List Byte :=
  [Fin.ofNat v, Fin.ofNat (v / 256), Fin.ofNat (v / 65536), Fin.ofNat (v / 16777216)]

/-- The word `binary.LittleEndian.Uint32` decodes from (at least) four bytes. -/
def Uint32 : List Byte → Nat
  | b0 :: b1 :: b2 :: b3 :: _ => b0.val + 256 * b1.val + 65536 * b2.val + 16777216 * b3.val
  | _ => 0

/-! ## Errors, panics and the process monad -/

/-- The `error` values that occur in the program. -/
inductive Err where
  | EOF
  | ErrUnexpectedEOF
  | ErrShortBuffer
  | ErrWrite
  | ErrKeyNotFound
  deriving DecidableEq, Repr

/-- The reasons for which the program panics. -/
inductive Panic where
  | err (e : Err)
  | sliceBounds
  | nilBucket
  | unknownCommand (cmd : Byte)
  | serverError (reply : Byte)
  deriving DecidableEq, Repr

/-- The outcome of running a piece of the program from a state. -/
inductive Res (σ α : Type) where
  | ok (a : α) (s : σ)
  | panic (p : Panic) (s : σ)

/-- A piece of the program acting on a state of type `σ`. -/
def Proc (σ α : Type) : Type := σ → Res σ α

def Proc.pure {σ α : Type} (a : α) : Proc σ α := fun s => Res.ok a s

def Proc.bind {σ α β : Type} (x : Proc σ α) (f : α → Proc σ β) : Proc σ β := fun s =>
  match x s with
  | Res.ok a s1 => f a s1
  | Res.panic p s1 => Res.panic p s1

instance {σ : Type} : Monad (Proc σ) where
  pure := Proc.pure
  bind := Proc.bind

/-- The Go statement `panic(...)`. -/
def Proc.raise {σ α : Type} (p : Panic) : Proc σ α := fun s => Res.panic p s

def Proc.get {σ : Type} : Proc σ σ := fun s => Res.ok s s

def Proc.modify {σ : Type} (f : σ → σ) : Proc σ Unit := fun s => Res.ok () (f s)

/-- Run a piece of the program on a part `τ` of the state `σ`; the part is
written back whether the piece returns or panics. -/
def Proc.zoom {σ τ α : Type} (get : σ → τ) (set : τ → σ → σ) (p : Proc τ α) : Proc σ α := fun s =>
  match p (get s) with
  | Res.ok a t => Res.ok a (set t s)
  | Res.panic e t => Res.panic e (set t s)

/-- The helper `try` (also bound to the name `check`): panic on a non-nil error. -/
def try_ {σ : Type} (err : Option Err) : Proc σ Unit :=
  match err with
  | none => Proc.pure ()
  | some e => Proc.raise (Panic.err e)

def check {σ : Type} (err : Option Err) : Proc σ Unit := try_ err

/-! ## Connections -/

/-- One end of a `net.Conn`. -/
structure Conn where
  /-- bytes that will still arrive; the peer closes the stream after them -/
  inp : List Byte
  /-- bytes written so far -/
  out : List Byte
  /-- outcomes of the coming `Write` calls (`true`: the call fails); once the
  script is used up every call succeeds -/
  werrs : List Bool

/-- The method `conn.Write(data)`. A failing call writes nothing. -/
def Conn.Write (data : List Byte) : Proc Conn (Option Err) := fun c =>
  match c.werrs with
  | [] => Res.ok none { c with out := c.out ++ data }
  | false :: rest => Res.ok none { c with out := c.out ++ data, werrs := rest }
  | true :: rest => Res.ok (some Err.ErrWrite) { c with werrs := rest }

/-- A connection together with a destination buffer that a read fills. -/
structure ConnBuf where
  conn : Conn
  buf : List Byte

/-- The library function `io.ReadAtLeast(conn, buf, min)`, returning `(n, err)`.
A `Read` call delivers every byte that has arrived, up to the length of the
buffer it is given; at the end of the stream it returns `io.EOF`. -/
def ReadAtLeast (min : Nat) : Proc ConnBuf (Nat × Option Err) := fun s =>
  if s.buf.length < min then Res.ok (0, some Err.ErrShortBuffer) s
  else if min = 0 then Res.ok (0, none) s
  else
    let got := s.conn.inp.take s.buf.length
    let s1 : ConnBuf :=
      { conn := { s.conn with inp := s.conn.inp.drop s.buf.length },
        buf := got ++ s.buf.drop got.length }
    if min ≤ got.length then Res.ok (got.length, none) s1
    else if 0 < got.length then Res.ok (got.length, some Err.ErrUnexpectedEOF) s1
    else Res.ok (0, some Err.EOF) s1

/-- Run a reader on the connection with a local buffer; the buffer is returned
with the reader's result. -/
def withBuf {α : Type} (buf : List Byte) (p : Proc ConnBuf α) : Proc Conn (α × List Byte) := fun c =>
  match p { conn := c, buf := buf } with
  | Res.ok a s => Res.ok (a, s.buf) s.conn
  | Res.panic e s => Res.panic e s.conn

/-! ## Messages -/

abbrev Message := Byte

def getBytesCmd : Message := 97
def getBytesIntoCmd : Message := 98
def getBytesRangeCmd : Message := 99
def getBytesRangeIntoCmd : Message := 100
def setBytesCmd : Message := 101
def setBytesRangeCmd : Message := 102
def delBytesCmd : Message := 103
def truncateBytesCmd : Message := 104
def setUintCmd : Message := 105
def getUintCmd : Message := 106
def setUintIfMaxCmd : Message := 107
def delUintCmd : Message := 108
def stopCmd : Message := 109
def ackReply : Message := 110
def errNoKeyReply : Message := 111

/-! ## Single I/O protocol helpers -/

def readMessage : Proc Conn (Message × Option Err) := do
  let ((_, err), b) ← withBuf (List.replicate 1 0) (ReadAtLeast 1)
  if err = some Err.ErrUnexpectedEOF then Proc.raise (Panic.err Err.ErrUnexpectedEOF)
  else Proc.pure (b.headD 0, err)

def sendMessage (m : Message) : Proc Conn (Option Err) :=
  Conn.Write [m]

def readUint32 : Proc Conn (Nat × Option Err) := do
  let ((_, err), b) ← withBuf (List.replicate 4 0) (ReadAtLeast 4)
  if err = some Err.ErrUnexpectedEOF then Proc.raise (Panic.err Err.ErrUnexpectedEOF)
  else Proc.pure (Uint32 b, err)

def sendUint32 (value : Nat) : Proc Conn (Option Err) :=
  Conn.Write (PutUint32 value)

/-- The helper `readFillBuf(conn, dst)`; the state holds `dst`. -/
def readFillBuf : Proc ConnBuf (Option Err) := do
  let dst ← Proc.get
  let (_, err) ← ReadAtLeast dst.buf.length
  if err = some Err.ErrUnexpectedEOF then Proc.raise (Panic.err Err.ErrUnexpectedEOF)
  else Proc.pure err

/-! ## Multi I/O protocol helpers -/

def sendBytes (data : List Byte) : Proc Conn (Option Err) := do
  let _ ← sendUint32 (u32 data.length)
  Conn.Write data

def readBytes : Proc Conn (List Byte × Option Err) := do
  let (size, err) ← readUint32
  if err ≠ none then Proc.pure ([], err)
  else
    let (err, b) ← withBuf (List.replicate size 0) readFillBuf
    Proc.pure (b, err)

/-- The helper `readBytesInto(conn, dst)`; the state holds `dst`. -/
def readBytesInto : Proc ConnBuf (Nat × Option Err) := do
  let (size, err) ← Proc.zoom (fun s => s.conn) (fun c s => { s with conn := c }) readUint32
  if err ≠ none then Proc.pure (0, err)
  else
    let (_, err) ← ReadAtLeast size
    if err = some Err.ErrUnexpectedEOF then Proc.raise (Panic.err Err.ErrUnexpectedEOF)
    else
      let dst ← Proc.get
      if size < u32 dst.buf.length then Proc.pure (size, some Err.EOF)
      else Proc.pure (size, none)

def readString : Proc Conn (Key × Option Err) := do
  let (b, err) ← readBytes
  Proc.pure (b, err)

/-! ## Go slices -/

/-- A Go `[]byte`: the elements, and the part of the backing array that lies
between the length and the capacity. -/
structure GoSlice where
  data : List Byte
  spare : List Byte
  deriving DecidableEq, Repr

def GoSlice.len (s : GoSlice) : Nat := s.data.length

def GoSlice.cap (s : GoSlice) : Nat := s.data.length + s.spare.length

/-- The backing array from the start of the slice up to its capacity. -/
def GoSlice.array (s : GoSlice) : List Byte := s.data ++ s.spare

/-- The allocation `make([]byte, n, n)`. -/
def GoSlice.make (n : Nat) : GoSlice := { data := List.replicate n 0, spare := [] }

/-- A freshly read byte sequence, whose capacity is its length. -/
def GoSlice.ofBytes (b : List Byte) : GoSlice := { data := b, spare := [] }

/-- The slice expression `s[lo:hi]`, which panics unless `lo ≤ hi ≤ cap(s)`. -/
def GoSlice.slice {σ : Type} (s : GoSlice) (lo hi : Nat) : Proc σ GoSlice :=
  if lo ≤ hi ∧ hi ≤ s.cap then
    Proc.pure { data := (s.array.take hi).drop lo, spare := s.array.drop hi }
  else Proc.raise Panic.sliceBounds

/-- The slice `s` after the elements of its sub-slice starting at `lo` have
become `w` (the sub-slice shares the backing array of `s`). -/
def GoSlice.patch (s : GoSlice) (lo : Nat) (w : List Byte) : GoSlice :=
  let arr := s.array.take lo ++ w ++ s.array.drop (lo + w.length)
  { data := arr.take s.data.length, spare := arr.drop s.data.length }

/-- The built-in `append(s, ext...)`. When the capacity does not suffice the
runtime allocates a zeroed array of capacity `grow (cap s) (len s + len ext)`
(at least the new length) and copies the elements. -/
def GoSlice.append (grow : Nat → Nat → Nat) (s : GoSlice) (ext : List Byte) : GoSlice :=
  if ext.length ≤ s.spare.length then
    { data := s.data ++ ext, spare := s.spare.drop ext.length }
  else
    { data := s.data ++ ext,
      spare := List.replicate (grow s.cap (s.len + ext.length) - (s.len + ext.length)) 0 }

/-! ## Buckets -/

/-- The two maps of a `Bucket` (its lock is not modelled). -/
structure Bucket where
  bytedata : Key → Option GoSlice
  uintdata : Key → Option Nat

/-- The result of `make(map...)` twice: a bucket holding nothing. -/
def Bucket.empty : Bucket := { bytedata := fun _ => none, uintdata := fun _ => none }

/-- The assignment `bucket.bytedata[key] = v`. -/
def Bucket.setBytes (b : Bucket) (key : Key) (v : GoSlice) : Bucket :=
  { b with bytedata := Function.update b.bytedata key (some v) }

/-- The statement `delete(bucket.bytedata, key)`. -/
def Bucket.delBytes (b : Bucket) (key : Key) : Bucket :=
  { b with bytedata := Function.update b.bytedata key none }

/-- The assignment `bucket.uintdata[key] = v`. -/
def Bucket.setUint (b : Bucket) (key : Key) (v : Nat) : Bucket :=
  { b with uintdata := Function.update b.uintdata key (some v) }

/-- The statement `delete(bucket.uintdata, key)`. -/
def Bucket.delUint (b : Bucket) (key : Key) : Bucket :=
  { b with uintdata := Function.update b.uintdata key none }

/-- The state a store operation acts on: its bucket and its connection. -/
structure BucketConn where
  bucket : Bucket
  conn : Conn

/-- Run a codec helper on the connection of a store operation. -/
def onConn {α : Type} (p : Proc Conn α) : Proc BucketConn α :=
  Proc.zoom (fun s => s.conn) (fun c s => { s with conn := c }) p

/-- The call `readFillBuf(conn, data[lo:hi])` where `data` is the slice stored
under `key`: whatever is read lands in the stored backing array. -/
def readFillStored (key : Key) (data : GoSlice) (lo hi : Nat) : Proc BucketConn (Option Err) := do
  let w ← data.slice lo hi
  Proc.zoom (fun s => ({ conn := s.conn, buf := w.data } : ConnBuf))
    (fun t s => { conn := t.conn, bucket := s.bucket.setBytes key (data.patch lo t.buf) })
    readFillBuf

/-- The call `readFillBuf(conn, buf[lo:hi])` for a slice `buf` local to the
caller; the result is `buf` after the read. -/
def readFillLocal (buf : GoSlice) (lo hi : Nat) : Proc BucketConn (Option Err × GoSlice) := do
  let w ← buf.slice lo hi
  let (err, filled) ← onConn (withBuf w.data readFillBuf)
  Proc.pure (err, buf.patch lo filled)

/-! ## Store protocol -/

def Store.GetBytes (key : Key) : Proc BucketConn Unit := do
  let s ← Proc.get
  match s.bucket.bytedata key with
  | none => try_ (← onConn (sendMessage errNoKeyReply))
  | some data =>
    try_ (← onConn (sendMessage ackReply))
    try_ (← onConn (sendBytes data.data))

def Store.GetBytesInto (key : Key) : Proc BucketConn Unit := do
  let (dstSize, err) ← onConn readUint32
  check err
  let s ← Proc.get
  match s.bucket.bytedata key with
  | none => try_ (← onConn (sendMessage errNoKeyReply))
  | some data =>
    try_ (← onConn (sendMessage ackReply))
    if dstSize < u32 data.len then
      let part ← data.slice 0 dstSize
      try_ (← onConn (sendBytes part.data))
    else
      try_ (← onConn (sendBytes data.data))

def Store.GetBytesRange (key : Key) : Proc BucketConn Unit := do
  let (start, err) ← onConn readUint32
  check err
  let (end_, err) ← onConn readUint32
  check err
  let end_ := add32 end_ 1
  let s ← Proc.get
  match s.bucket.bytedata key with
  | none => try_ (← onConn (sendMessage errNoKeyReply))
  | some data =>
    try_ (← onConn (sendMessage ackReply))
    let actualSize := u32 data.len
    if start > actualSize then
      try_ (← onConn (sendUint32 0))
    else
      let end_ := if end_ > actualSize then actualSize else end_
      let part ← data.slice start end_
      try_ (← onConn (sendBytes part.data))

def Store.GetBytesRangeInto (key : Key) : Proc BucketConn Unit := do
  let (start, err) ← onConn readUint32
  check err
  let (end_, err) ← onConn readUint32
  check err
  let end_ := add32 end_ 1
  let (dstSize, err) ← onConn readUint32
  check err
  let s ← Proc.get
  match s.bucket.bytedata key with
  | none => try_ (← onConn (sendMessage errNoKeyReply))
  | some data =>
    try_ (← onConn (sendMessage ackReply))
    let actualSize := u32 data.len
    if start > actualSize then
      try_ (← onConn (sendUint32 0))
    else
      let end_ := if end_ > actualSize then actualSize else end_
      let end_ := if sub32 end_ start > dstSize then add32 start dstSize else end_
      let part ← data.slice start end_
      try_ (← onConn (sendBytes part.data))

def Store.SetBytes (key : Key) : Proc BucketConn Unit := do
  let (data, err) ← onConn readBytes
  check err
  Proc.modify (fun s => { s with bucket := s.bucket.setBytes key (GoSlice.ofBytes data) })
  try_ (← onConn (sendMessage ackReply))

def Store.SetBytesRange (grow : Nat → Nat → Nat) (key : Key) : Proc BucketConn Unit := do
  let (start, err) ← onConn readUint32
  check err
  let (newSize, err) ← onConn readUint32
  check err
  let s ← Proc.get
  match s.bucket.bytedata key with
  | none =>
    let buf := GoSlice.make (add32 start newSize)
    let (err, buf) ← readFillLocal buf start (add32 start newSize)
    try_ err
    Proc.modify (fun s => { s with bucket := s.bucket.setBytes key buf })
    try_ (← onConn (sendMessage ackReply))
  | some actualData =>
    let actualSize := u32 actualData.len
    if add32 start newSize ≤ actualSize then
      -- range is within existing array
      try_ (← readFillStored key actualData start (add32 start newSize))
    else
      -- range is beyond existing array
      let (start, newSize, actualData) ←
        if start < actualSize then do
          -- range start within existing array
          try_ (← readFillStored key actualData start actualSize)
          let s ← Proc.get
          -- the local slice header now sees the bytes just read
          let actualData := (s.bucket.bytedata key).getD actualData
          Proc.pure (actualSize, sub32 newSize (sub32 actualSize start), actualData)
        else Proc.pure (start, newSize, actualData)
      -- get and append extended array
      let extendSize := sub32 (add32 start newSize) actualSize
      let extendData := GoSlice.make extendSize
      let (err, extendData) ← readFillLocal extendData (sub32 extendSize newSize) extendSize
      try_ err
      Proc.modify (fun s =>
        { s with bucket := s.bucket.setBytes key (actualData.append grow extendData.data) })
    try_ (← onConn (sendMessage ackReply))

def Store.DelBytes (key : Key) : Proc BucketConn Unit := do
  let s ← Proc.get
  match s.bucket.bytedata key with
  | none => try_ (← onConn (sendMessage errNoKeyReply))
  | some _ =>
    Proc.modify (fun s => { s with bucket := s.bucket.delBytes key })
    try_ (← onConn (sendMessage ackReply))

def Store.TruncateBytes (key : Key) : Proc BucketConn Unit := do
  let (size, err) ← onConn readUint32
  check err
  let s ← Proc.get
  match s.bucket.bytedata key with
  | none => try_ (← onConn (sendMessage errNoKeyReply))
  | some data =>
    try_ (← onConn (sendMessage ackReply))
    if size < u32 data.len then
      let part ← data.slice 0 size
      Proc.modify (fun s => { s with bucket := s.bucket.setBytes key part })

def Store.SetUint (key : Key) : Proc BucketConn Unit := do
  let (val, err) ← onConn readUint32
  check err
  Proc.modify (fun s => { s with bucket := s.bucket.setUint key val })
  try_ (← onConn (sendMessage ackReply))

def Store.GetUint (key : Key) : Proc BucketConn Unit := do
  let s ← Proc.get
  match s.bucket.uintdata key with
  | none => try_ (← onConn (sendMessage errNoKeyReply))
  | some val =>
    try_ (← onConn (sendMessage ackReply))
    try_ (← onConn (sendUint32 val))

def Store.SetUintIfMax (key : Key) : Proc BucketConn Unit := do
  let (val, err) ← onConn readUint32
  check err
  let s ← Proc.get
  match s.bucket.uintdata key with
  | none => Proc.modify (fun s => { s with bucket := s.bucket.setUint key val })
  | some actualVal =>
    if val > actualVal then
      Proc.modify (fun s => { s with bucket := s.bucket.setUint key val })
  try_ (← onConn (sendMessage ackReply))

def Store.DelUint (key : Key) : Proc BucketConn Unit := do
  let s ← Proc.get
  match s.bucket.uintdata key with
  | none => try_ (← onConn (sendMessage errNoKeyReply))
  | some _ =>
    Proc.modify (fun s => { s with bucket := s.bucket.delUint key })
    try_ (← onConn (sendMessage ackReply))

/-! ## The store and its request handler -/

/-- Modelled from the spec: the consistent-hash routing primitive
(`ConsistentHash`, created by `NewConsistentHash`), whose source is not among
the files embedded here. It holds the shard names added so far and maps a key
to a shard name by a fixed function of those names and the key. -/
structure ConsistentHash where
  names : List String
  route : List String → Key → String

def ConsistentHash.Add (h : ConsistentHash) (name : String) : ConsistentHash :=
  { h with names := h.names ++ [name] }

def ConsistentHash.Get (h : ConsistentHash) (key : Key) : String :=
  h.route h.names key

/-- The type `Store`; `stopChan` lists the values sent on the channel. -/
structure Store where
  buckets : String → Option Bucket
  hash : ConsistentHash
  stopChan : List Bool

/-- The loop of `NewStore`, for the indices `0 .. k-1`. -/
def NewStore.fill (route : List String → Key → String) : Nat → (String → Option Bucket) × ConsistentHash
  | 0 => (fun _ => none, { names := [], route := route })
  | k + 1 =>
    let (buckets, hash) := NewStore.fill route k
    let name := toString k
    (Function.update buckets name (some Bucket.empty), hash.Add name)

/-- The constructor `NewStore(n, stopChan)`: buckets `0 .. n`. -/
def NewStore (route : List String → Key → String) (n : Int) : Store :=
  let (buckets, hash) := NewStore.fill route (n + 1).toNat
  { buckets := buckets, hash := hash, stopChan := [] }

/-- The method `getBucket`: `none` stands for the nil pointer a missing map
entry yields. -/
def Store.getBucket (s : Store) (key : Key) : Option Bucket :=
  s.buckets (s.hash.Get key)

/-- The state of a connection worker: the store and the connection. -/
structure Worker where
  store : Store
  conn : Conn

/-- Run a codec helper on the worker's connection. -/
def onWorkerConn {α : Type} (p : Proc Conn α) : Proc Worker α :=
  Proc.zoom (fun s => s.conn) (fun c s => { s with conn := c }) p

/-- Run a store operation on the bucket the key resolves to; the operation
dereferences the bucket pointer first, which panics when it is nil. -/
def onBucket (key : Key) (op : Proc BucketConn Unit) : Proc Worker Unit := fun s =>
  match s.store.getBucket key with
  | none => Res.panic Panic.nilBucket s
  | some bucket =>
    Proc.zoom (fun s => ({ bucket := bucket, conn := s.conn } : BucketConn))
      (fun t s =>
        { conn := t.conn,
          store := { s.store with
            buckets := Function.update s.store.buckets (s.store.hash.Get key) (some t.bucket) } })
      op s

/-- The `switch cmd` statement of `handleRequest`. -/
def Store.handleRequest.dispatch (grow : Nat → Nat → Nat) (cmd : Message) (key : Key) : Proc Worker Unit :=
  if cmd = getBytesCmd then onBucket key (Store.GetBytes key)
  else if cmd = getBytesIntoCmd then onBucket key (Store.GetBytesInto key)
  else if cmd = getBytesRangeCmd then onBucket key (Store.GetBytesRange key)
  else if cmd = getBytesRangeIntoCmd then onBucket key (Store.GetBytesRangeInto key)
  else if cmd = setBytesCmd then onBucket key (Store.SetBytes key)
  else if cmd = setBytesRangeCmd then onBucket key (Store.SetBytesRange grow key)
  else if cmd = delBytesCmd then onBucket key (Store.DelBytes key)
  else if cmd = truncateBytesCmd then onBucket key (Store.TruncateBytes key)
  else if cmd = setUintCmd then onBucket key (Store.SetUint key)
  else if cmd = getUintCmd then onBucket key (Store.GetUint key)
  else if cmd = delUintCmd then onBucket key (Store.DelUint key)
  else if cmd = setUintIfMaxCmd then onBucket key (Store.SetUintIfMax key)
  else Proc.raise (Panic.unknownCommand cmd)

/-- One turn of the loop of `handleRequest`; the result tells whether the loop
goes on (`false`: the function returns). -/
def Store.handleRequest.turn (grow : Nat → Nat → Nat) : Proc Worker Bool := do
  let (cmd, err) ← onWorkerConn readMessage
  if err = some Err.EOF then
    -- connection closed by client
    Proc.pure false
  else do
    check err
    if cmd = stopCmd then
      try_ (← onWorkerConn (sendMessage ackReply))
      Proc.modify (fun s => { s with store := { s.store with stopChan := s.store.stopChan ++ [true] } })
      Proc.pure false
    else do
      let (key, err) ← onWorkerConn readString
      check err
      Store.handleRequest.dispatch grow cmd key
      Proc.pure true

/-- The loop of `handleRequest` run for at most `fuel` turns; the result is
`true` when the function has returned within these turns. -/
def Store.handleRequest.loop (grow : Nat → Nat → Nat) : Nat → Proc Worker Bool
  | 0 => Proc.pure false
  | fuel + 1 => do
    let again ← Store.handleRequest.turn grow
    if again then Store.handleRequest.loop grow fuel else Proc.pure true

/-- The method `handleRequest` on a connection whose peer sends the bytes
`conn.inp` and then closes; every turn that goes on consumes input, so the
length of the input bounds the number of turns. -/
def Store.handleRequest (grow : Nat → Nat → Nat) : Proc Worker Bool := fun s =>
  Store.handleRequest.loop grow (s.conn.inp.length + 1) s

/-! ## The client -/

/-- A client: its end of the connection, and the store served by the worker at
the far end of that connection. -/
structure Client where
  conn : Conn
  peer : Store

/-- Run a codec helper on the client's connection. -/
def onClientConn {α : Type} (p : Proc Conn α) : Proc Client α :=
  Proc.zoom (fun s => s.conn) (fun c s => { s with conn := c }) p

/-- The network and the far end: the worker serving this connection takes the
request the client has written and its reply arrives at the client. With
nothing written the worker stays blocked and nothing arrives. When the worker
panics, what it had written arrives and nothing more. -/
def Client.await (grow : Nat → Nat → Nat) : Proc Client Unit := fun cl =>
  if cl.conn.out = [] then Res.ok () cl
  else
    match Store.handleRequest.turn grow { store := cl.peer, conn := { inp := cl.conn.out, out := [], werrs := [] } } with
    | Res.ok _ w =>
      Res.ok () { conn := { cl.conn with inp := cl.conn.inp ++ w.conn.out, out := w.conn.inp }, peer := w.store }
    | Res.panic _ w =>
      Res.ok () { conn := { cl.conn with inp := cl.conn.inp ++ w.conn.out, out := w.conn.inp }, peer := w.store }

def Client.GetBytes (grow : Nat → Nat → Nat) (key : Key) : Proc Client (List Byte × Option Err) := do
  try_ (← onClientConn (sendMessage getBytesCmd))
  try_ (← onClientConn (sendBytes key))
  Client.await grow
  let (reply, err) ← onClientConn readMessage
  check err
  if reply = errNoKeyReply then Proc.pure ([], some Err.ErrKeyNotFound)
  else if reply = ackReply then do
    let (data, err) ← onClientConn readBytes
    check err
    Proc.pure (data, none)
  else Proc.raise (Panic.serverError reply)

/-- The method `GetBytesInto(key, dst)`; the result carries `dst` as the call
leaves it. -/
def Client.GetBytesInto (grow : Nat → Nat → Nat) (key : Key) (dst : List Byte) :
    Proc Client (Nat × Option Err × List Byte) := do
  try_ (← onClientConn (sendMessage getBytesIntoCmd))
  try_ (← onClientConn (sendBytes key))
  try_ (← onClientConn (sendUint32 (u32 dst.length)))
  Client.await grow
  let (reply, err) ← onClientConn readMessage
  check err
  if reply = errNoKeyReply then Proc.pure (0, some Err.ErrKeyNotFound, dst)
  else if reply = ackReply then do
    let ((n, err), dst) ← onClientConn (withBuf dst readBytesInto)
    match err with
    | none => Proc.pure (n, none, dst)
    | some Err.EOF => Proc.pure (n, some Err.EOF, dst)
    | some e => Proc.raise (Panic.err e)
  else Proc.raise (Panic.serverError reply)

def Client.GetBytesRange (grow : Nat → Nat → Nat) (key : Key) (start end_ : Nat) :
    Proc Client (List Byte × Option Err) := do
  try_ (← onClientConn (sendMessage getBytesRangeCmd))
  try_ (← onClientConn (sendBytes key))
  try_ (← onClientConn (sendUint32 start))
  try_ (← onClientConn (sendUint32 end_))
  Client.await grow
  let (reply, err) ← onClientConn readMessage
  check err
  if reply = errNoKeyReply then Proc.pure ([], some Err.ErrKeyNotFound)
  else if reply = ackReply then do
    let (data, err) ← onClientConn readBytes
    check err
    Proc.pure (data, none)
  else Proc.raise (Panic.serverError reply)

/-- The method `GetBytesRangeInto(key, start, end, dst)`; the result carries
`dst` as the call leaves it. -/
def Client.GetBytesRangeInto (grow : Nat → Nat → Nat) (key : Key) (start end_ : Nat)
    (dst : List Byte) : Proc Client (Nat × Option Err × List Byte) := do
  try_ (← onClientConn (sendMessage getBytesRangeIntoCmd))
  try_ (← onClientConn (sendBytes key))
  try_ (← onClientConn (sendUint32 start))
  try_ (← onClientConn (sendUint32 end_))
  try_ (← onClientConn (sendUint32 (u32 dst.length)))
  Client.await grow
  let (reply, err) ← onClientConn readMessage
  check err
  if reply = errNoKeyReply then Proc.pure (0, some Err.ErrKeyNotFound, dst)
  else if reply = ackReply then do
    let ((n, err), dst) ← onClientConn (withBuf dst readBytesInto)
    match err with
    | none => Proc.pure (n, none, dst)
    | some Err.EOF => Proc.pure (n, some Err.EOF, dst)
    | some e => Proc.raise (Panic.err e)
  else Proc.raise (Panic.serverError reply)

def Client.SetBytes (grow : Nat → Nat → Nat) (key : Key) (data : List Byte) : Proc Client Unit := do
  try_ (← onClientConn (sendMessage setBytesCmd))
  try_ (← onClientConn (sendBytes key))
  try_ (← onClientConn (sendBytes data))
  Client.await grow
  let (reply, err) ← onClientConn readMessage
  check err
  if reply = ackReply then Proc.pure ()
  else Proc.raise (Panic.serverError reply)

def Client.SetBytesRange (grow : Nat → Nat → Nat) (key : Key) (start : Nat) (data : List Byte) :
    Proc Client Unit := do
  try_ (← onClientConn (sendMessage setBytesRangeCmd))
  try_ (← onClientConn (sendBytes key))
  try_ (← onClientConn (sendUint32 start))
  try_ (← onClientConn (sendBytes data))
  Client.await grow
  let (reply, err) ← onClientConn readMessage
  check err
  if reply = ackReply then Proc.pure ()
  else Proc.raise (Panic.serverError reply)

def Client.DelBytes (grow : Nat → Nat → Nat) (key : Key) : Proc Client (Option Err) := do
  try_ (← onClientConn (sendMessage delBytesCmd))
  try_ (← onClientConn (sendBytes key))
  Client.await grow
  let (reply, err) ← onClientConn readMessage
  check err
  if reply = errNoKeyReply then Proc.pure (some Err.ErrKeyNotFound)
  else if reply = ackReply then Proc.pure none
  else Proc.raise (Panic.serverError reply)

def Client.TruncateBytes (grow : Nat → Nat → Nat) (key : Key) (size : Nat) : Proc Client (Option Err) := do
  try_ (← onClientConn (sendMessage truncateBytesCmd))
  try_ (← onClientConn (sendBytes key))
  try_ (← onClientConn (sendUint32 size))
  Client.await grow
  let (reply, err) ← onClientConn readMessage
  check err
  if reply = errNoKeyReply then Proc.pure (some Err.ErrKeyNotFound)
  else if reply = ackReply then Proc.pure none
  else Proc.raise (Panic.serverError reply)

def Client.SetUint (grow : Nat → Nat → Nat) (key : Key) (val : Nat) : Proc Client Unit := do
  try_ (← onClientConn (sendMessage setUintCmd))
  try_ (← onClientConn (sendBytes key))
  try_ (← onClientConn (sendUint32 val))
  Client.await grow
  let (reply, err) ← onClientConn readMessage
  check err
  if reply = ackReply then Proc.pure ()
  else Proc.raise (Panic.serverError reply)

def Client.GetUint (grow : Nat → Nat → Nat) (key : Key) : Proc Client (Nat × Option Err) := do
  try_ (← onClientConn (sendMessage getUintCmd))
  try_ (← onClientConn (sendBytes key))
  Client.await grow
  let (reply, err) ← onClientConn readMessage
  check err
  if reply = errNoKeyReply then Proc.pure (0, some Err.ErrKeyNotFound)
  else if reply = ackReply then do
    let (val, err) ← onClientConn readUint32
    check err
    Proc.pure (val, none)
  else Proc.raise (Panic.serverError reply)

def Client.SetUintIfMax (grow : Nat → Nat → Nat) (key : Key) (val : Nat) : Proc Client Unit := do
  try_ (← onClientConn (sendMessage setUintIfMaxCmd))
  try_ (← onClientConn (sendBytes key))
  try_ (← onClientConn (sendUint32 val))
  Client.await grow
  let (reply, err) ← onClientConn readMessage
  check err
  if reply = ackReply then Proc.pure ()
  else Proc.raise (Panic.serverError reply)

def Client.DelUint (grow : Nat → Nat → Nat) (key : Key) : Proc Client (Option Err) := do
  try_ (← onClientConn (sendMessage delUintCmd))
  try_ (← onClientConn (sendBytes key))
  Client.await grow
  let (reply, err) ← onClientConn readMessage
  check err
  if reply = errNoKeyReply then Proc.pure (some Err.ErrKeyNotFound)
  else if reply = ackReply then Proc.pure none
  else Proc.raise (Panic.serverError reply)

/-! ## The server -/

/-- The type `ServerOptions`. -/
structure ServerOptions where
  Bind : String
  Port : Int
  Buckets : Int

/-- The method `normalize`. -/
def ServerOptions.normalize (o : ServerOptions) : ServerOptions :=
  -- string zero-value, default to localhost
  let o := if o.Bind = "" then { o with Bind := "127.0.0.1" } else o
  -- listen on all interfaces
  let o := if o.Bind = "*" then { o with Bind := "" } else o
  let o := if o.Port = 0 then { o with Port := 8001 } else o
  -- let the Listener select a port automatically
  let o := if o.Port = -1 then { o with Port := 0 } else o
  if o.Buckets = 0 then { o with Buckets := 20 } else o

/-- A `net.Listener` as the server uses it: whether it is still open, and the
number of connections that clients have established and `Accept` has not yet
returned. -/
structure Listener where
  isOpen : Bool
  pending : Nat

/-- A client's `net.Dial` to the listener's address: while the listener is open
the connection is established and queued for `Accept`; once it is closed the
attempt fails (`none`). -/
def Listener.dial (l : Listener) : Option Listener :=
  if l.isOpen then some { l with pending := l.pending + 1 } else none

/-- The type `Server`. The field `stop` is the channel that the store holds as
`stopChan`, so it is not repeated; its buffer has room for one value. The
address string is left out. -/
structure Server where
  opt : ServerOptions
  listener : Listener
  store : Store

/-- The constructor `NewServer(opt)` in the case that `net.Listen` succeeds
(otherwise `check(err)` panics and there is no server). -/
def NewServer (route : List String → Key → String) (opt : ServerOptions) : Server :=
  let opt := opt.normalize
  { opt := opt, listener := { isOpen := true, pending := 0 }, store := NewStore route opt.Buckets }

/-- The method `Shutdown`: the send on the stop channel, then the close of the
listener, taken as one step. The send blocks (`none`) while the buffer of the
channel is full. -/
def Server.Shutdown (s : Server) : Option Server :=
  if s.store.stopChan.length ≥ 1 then none
  else
    some { s with
      store := { s.store with stopChan := s.store.stopChan ++ [true] },
      listener := { s.listener with isOpen := false } }

/-- The statement of `Start` that its goroutine executes next. -/
inductive StartPc
  | accept
  | recvStop
  | wait
  | returned
  | panicked
  deriving DecidableEq

/-- A server together with the frame of its call of `Start`: the counter of the
wait group `wg`, the number of connections `Accept` has returned, and the
statement reached. -/
structure Process where
  server : Server
  wg : Nat
  accepted : Nat
  pc : StartPc

/-- The state in which `Start` is called on a server. -/
def Server.process (s : Server) : Process :=
  { server := s, wg := 0, accepted := 0, pc := StartPc.accept }

/-- One step of the goroutine that runs `Start`; `none` when it is blocked or
has finished.

* at `accept`: `Accept` returns a queued connection, if there is one, and the
  worker is spawned (`wg.Add(1)`, `go handleRequest`); on a closed listener it
  returns an error, and the `select` receives from the stop channel and leaves
  the loop, or panics when the channel is empty;
* at `recvStop`: the receive `<-s.stop` blocks until the channel holds a value;
  a true value leaves the loop, a false one goes back to `Accept`;
* at `wait`: `wg.Wait()` returns once the counter is zero. -/
def Server.Start.step (p : Process) : Option Process :=
  match p.pc with
  | StartPc.accept =>
    if p.server.listener.isOpen then
      if p.server.listener.pending = 0 then none
      else
        some { p with
          server := { p.server with
            listener := { p.server.listener with pending := p.server.listener.pending - 1 } },
          wg := p.wg + 1,
          accepted := p.accepted + 1,
          pc := StartPc.recvStop }
    else
      match p.server.store.stopChan with
      | _ :: rest =>
        some { p with
          server := { p.server with store := { p.server.store with stopChan := rest } },
          pc := StartPc.wait }
      | [] => some { p with pc := StartPc.panicked }
  | StartPc.recvStop =>
    match p.server.store.stopChan with
    | v :: rest =>
      some { p with
        server := { p.server with store := { p.server.store with stopChan := rest } },
        pc := if v then StartPc.wait else StartPc.accept }
    | [] => none
  | StartPc.wait => if p.wg = 0 then some { p with pc := StartPc.returned } else none
  | StartPc.returned => none
  | StartPc.panicked => none

/-- One turn of the loop of `handleRequest` in one of the spawned workers, on
the bytes `inp` that have arrived on its connection (none when the client has
closed it). When the turn ends the loop the function returns and its deferred
`wg.Done()` runs. The send on the stop channel blocks (`none`) while the buffer
is full. A panic of the worker ends the process. -/
def Process.workerTurn (grow : Nat → Nat → Nat) (inp : List Byte) (p : Process) : Option Process :=
  if p.wg = 0 then none
  else
    match Store.handleRequest.turn grow { store := p.server.store, conn := { inp := inp, out := [], werrs := [] } } with
    | Res.ok again w =>
      if w.store.stopChan.length > 1 then none
      else
        some { p with
          server := { p.server with store := w.store },
          wg := if again then p.wg else p.wg - 1 }
    | Res.panic _ w =>
      some { p with server := { p.server with store := w.store }, pc := StartPc.panicked }

/-! ## Vocabulary of the statements

The statements below run the operations on connections whose writes all
succeed (`werrs = []`). A request is given by the bytes of its fields at the
front of the input of the server's connection; what follows them (`rest`) is
left unread. A stored value is a `GoSlice` `s`; the value itself is `s.data`,
and `s.spare` is capacity beyond it. The lengths of stored values are below
`2^32`, as every length the server stores is the result of 32-bit arithmetic.
-/

/-- The bytes `sendBytes` writes for `d`: a length word and the bytes. -/
def lenPrefixed (d : List Byte) : List Byte := PutUint32 (u32 d.length) ++ d

/-- The store after the bucket that `key` resolves to has become `b`. -/
def Store.withBucket (st : Store) (key : Key) (b : Bucket) : Store :=
  { st with buckets := Function.update st.buckets (st.hash.Get key) (some b) }

/-- A connection on which nothing is pending in either direction and on which
no write fails. -/
def Conn.idle : Conn := { inp := [], out := [], werrs := [] }

/-- A store with the single bucket `0`, to which every key is routed. -/
def oneBucketStore : Store := NewStore (fun _ _ => "0") 0

/-- The value a range write of `data` at offset `start` leaves in place of `V`:
the bytes of `V` before `start`, zeros up to `start` when `V` is shorter, the
data, and the bytes of `V` after the written range. -/
def splice (V : List Byte) (start : Nat) (data : List Byte) : List Byte :=
  V.take start ++ List.replicate (start - V.length) 0 ++ data ++ V.drop (start + data.length)

/-- The bytes `D[s], ..., D[min(e, len(D)-1)]` of a range read with inclusive
end `e`, empty when `s` is at or past the end of `D`. -/
def rangeOf (D : List Byte) (s e : Nat) : List Byte :=
  if D.length ≤ s then [] else (D.take (min e (D.length - 1) + 1)).drop s

/-- The calls `SetUintIfMax(K, v1)`, ..., `SetUintIfMax(K, vn)` made one after
the other on the same bucket and connection, `n` being the argument. -/
def setUintIfMaxCalls (key : Key) : Nat → Proc BucketConn Unit
  | 0 => Proc.pure ()
  | n + 1 => Store.SetUintIfMax key >>= fun _ => setUintIfMaxCalls key n

/-- The value fields of a sequence of integer requests, as they arrive. -/
def uintFields : List Nat → List Byte
  | [] => []
  | v :: vs => PutUint32 v ++ uintFields vs

/-- The value `SetUintIfMax` leaves for a key: the new value when the key was
absent, and otherwise the greater of the stored and the new value. -/
def highWater (cur : Option Nat) (v : Nat) : Nat :=
  match cur with
  | none => v
  | some u => max u v

/-- The outcome `r` satisfies `Q` when it is a return and `E` when it is a
panic. -/
def Res.sat {σ α : Type} (r : Res σ α) (Q : α → σ → Prop) (E : σ → Prop) : Prop :=
  match r with
  | Res.ok a s => Q a s
  | Res.panic _ s => E s

/-- Every stored byte value is shorter than `2^32`. -/
def Bucket.bounded (b : Bucket) : Prop :=
  ∀ (k : Key) (s : GoSlice), b.bytedata k = some s → s.data.length < 2 ^ 32

/-- The value of a decimal digit character. -/
def digitVal (c : Char) : Nat := c.toNat - 48

/-- The number a string of decimal digits stands for. -/
def decimalVal (l : List Char) : Nat := l.foldl (fun acc c => acc * 10 + digitVal c) 0

/-- What can happen next to a server process: a client connects, the goroutine
of `Start` takes a step, a worker runs a turn on the bytes that have arrived
for it, or `Shutdown` is called. -/
inductive Event
  | connect
  | start
  | worker (inp : List Byte)
  | shutdown

/-- The effect of an event; an event that cannot happen in the state (a
refused connection, a blocked goroutine) leaves the state as it is. -/
def Process.apply (grow : Nat → Nat → Nat) (e : Event) (p : Process) : Process :=
  match e with
  | Event.connect =>
    match p.server.listener.dial with
    | some l => { p with server := { p.server with listener := l } }
    | none => p
  | Event.start => (Server.Start.step p).getD p
  | Event.worker inp => (p.workerTurn grow inp).getD p
  | Event.shutdown =>
    match p.server.Shutdown with
    | some s => { p with server := s }
    | none => p

/-- The state after a sequence of events. -/
def Process.run (grow : Nat → Nat → Nat) : List Event → Process → Process
  | [], p => p
  | e :: es, p => Process.run grow es (p.apply grow e)

/-- No value is sent on the stop channel during the events `es`. -/
def Process.quiet (grow : Nat → Nat → Nat) (es : List Event) (p : Process) : Prop :=
  ∀ k : Nat, ((p.run grow (es.take k)).server.store.stopChan = [])

/-- The ten bytes of the text `0123456789`. -/
def tenDigits : List Byte := [48, 49, 50, 51, 52, 53, 54, 55, 56, 57]

/-- The text `0123456789` written `n` times. -/
def digitsTimes : Nat → List Byte
  | 0 => []
  | n + 1 => tenDigits ++ digitsTimes n

/-- The byte value a store holds for a key: the entry of the key in the byte
mapping of the bucket the key resolves to. -/
def Store.bytesAt (st : Store) (k : Key) : Option GoSlice :=
  (st.getBucket k).bind (fun b => b.bytedata k)

/-- The integer a store holds for a key. -/
def Store.uintAt (st : Store) (k : Key) : Option Nat :=
  (st.getBucket k).bind (fun b => b.uintdata k)

/-- A request of the protocol other than stop, with its arguments. -/
inductive Request
  | getBytes (key : Key)
  | getBytesInto (key : Key) (dstSize : Nat)
  | getBytesRange (key : Key) (start end_ : Nat)
  | getBytesRangeInto (key : Key) (start end_ dstSize : Nat)
  | setBytes (key : Key) (data : List Byte)
  | setBytesRange (key : Key) (start : Nat) (data : List Byte)
  | delBytes (key : Key)
  | truncateBytes (key : Key) (size : Nat)
  | setUint (key : Key) (val : Nat)
  | getUint (key : Key)
  | setUintIfMax (key : Key) (val : Nat)
  | delUint (key : Key)

/-- The command byte of a request. -/
def Request.cmd : Request → Message
  | Request.getBytes _ => getBytesCmd
  | Request.getBytesInto _ _ => getBytesIntoCmd
  | Request.getBytesRange _ _ _ => getBytesRangeCmd
  | Request.getBytesRangeInto _ _ _ _ => getBytesRangeIntoCmd
  | Request.setBytes _ _ => setBytesCmd
  | Request.setBytesRange _ _ _ => setBytesRangeCmd
  | Request.delBytes _ => delBytesCmd
  | Request.truncateBytes _ _ => truncateBytesCmd
  | Request.setUint _ _ => setUintCmd
  | Request.getUint _ => getUintCmd
  | Request.setUintIfMax _ _ => setUintIfMaxCmd
  | Request.delUint _ => delUintCmd

/-- The key of a request. -/
def Request.key : Request → Key
  | Request.getBytes k => k
  | Request.getBytesInto k _ => k
  | Request.getBytesRange k _ _ => k
  | Request.getBytesRangeInto k _ _ _ => k
  | Request.setBytes k _ => k
  | Request.setBytesRange k _ _ => k
  | Request.delBytes k => k
  | Request.truncateBytes k _ => k
  | Request.setUint k _ => k
  | Request.getUint k => k
  | Request.setUintIfMax k _ => k
  | Request.delUint k => k

/-- The fields that follow the key, as the client method writes them. -/
def Request.fields : Request → List Byte
  | Request.getBytes _ => []
  | Request.getBytesInto _ n => PutUint32 n
  | Request.getBytesRange _ s e => PutUint32 s ++ PutUint32 e
  | Request.getBytesRangeInto _ s e n => PutUint32 s ++ (PutUint32 e ++ PutUint32 n)
  | Request.setBytes _ d => lenPrefixed d
  | Request.setBytesRange _ s d => PutUint32 s ++ lenPrefixed d
  | Request.delBytes _ => []
  | Request.truncateBytes _ n => PutUint32 n
  | Request.setUint _ v => PutUint32 v
  | Request.getUint _ => []
  | Request.setUintIfMax _ v => PutUint32 v
  | Request.delUint _ => []

/-- The bytes of a request on the wire. -/
def Request.bytes (r : Request) : List Byte := r.cmd :: (lenPrefixed r.key ++ r.fields)

/-- The integers of the request, the length of its payload included, fit
their 4-byte fields. -/
def Request.fits : Request → Prop
  | Request.getBytes _ => True
  | Request.getBytesInto _ n => n < 2 ^ 32
  | Request.getBytesRange _ s e => s < 2 ^ 32 ∧ e < 2 ^ 32
  | Request.getBytesRangeInto _ s e n => s < 2 ^ 32 ∧ e < 2 ^ 32 ∧ n < 2 ^ 32
  | Request.setBytes _ d => d.length < 2 ^ 32
  | Request.setBytesRange _ s d => s < 2 ^ 32 ∧ d.length < 2 ^ 32
  | Request.delBytes _ => True
  | Request.truncateBytes _ n => n < 2 ^ 32
  | Request.setUint _ v => v < 2 ^ 32
  | Request.getUint _ => True
  | Request.setUintIfMax _ v => v < 2 ^ 32
  | Request.delUint _ => True

/-- The outcome `r` is a panic, and the value it panics with satisfies `P`. -/
def Res.panicsWith {σ α : Type} (r : Res σ α) (P : Panic → Prop) : Prop :=
  match r with
  | Res.ok _ _ => False
  | Res.panic p _ => P p

/-- The handler, started in the state `s`, completes `n` requests one after the
other and is then in the state `t`, ready to read the next command. -/
inductive Serves (grow : Nat → Nat → Nat) : Nat → Worker → Worker → Prop
  | zero (s : Worker) : Serves grow 0 s s
  | step (n : Nat) (s s1 t : Worker) (h : Store.handleRequest.turn grow s = Res.ok true s1)
      (rest : Serves grow n s1 t) : Serves grow (n + 1) s t

/-- The panics with which the handler meets a request that is cut short: the
two end-of-stream errors, and for a `SetBytesRange` request whose
`start + len(data)` overflows 32 bits the run-time panic on a slice. -/
def Request.framingPanic (r : Request) (p : Panic) : Prop :=
  p = Panic.err Err.EOF ∨ p = Panic.err Err.ErrUnexpectedEOF ∨
    (p = Panic.sliceBounds ∧
      ∃ (key : Key) (start : Nat) (data : List Byte),
        r = Request.setBytesRange key start data ∧ 2 ^ 32 ≤ start + data.length)

/-! ## Running the codec -/

@[simp] theorem Proc.bind_eq {σ α β : Type} (x : Proc σ α) (f : α → Proc σ β) :
    (x >>= f) = Proc.bind x f := rfl

@[simp] theorem Proc.pure_eq {σ α : Type} (a : α) : (Pure.pure a : Proc σ α) = Proc.pure a := rfl

theorem Uint32_PutUint32 (v : Nat) (h : v < 2 ^ 32) (rest : List Byte) :
    Uint32 (PutUint32 v ++ rest) = v := by
  simp only [PutUint32, Uint32, List.cons_append, List.nil_append, Fin.ofNat, Fin.val_mk]
  omega

theorem readUint32_ok (v : Nat) (h : v < 2 ^ 32) (rest out : List Byte) (w : List Bool) :
    readUint32 ⟨PutUint32 v ++ rest, out, w⟩ = Res.ok (v, none) ⟨rest, out, w⟩ := by
  have := Uint32_PutUint32 v h []
  simp [readUint32, Proc.bind, withBuf, ReadAtLeast, Proc.pure, PutUint32] at *
  simpa [Uint32] using this

theorem readMessage_ok (m : Message) (rest out : List Byte) (w : List Bool) :
    readMessage ⟨m :: rest, out, w⟩ = Res.ok (m, none) ⟨rest, out, w⟩ := by
  simp [readMessage, Proc.bind, withBuf, ReadAtLeast, Proc.pure]

theorem sendMessage_ok (m : Message) (inp out : List Byte) :
    sendMessage m ⟨inp, out, []⟩ = Res.ok none ⟨inp, out ++ [m], []⟩ := by
  simp [sendMessage, Conn.Write]

theorem sendUint32_ok (v : Nat) (inp out : List Byte) :
    sendUint32 v ⟨inp, out, []⟩ = Res.ok none ⟨inp, out ++ PutUint32 v, []⟩ := by
  simp [sendUint32, Conn.Write]

theorem sendBytes_ok (d inp out : List Byte) :
    sendBytes d ⟨inp, out, []⟩ = Res.ok none ⟨inp, out ++ lenPrefixed d, []⟩ := by
  simp [sendBytes, sendUint32, Conn.Write, Proc.bind, lenPrefixed]

theorem readFillBuf_ok (d buf rest out : List Byte) (w : List Bool) (h : buf.length = d.length) :
    readFillBuf ⟨⟨d ++ rest, out, w⟩, buf⟩ = Res.ok none ⟨⟨rest, out, w⟩, d⟩ := by
  by_cases hd : d.length = 0
  · have hd0 : d = [] := List.length_eq_zero.mp hd
    have hb0 : buf = [] := List.length_eq_zero.mp (by omega)
    subst hd0 hb0
    simp [readFillBuf, Proc.bind, Proc.get, ReadAtLeast, Proc.pure]
  · simp [readFillBuf, Proc.bind, Proc.get, ReadAtLeast, Proc.pure, h, hd]

theorem readBytes_ok (d rest out : List Byte) (w : List Bool) (h : d.length < 2 ^ 32) :
    readBytes ⟨lenPrefixed d ++ rest, out, w⟩ = Res.ok (d, none) ⟨rest, out, w⟩ := by
  have hu : u32 d.length = d.length := Nat.mod_eq_of_lt h
  simp [readBytes, lenPrefixed, hu, Proc.bind, readUint32_ok _ h, withBuf,
    readFillBuf_ok d (List.replicate d.length 0) rest out w (by simp), Proc.pure]

theorem readString_ok (d rest out : List Byte) (w : List Bool) (h : d.length < 2 ^ 32) :
    readString ⟨lenPrefixed d ++ rest, out, w⟩ = Res.ok (d, none) ⟨rest, out, w⟩ := by
  simp [readString, Proc.bind, readBytes_ok d rest out w h, Proc.pure]

/-! ## Running the lifts -/

theorem onConn_run {α : Type} (p : Proc Conn α) (b : Bucket) (c : Conn) :
    onConn p ⟨b, c⟩ =
      match p c with
      | Res.ok a c1 => Res.ok a ⟨b, c1⟩
      | Res.panic e c1 => Res.panic e ⟨b, c1⟩ := by
  simp only [onConn, Proc.zoom]
  cases p c <;> rfl

theorem onClientConn_run {α : Type} (p : Proc Conn α) (st : Store) (c : Conn) :
    onClientConn p ⟨c, st⟩ =
      match p c with
      | Res.ok a c1 => Res.ok a ⟨c1, st⟩
      | Res.panic e c1 => Res.panic e ⟨c1, st⟩ := by
  simp only [onClientConn, Proc.zoom]
  cases p c <;> rfl

theorem onWorkerConn_run {α : Type} (p : Proc Conn α) (st : Store) (c : Conn) :
    onWorkerConn p ⟨st, c⟩ =
      match p c with
      | Res.ok a c1 => Res.ok a ⟨st, c1⟩
      | Res.panic e c1 => Res.panic e ⟨st, c1⟩ := by
  simp only [onWorkerConn, Proc.zoom]
  cases p c <;> rfl

theorem onBucket_run (key : Key) (op : Proc BucketConn Unit) (st : Store) (c : Conn) (b : Bucket)
    (h : st.getBucket key = some b) :
    onBucket key op ⟨st, c⟩ =
      match op ⟨b, c⟩ with
      | Res.ok a t => Res.ok a ⟨st.withBucket key t.bucket, t.conn⟩
      | Res.panic e t => Res.panic e ⟨st.withBucket key t.bucket, t.conn⟩ := by
  simp only [onBucket, h, Proc.zoom, Store.withBucket]
  cases op ⟨b, c⟩ <;> rfl

/-- A turn of the handler on a complete request header: the command and the
key are consumed and the command is dispatched. -/
theorem turn_run (grow : Nat → Nat → Nat) (cmd : Message) (key : Key) (st : Store)
    (rest out : List Byte) (w : List Bool) (hc : cmd ≠ stopCmd) (hk : key.length < 2 ^ 32) :
    Store.handleRequest.turn grow ⟨st, ⟨cmd :: (lenPrefixed key ++ rest), out, w⟩⟩ =
      match Store.handleRequest.dispatch grow cmd key ⟨st, ⟨rest, out, w⟩⟩ with
      | Res.ok _ s => Res.ok true s
      | Res.panic e s => Res.panic e s := by
  simp only [Store.handleRequest.turn, Proc.bind_eq, Proc.bind, onWorkerConn_run, readMessage_ok, check,
    try_, Proc.pure, hc, readString_ok key rest out w hk, reduceCtorEq, if_false]
  cases Store.handleRequest.dispatch grow cmd key ⟨st, ⟨rest, out, w⟩⟩ <;> rfl

/-- The exchange behind a client call: when the store operation selected by
`cmd` turns the fields into a reply, the client finds that reply on its
connection and the store holds the bucket as the operation left it. -/
theorem await_run (grow : Nat → Nat → Nat) (cmd : Message) (key : Key) (op : Proc BucketConn Unit)
    (st : Store) (b b1 : Bucket) (fields reply : List Byte)
    (hc : cmd ≠ stopCmd) (hk : key.length < 2 ^ 32)
    (hd : Store.handleRequest.dispatch grow cmd key = onBucket key op)
    (hb : st.getBucket key = some b)
    (hop : op ⟨b, ⟨fields, [], []⟩⟩ = Res.ok () ⟨b1, ⟨[], reply, []⟩⟩) :
    Client.await grow ⟨⟨[], cmd :: (lenPrefixed key ++ fields), []⟩, st⟩ =
      Res.ok () ⟨⟨reply, [], []⟩, st.withBucket key b1⟩ := by
  simp [Client.await, turn_run grow cmd key st fields [] [] hc hk, hd, onBucket_run key op st _ b hb, hop]

theorem getBucket_withBucket (st : Store) (key : Key) (b : Bucket) :
    (st.withBucket key b).getBucket key = some b := by
  simp [Store.withBucket, Store.getBucket, ConsistentHash.Get]

theorem withBucket_withBucket (st : Store) (key : Key) (b b1 : Bucket) :
    (st.withBucket key b).withBucket key b1 = st.withBucket key b1 := by
  simp [Store.withBucket, ConsistentHash.Get]

theorem withBucket_self (st : Store) (key : Key) (b : Bucket) (h : st.getBucket key = some b) :
    st.withBucket key b = st := by
  unfold Store.getBucket at h
  simp [Store.withBucket, ← h]

/-! ## Running the store operations that set and get whole values -/

theorem SetBytes_run (key : Key) (b : Bucket) (d rest out : List Byte) (h : d.length < 2 ^ 32) :
    Store.SetBytes key ⟨b, ⟨lenPrefixed d ++ rest, out, []⟩⟩ =
      Res.ok () ⟨b.setBytes key (GoSlice.ofBytes d), ⟨rest, out ++ [ackReply], []⟩⟩ := by
  simp [Store.SetBytes, Proc.bind, onConn_run, readBytes_ok d rest out [] h, check, try_, Proc.pure,
    Proc.modify, sendMessage_ok]

theorem GetBytes_run (key : Key) (b : Bucket) (s : GoSlice) (inp out : List Byte)
    (h : b.bytedata key = some s) :
    Store.GetBytes key ⟨b, ⟨inp, out, []⟩⟩ =
      Res.ok () ⟨b, ⟨inp, out ++ ([ackReply] ++ lenPrefixed s.data), []⟩⟩ := by
  simp [Store.GetBytes, Proc.bind, Proc.get, h, onConn_run, try_, Proc.pure, sendMessage_ok, sendBytes_ok]

theorem SetUint_run (key : Key) (b : Bucket) (v : Nat) (rest out : List Byte) (h : v < 2 ^ 32) :
    Store.SetUint key ⟨b, ⟨PutUint32 v ++ rest, out, []⟩⟩ =
      Res.ok () ⟨b.setUint key v, ⟨rest, out ++ [ackReply], []⟩⟩ := by
  simp [Store.SetUint, Proc.bind, onConn_run, readUint32_ok v h, check, try_, Proc.pure,
    Proc.modify, sendMessage_ok]

theorem GetUint_run (key : Key) (b : Bucket) (v : Nat) (inp out : List Byte)
    (h : b.uintdata key = some v) :
    Store.GetUint key ⟨b, ⟨inp, out, []⟩⟩ =
      Res.ok () ⟨b, ⟨inp, out ++ ([ackReply] ++ PutUint32 v), []⟩⟩ := by
  simp [Store.GetUint, Proc.bind, Proc.get, h, onConn_run, try_, Proc.pure, sendMessage_ok, sendUint32_ok]

theorem dispatch_cases (grow : Nat → Nat → Nat) (key : Key) :
    Store.handleRequest.dispatch grow getBytesCmd key = onBucket key (Store.GetBytes key) ∧
    Store.handleRequest.dispatch grow getBytesIntoCmd key = onBucket key (Store.GetBytesInto key) ∧
    Store.handleRequest.dispatch grow getBytesRangeCmd key = onBucket key (Store.GetBytesRange key) ∧
    Store.handleRequest.dispatch grow getBytesRangeIntoCmd key =
      onBucket key (Store.GetBytesRangeInto key) ∧
    Store.handleRequest.dispatch grow setBytesCmd key = onBucket key (Store.SetBytes key) ∧
    Store.handleRequest.dispatch grow setBytesRangeCmd key =
      onBucket key (Store.SetBytesRange grow key) ∧
    Store.handleRequest.dispatch grow delBytesCmd key = onBucket key (Store.DelBytes key) ∧
    Store.handleRequest.dispatch grow truncateBytesCmd key = onBucket key (Store.TruncateBytes key) ∧
    Store.handleRequest.dispatch grow setUintCmd key = onBucket key (Store.SetUint key) ∧
    Store.handleRequest.dispatch grow getUintCmd key = onBucket key (Store.GetUint key) ∧
    Store.handleRequest.dispatch grow delUintCmd key = onBucket key (Store.DelUint key) ∧
    Store.handleRequest.dispatch grow setUintIfMaxCmd key = onBucket key (Store.SetUintIfMax key) := by
  refine ⟨rfl, rfl, rfl, rfl, rfl, rfl, rfl, rfl, rfl, rfl, rfl, rfl⟩

/-! ## Running the client calls that set and get whole values -/

theorem Client_SetBytes_run (grow : Nat → Nat → Nat) (key : Key) (st : Store) (b : Bucket)
    (d : List Byte) (hk : key.length < 2 ^ 32) (hd : d.length < 2 ^ 32)
    (hb : st.getBucket key = some b) :
    Client.SetBytes grow key d ⟨Conn.idle, st⟩ =
      Res.ok () ⟨Conn.idle, st.withBucket key (b.setBytes key (GoSlice.ofBytes d))⟩ := by
  have hx := await_run grow setBytesCmd key (Store.SetBytes key) st b _ (lenPrefixed d) [ackReply]
    (by decide) hk (dispatch_cases grow key).2.2.2.2.1 hb
    (by simpa using SetBytes_run key b d [] [] hd)
  simp [Client.SetBytes, Conn.idle, Proc.bind, onClientConn_run, sendMessage_ok, sendBytes_ok, try_, check,
    hx, readMessage_ok, Proc.pure]

theorem ackReply_ne_errNoKeyReply : ackReply ≠ errNoKeyReply := by decide

theorem Client_GetBytes_run (grow : Nat → Nat → Nat) (key : Key) (st : Store) (b : Bucket)
    (s : GoSlice) (hk : key.length < 2 ^ 32) (hs : s.data.length < 2 ^ 32)
    (hb : st.getBucket key = some b) (h : b.bytedata key = some s) :
    Client.GetBytes grow key ⟨Conn.idle, st⟩ = Res.ok (s.data, none) ⟨Conn.idle, st⟩ := by
  have hx := await_run grow getBytesCmd key (Store.GetBytes key) st b b [] ([ackReply] ++ lenPrefixed s.data)
    (by decide) hk (dispatch_cases grow key).1 hb
    (by simpa using GetBytes_run key b s [] [] h)
  have hr := readBytes_ok s.data [] [] [] hs
  simp only [List.append_nil] at hr hx
  simp [Client.GetBytes, Conn.idle, Proc.bind, onClientConn_run, sendMessage_ok, sendBytes_ok, try_, check,
    hx, readMessage_ok, Proc.pure, hr, withBucket_self st key b hb, ackReply_ne_errNoKeyReply]

theorem Client_SetUint_run (grow : Nat → Nat → Nat) (key : Key) (st : Store) (b : Bucket)
    (v : Nat) (hk : key.length < 2 ^ 32) (hv : v < 2 ^ 32) (hb : st.getBucket key = some b) :
    Client.SetUint grow key v ⟨Conn.idle, st⟩ =
      Res.ok () ⟨Conn.idle, st.withBucket key (b.setUint key v)⟩ := by
  have hx := await_run grow setUintCmd key (Store.SetUint key) st b _ (PutUint32 v) [ackReply]
    (by decide) hk (dispatch_cases grow key).2.2.2.2.2.2.2.2.1 hb
    (by simpa using SetUint_run key b v [] [] hv)
  simp [Client.SetUint, Conn.idle, Proc.bind, onClientConn_run, sendMessage_ok, sendBytes_ok, sendUint32_ok,
    try_, check, hx, readMessage_ok, Proc.pure]

theorem Client_GetUint_run (grow : Nat → Nat → Nat) (key : Key) (st : Store) (b : Bucket)
    (v : Nat) (hk : key.length < 2 ^ 32) (hv : v < 2 ^ 32)
    (hb : st.getBucket key = some b) (h : b.uintdata key = some v) :
    Client.GetUint grow key ⟨Conn.idle, st⟩ = Res.ok (v, none) ⟨Conn.idle, st⟩ := by
  have hx := await_run grow getUintCmd key (Store.GetUint key) st b b [] ([ackReply] ++ PutUint32 v)
    (by decide) hk (dispatch_cases grow key).2.2.2.2.2.2.2.2.2.1 hb
    (by simpa using GetUint_run key b v [] [] h)
  have hr := readUint32_ok v hv [] [] []
  simp only [List.append_nil] at hr hx
  simp [Client.GetUint, Conn.idle, Proc.bind, onClientConn_run, sendMessage_ok, sendBytes_ok, try_, check,
    hx, readMessage_ok, Proc.pure, hr, withBucket_self st key b hb, ackReply_ne_errNoKeyReply]

/-! ## C1: round trip of whole values -/

/-- C1. Round trip. On the server, `SetBytes` of a key with the byte sequence
`D` (any sequence a request can carry, the empty one included) followed by
`GetBytes` of that key acknowledges both requests and replies with exactly `D`,
whatever the bucket held before; `SetUint` with a 32-bit value `v` followed by
`GetUint` replies with exactly `v`. Seen from the client, `SetBytes` followed by
`GetBytes` returns `D` with a nil error, and `SetUint` followed by `GetUint`
returns `v` with a nil error. -/
theorem C1_set_get_round_trip (grow : Nat → Nat → Nat) (key : Key) (st : Store) (b : Bucket)
    (D : List Byte) (v : Nat) (hk : key.length < 2 ^ 32) (hD : D.length < 2 ^ 32) (hv : v < 2 ^ 32)
    (hb : st.getBucket key = some b) :
    (∀ (b0 : Bucket) (rest out : List Byte),
      (Store.SetBytes key >>= fun _ => Store.GetBytes key) ⟨b0, ⟨lenPrefixed D ++ rest, out, []⟩⟩ =
        Res.ok () ⟨b0.setBytes key (GoSlice.ofBytes D),
          ⟨rest, out ++ [ackReply] ++ ([ackReply] ++ lenPrefixed D), []⟩⟩) ∧
    (∀ (b0 : Bucket) (rest out : List Byte),
      (Store.SetUint key >>= fun _ => Store.GetUint key) ⟨b0, ⟨PutUint32 v ++ rest, out, []⟩⟩ =
        Res.ok () ⟨b0.setUint key v, ⟨rest, out ++ [ackReply] ++ ([ackReply] ++ PutUint32 v), []⟩⟩) ∧
    (Client.SetBytes grow key D >>= fun _ => Client.GetBytes grow key) ⟨Conn.idle, st⟩ =
      Res.ok (D, none) ⟨Conn.idle, st.withBucket key (b.setBytes key (GoSlice.ofBytes D))⟩ ∧
    (Client.SetUint grow key v >>= fun _ => Client.GetUint grow key) ⟨Conn.idle, st⟩ =
      Res.ok (v, none) ⟨Conn.idle, st.withBucket key (b.setUint key v)⟩ := by
  refine ⟨?_, ?_, ?_, ?_⟩
  · intro b0 rest out
    have hg := GetBytes_run key (b0.setBytes key (GoSlice.ofBytes D)) (GoSlice.ofBytes D) rest
      (out ++ [ackReply]) (by simp [Bucket.setBytes])
    simp only [Proc.bind_eq, Proc.bind, SetBytes_run key b0 D rest out hD, hg]
    rfl
  · intro b0 rest out
    have hg := GetUint_run key (b0.setUint key v) v rest (out ++ [ackReply]) (by simp [Bucket.setUint])
    simp only [Proc.bind_eq, Proc.bind, SetUint_run key b0 v rest out hv, hg]
  · have hg := Client_GetBytes_run grow key (st.withBucket key (b.setBytes key (GoSlice.ofBytes D)))
      (b.setBytes key (GoSlice.ofBytes D)) (GoSlice.ofBytes D) hk hD (getBucket_withBucket _ _ _)
      (by simp [Bucket.setBytes])
    simp only [Proc.bind_eq, Proc.bind, Client_SetBytes_run grow key st b D hk hD hb, hg]
    rfl
  · have hg := Client_GetUint_run grow key (st.withBucket key (b.setUint key v))
      (b.setUint key v) v hk hv (getBucket_withBucket _ _ _) (by simp [Bucket.setUint])
    simp only [Proc.bind_eq, Proc.bind, Client_SetUint_run grow key st b v hk hv hb, hg]

theorem oneBucketStore_getBucket (key : Key) : oneBucketStore.getBucket key = some Bucket.empty := by
  have h0 : toString (0 : Nat) = "0" := by decide
  simp [oneBucketStore, NewStore, NewStore.fill, Store.getBucket, ConsistentHash.Get, ConsistentHash.Add, h0]

/-- An instance of C1: the key `foo`, the value `1, 2` and a store with one bucket. -/
theorem C1_set_get_round_trip_witness :
    (Client.SetBytes (fun _ n => n) [102, 111, 111] [1, 2] >>= fun _ =>
      Client.GetBytes (fun _ n => n) [102, 111, 111]) ⟨Conn.idle, oneBucketStore⟩ =
      Res.ok ([1, 2], none) ⟨Conn.idle,
        oneBucketStore.withBucket [102, 111, 111] (Bucket.empty.setBytes [102, 111, 111] (GoSlice.ofBytes [1, 2]))⟩ :=
  (C1_set_get_round_trip (fun _ n => n) [102, 111, 111] oneBucketStore Bucket.empty [1, 2] 7
    (by decide) (by decide) (by decide) (oneBucketStore_getBucket _)).2.2.1

/-! ## C2: range writes on a present key -/

theorem splice_length (V : List Byte) (start : Nat) (data : List Byte) :
    (splice V start data).length = max V.length (start + data.length) := by
  simp [splice]
  omega

theorem splice_data (V : List Byte) (start : Nat) (data : List Byte) (i : Nat)
    (h1 : start ≤ i) (h2 : i < start + data.length) :
    (splice V start data)[i]? = data[i - start]? := by
  have hl : (V.take start ++ List.replicate (start - V.length) 0).length = start := by
    simp; omega
  unfold splice
  rw [List.append_assoc, List.getElem?_append_right (by omega), hl,
    List.getElem?_append_left (by omega)]

theorem splice_old (V : List Byte) (start : Nat) (data : List Byte) (i : Nat)
    (h1 : i < V.length) (h2 : ¬ (start ≤ i ∧ i < start + data.length)) :
    (splice V start data)[i]? = V[i]? := by
  have hl : (V.take start ++ List.replicate (start - V.length) 0).length = start := by
    simp; omega
  unfold splice
  by_cases h : i < start
  · rw [List.append_assoc, List.append_assoc, List.getElem?_append_left (by simp; omega),
      List.getElem?_take_of_lt h]
  · rw [List.getElem?_append_right (by simp; omega)]
    simp only [List.length_append, List.length_take, List.length_replicate, List.getElem?_drop]
    congr 1
    omega

theorem splice_gap (V : List Byte) (start : Nat) (data : List Byte) (i : Nat)
    (h1 : V.length ≤ i) (h2 : i < start) :
    (splice V start data)[i]? = some 0 := by
  unfold splice
  rw [List.append_assoc, List.append_assoc, List.getElem?_append_right (by simp; omega),
    List.getElem?_append_left (by simp; omega)]
  simp [List.getElem?_replicate]
  omega

theorem slice_ok {σ : Type} (s : GoSlice) (lo hi : Nat) (st : σ) (h1 : lo ≤ hi) (h2 : hi ≤ s.cap) :
    s.slice lo hi st = Res.ok ⟨(s.array.take hi).drop lo, s.array.drop hi⟩ st := by
  simp [GoSlice.slice, h1, h2, Proc.pure]

theorem patch_within (s : GoSlice) (lo : Nat) (w : List Byte) (h : lo + w.length ≤ s.data.length) :
    s.patch lo w = ⟨s.data.take lo ++ w ++ s.data.drop (lo + w.length), s.spare⟩ := by
  have h1 : lo ≤ s.data.length := by omega
  simp only [GoSlice.patch, GoSlice.array, GoSlice.mk.injEq]
  rw [List.take_append_of_le_length h1, List.drop_append_of_le_length h]
  have hl : (s.data.take lo ++ w ++ List.drop (lo + w.length) s.data).length = s.data.length := by
    simp; omega
  constructor
  · rw [← List.append_assoc, List.take_append_of_le_length (by omega), ← hl, List.take_length]
  · rw [← List.append_assoc, ← hl, List.drop_left]

theorem readFillStored_ok (key : Key) (s : GoSlice) (lo hi : Nat) (b : Bucket)
    (d rest out : List Byte) (w : List Bool) (h1 : lo ≤ hi) (h2 : hi ≤ s.data.length)
    (hd : d.length = hi - lo) :
    readFillStored key s lo hi ⟨b, ⟨d ++ rest, out, w⟩⟩ =
      Res.ok none ⟨b.setBytes key (s.patch lo d), ⟨rest, out, w⟩⟩ := by
  have hc : hi ≤ s.cap := by unfold GoSlice.cap; omega
  have hlen : ((s.array.take hi).drop lo).length = d.length := by
    simp [GoSlice.array]; omega
  simp only [readFillStored, Proc.bind_eq, Proc.bind, slice_ok s lo hi _ h1 hc, Proc.zoom,
    readFillBuf_ok d _ rest out w hlen]

theorem readFillLocal_ok (buf : GoSlice) (lo hi : Nat) (b : Bucket)
    (d rest out : List Byte) (w : List Bool) (h1 : lo ≤ hi) (h2 : hi ≤ buf.cap)
    (hd : d.length = hi - lo) :
    readFillLocal buf lo hi ⟨b, ⟨d ++ rest, out, w⟩⟩ =
      Res.ok (none, buf.patch lo d) ⟨b, ⟨rest, out, w⟩⟩ := by
  have hlen : ((buf.array.take hi).drop lo).length = d.length := by
    simp [GoSlice.array, GoSlice.cap] at *; omega
  simp only [readFillLocal, Proc.bind_eq, Proc.bind, slice_ok buf lo hi _ h1 h2, onConn_run, withBuf,
    readFillBuf_ok d _ rest out w hlen, Proc.pure]

theorem make_patch (n lo : Nat) (w : List Byte) (h : lo + w.length = n) :
    (GoSlice.make n).patch lo w = ⟨List.replicate lo 0 ++ w, []⟩ := by
  have h0 := patch_within (GoSlice.make n) lo w (by simp [GoSlice.make]; omega)
  rw [h0]
  simp [GoSlice.make, ← h]

theorem append_data (grow : Nat → Nat → Nat) (s : GoSlice) (ext : List Byte) :
    (s.append grow ext).data = s.data ++ ext := by
  unfold GoSlice.append
  split <;> rfl

theorem setBytes_setBytes (b : Bucket) (key : Key) (x y : GoSlice) :
    (b.setBytes key x).setBytes key y = b.setBytes key y := by
  simp [Bucket.setBytes]

theorem setBytes_get (b : Bucket) (key : Key) (x : GoSlice) :
    (b.setBytes key x).bytedata key = some x := by
  simp [Bucket.setBytes]

theorem sub32_eq (a c : Nat) (h1 : c ≤ a) (h2 : a < 2 ^ 32) : sub32 a c = a - c := by
  unfold sub32
  omega

theorem add32_eq (a c : Nat) (h : a + c < 2 ^ 32) : add32 a c = a + c := by
  unfold add32
  omega

theorem SetBytesRange_present_run (grow : Nat → Nat → Nat) (key : Key) (b : Bucket) (s : GoSlice)
    (start : Nat) (data rest out : List Byte)
    (hb : b.bytedata key = some s) (hs : s.data.length < 2 ^ 32)
    (hsum : start + data.length < 2 ^ 32) :
    ∃ spare, Store.SetBytesRange grow key ⟨b, ⟨PutUint32 start ++ (lenPrefixed data ++ rest), out, []⟩⟩ =
      Res.ok () ⟨b.setBytes key ⟨splice s.data start data, spare⟩, ⟨rest, out ++ [ackReply], []⟩⟩ := by
  have hst : start < 2 ^ 32 := by omega
  have hn : data.length < 2 ^ 32 := by omega
  have hu : u32 data.length = data.length := Nat.mod_eq_of_lt hn
  have hus : u32 s.len = s.data.length := Nat.mod_eq_of_lt hs
  have hadd : add32 start data.length = start + data.length := Nat.mod_eq_of_lt hsum
  by_cases hA : start + data.length ≤ s.data.length
  · refine ⟨s.spare, ?_⟩
    simp only [Store.SetBytesRange, Proc.bind_eq, Proc.bind, onConn_run, lenPrefixed, hu, List.append_assoc,
      readUint32_ok start hst, readUint32_ok data.length hn, check, try_, Proc.pure, Proc.get, hb,
      hus, hadd, hA, if_true,
      readFillStored_ok key s start (start + data.length) b data rest out [] (by omega) hA (by omega),
      sendMessage_ok, patch_within s start data hA]
    simp [splice, show start - s.data.length = 0 by omega]
  · by_cases hB : start < s.data.length
    · have hk1 : sub32 s.data.length start = s.data.length - start := sub32_eq _ _ (by omega) hs
      have hk2 : sub32 data.length (s.data.length - start) = data.length - (s.data.length - start) :=
        sub32_eq _ _ (by omega) hn
      have hk3 : add32 s.data.length (data.length - (s.data.length - start)) = start + data.length := by
        rw [add32_eq _ _ (by omega)]; omega
      have hk4 : sub32 (start + data.length) s.data.length = data.length - (s.data.length - start) := by
        rw [sub32_eq _ _ (by omega) hsum]; omega
      have hk5 : sub32 (data.length - (s.data.length - start)) (data.length - (s.data.length - start)) = 0 := by
        rw [sub32_eq _ _ (by omega) (by omega)]; omega
      have hsplit : data ++ rest =
          data.take (s.data.length - start) ++ (data.drop (s.data.length - start) ++ rest) := by
        rw [← List.append_assoc, List.take_append_drop]
      have hf1 := readFillStored_ok key s start s.data.length b (data.take (s.data.length - start))
        (data.drop (s.data.length - start) ++ rest) out [] (by omega) (by omega)
        (by simp; omega)
      have hf2 := readFillLocal_ok (GoSlice.make (data.length - (s.data.length - start))) 0
        (data.length - (s.data.length - start))
        (b.setBytes key (s.patch start (data.take (s.data.length - start))))
        (data.drop (s.data.length - start)) rest out [] (by omega) (by simp [GoSlice.make, GoSlice.cap])
        (by simp)
      refine ⟨((s.patch start (data.take (s.data.length - start))).append grow
        (data.drop (s.data.length - start))).spare, ?_⟩
      simp only [Store.SetBytesRange, Proc.bind_eq, Proc.bind, onConn_run, lenPrefixed, hu, List.append_assoc,
        readUint32_ok start hst, readUint32_ok data.length hn, check, try_, Proc.pure, Proc.get, hb,
        hus, hadd, hA, if_false, hB, if_true, hsplit, hf1, setBytes_get, Option.getD_some, hk1, hk2, hk3,
        hk4, hk5, hf2, Proc.modify, setBytes_setBytes, sendMessage_ok]
      have hp := make_patch (data.length - (s.data.length - start)) 0
        (data.drop (s.data.length - start)) (by simp)
      have hW : ((s.patch start (data.take (s.data.length - start))).append grow
          (data.drop (s.data.length - start))).data = splice s.data start data := by
        have h1 : start + (List.take (s.data.length - start) data).length = s.data.length := by
          simp; omega
        rw [append_data, patch_within s start _ (by simp; omega), h1]
        simp [splice, show start - s.data.length = 0 by omega,
          List.drop_eq_nil_of_le (show s.data.length ≤ start + data.length by omega)]
      rw [hp]
      simp only [List.replicate_zero, List.nil_append]
      rw [← hW]
    · have hC : s.data.length ≤ start := by omega
      have hk4 : sub32 (start + data.length) s.data.length = start + data.length - s.data.length :=
        sub32_eq _ _ (by omega) hsum
      have hk5 : sub32 (start + data.length - s.data.length) data.length = start - s.data.length := by
        rw [sub32_eq _ _ (by omega) (by omega)]; omega
      have hf2 := readFillLocal_ok (GoSlice.make (start + data.length - s.data.length))
        (start - s.data.length) (start + data.length - s.data.length) b data rest out []
        (by omega) (by simp [GoSlice.make, GoSlice.cap]) (by omega)
      have hp := make_patch (start + data.length - s.data.length) (start - s.data.length) data (by omega)
      refine ⟨(s.append grow (List.replicate (start - s.data.length) 0 ++ data)).spare, ?_⟩
      simp only [Store.SetBytesRange, Proc.bind_eq, Proc.bind, onConn_run, lenPrefixed, hu, List.append_assoc,
        readUint32_ok start hst, readUint32_ok data.length hn, check, try_, Proc.pure, Proc.get, hb,
        hus, hadd, hA, if_false, hB, hk4, hk5, hf2, Proc.modify, sendMessage_ok, hp]
      have hW : (s.append grow (List.replicate (start - s.data.length) 0 ++ data)).data =
          splice s.data start data := by
        rw [append_data]
        simp [splice, List.take_of_length_le hC,
          List.drop_eq_nil_of_le (show s.data.length ≤ start + data.length by omega)]
      rw [← hW]

/-- C2. `SetBytesRange` on a key that holds `V`, for any `start` and `data`
with `start + len(data)` below `2^32`, acknowledges and leaves a value `W` with
`len(W) = max(len(V), start + len(data))`, `W[i] = data[i - start]` for
`start ≤ i < start + len(data)`, `W[i] = V[i]` for every other `i < len(V)`, and
`W[i] = 0` for `len(V) ≤ i < start`. The statement does not depend on which of
the three branches (write inside `V`, write across the end of `V`, write at or
past the end of `V`) the code takes. -/
theorem C2_set_range_on_present_key (grow : Nat → Nat → Nat) (key : Key) (b : Bucket) (s : GoSlice)
    (start : Nat) (data rest out : List Byte)
    (hb : b.bytedata key = some s) (hs : s.data.length < 2 ^ 32)
    (hsum : start + data.length < 2 ^ 32) :
    ∃ W spare,
      Store.SetBytesRange grow key ⟨b, ⟨PutUint32 start ++ (lenPrefixed data ++ rest), out, []⟩⟩ =
        Res.ok () ⟨b.setBytes key ⟨W, spare⟩, ⟨rest, out ++ [ackReply], []⟩⟩ ∧
      W = splice s.data start data ∧
      W.length = max s.data.length (start + data.length) ∧
      (∀ i, start ≤ i → i < start + data.length → W[i]? = data[i - start]?) ∧
      (∀ i, i < s.data.length → ¬ (start ≤ i ∧ i < start + data.length) → W[i]? = s.data[i]?) ∧
      (∀ i, s.data.length ≤ i → i < start → W[i]? = some 0) := by
  obtain ⟨spare, h⟩ := SetBytesRange_present_run grow key b s start data rest out hb hs hsum
  exact ⟨splice s.data start data, spare, h, rfl, splice_length _ _ _,
    fun i h1 h2 => splice_data _ _ _ i h1 h2, fun i h1 h2 => splice_old _ _ _ i h1 h2,
    fun i h1 h2 => splice_gap _ _ _ i h1 h2⟩

/-- An instance of C2: writing `7, 8` at offset 2 over the value `1, 2, 3` leaves `1, 2, 7, 8`. -/
theorem C2_set_range_on_present_key_witness :
    (Bucket.empty.setBytes [102] ⟨[1, 2, 3], []⟩).bytedata [102] = some ⟨[1, 2, 3], []⟩ ∧
    ∃ W spare,
      Store.SetBytesRange (fun _ n => n) [102]
          ⟨Bucket.empty.setBytes [102] ⟨[1, 2, 3], []⟩,
            ⟨PutUint32 2 ++ (lenPrefixed [7, 8] ++ []), [], []⟩⟩ =
        Res.ok () ⟨(Bucket.empty.setBytes [102] ⟨[1, 2, 3], []⟩).setBytes [102] ⟨W, spare⟩,
          ⟨[], [] ++ [ackReply], []⟩⟩ ∧
      W = [1, 2, 7, 8] :=
  ⟨setBytes_get _ _ _,
    match C2_set_range_on_present_key (fun _ n => n) [102] (Bucket.empty.setBytes [102] ⟨[1, 2, 3], []⟩)
      ⟨[1, 2, 3], []⟩ 2 [7, 8] [] [] (setBytes_get _ _ _) (by decide) (by decide) with
    | ⟨W, spare, h, hW, _⟩ => ⟨W, spare, h, by rw [hW]; decide⟩⟩

/-! ## C3: range writes on an absent key -/

theorem slice_panic {σ : Type} (s : GoSlice) (lo hi : Nat) (st : σ) (h : ¬ (lo ≤ hi ∧ hi ≤ s.cap)) :
    s.slice lo hi st = Res.panic Panic.sliceBounds st := by
  simp only [GoSlice.slice, h, if_false, Proc.raise]

/-- Without overflow a range write on an absent key stores zeros up to `start`
followed by the data, with no spare capacity. -/
theorem SetBytesRange_absent_run (grow : Nat → Nat → Nat) (key : Key) (b : Bucket)
    (start : Nat) (data rest out : List Byte)
    (hb : b.bytedata key = none) (hsum : start + data.length < 2 ^ 32) :
    Store.SetBytesRange grow key ⟨b, ⟨PutUint32 start ++ (lenPrefixed data ++ rest), out, []⟩⟩ =
      Res.ok () ⟨b.setBytes key ⟨List.replicate start 0 ++ data, []⟩,
        ⟨rest, out ++ [ackReply], []⟩⟩ := by
  have hst : start < 2 ^ 32 := by omega
  have hn : data.length < 2 ^ 32 := by omega
  have hu : u32 data.length = data.length := Nat.mod_eq_of_lt hn
  have hadd : add32 start data.length = start + data.length := Nat.mod_eq_of_lt hsum
  have hf := readFillLocal_ok (GoSlice.make (start + data.length)) start (start + data.length) b data
    rest out [] (by omega) (by simp [GoSlice.make, GoSlice.cap]) (by omega)
  simp only [Store.SetBytesRange, Proc.bind_eq, Proc.bind, onConn_run, lenPrefixed, hu, List.append_assoc,
    readUint32_ok start hst, readUint32_ok data.length hn, check, try_, Proc.pure, Proc.get, hb, hadd,
    hf, Proc.modify, sendMessage_ok, make_patch (start + data.length) start data rfl]

/-- When `start + len(data)` does not fit in 32 bits a range write on an absent
key panics on the slice expression `buf[start:start+newSize]`, before the
payload is read: nothing is stored and nothing is replied. -/
theorem SetBytesRange_absent_overflow (grow : Nat → Nat → Nat) (key : Key) (b : Bucket)
    (start : Nat) (data rest out : List Byte)
    (hb : b.bytedata key = none) (hst : start < 2 ^ 32) (hn : data.length < 2 ^ 32)
    (hsum : 2 ^ 32 ≤ start + data.length) :
    Store.SetBytesRange grow key ⟨b, ⟨PutUint32 start ++ (lenPrefixed data ++ rest), out, []⟩⟩ =
      Res.panic Panic.sliceBounds ⟨b, ⟨data ++ rest, out, []⟩⟩ := by
  have hu : u32 data.length = data.length := Nat.mod_eq_of_lt hn
  have hadd : add32 start data.length = start + data.length - 2 ^ 32 := by
    unfold add32; omega
  have hsl := slice_panic (σ := BucketConn) (GoSlice.make (start + data.length - 2 ^ 32)) start
    (start + data.length - 2 ^ 32) ⟨b, ⟨data ++ rest, out, []⟩⟩ (by omega)
  simp only [Store.SetBytesRange, Proc.bind_eq, Proc.bind, onConn_run, lenPrefixed, hu, List.append_assoc,
    readUint32_ok start hst, readUint32_ok data.length hn, check, try_, Proc.pure, Proc.get, hb, hadd,
    readFillLocal, hsl]

/-- C3 (the code at the failing input). On a bucket that does not hold the key,
`SetBytesRange` with `start = 2^32 - 1` and a one-byte patch panics: the sum
`start + newSize` wraps to `0`, the buffer made has length `0`, and the slice
`buf[4294967295:0]` is out of bounds. No acknowledgement is written and no
value is stored. -/
theorem C3_set_range_absent_key_overflow :
    Store.SetBytesRange (fun _ n => n) [102]
        ⟨Bucket.empty, ⟨PutUint32 4294967295 ++ (lenPrefixed [65] ++ []), [], []⟩⟩ =
      Res.panic Panic.sliceBounds ⟨Bucket.empty, ⟨[65], [], []⟩⟩ :=
  SetBytesRange_absent_overflow (fun _ n => n) [102] Bucket.empty 4294967295 [65] [] [] rfl
    (by decide) (by decide) (by decide)

/-! ## Range reads -/

theorem lenPrefixed_nil : lenPrefixed [] = PutUint32 0 := by
  simp [lenPrefixed, u32]

theorem GetBytesRange_run (key : Key) (b : Bucket) (s : GoSlice) (start end_ : Nat)
    (rest out : List Byte) (hb : b.bytedata key = some s) (hs : s.data.length < 2 ^ 32)
    (h1 : start ≤ end_) (h2 : end_ < 2 ^ 32 - 1) :
    Store.GetBytesRange key ⟨b, ⟨PutUint32 start ++ (PutUint32 end_ ++ rest), out, []⟩⟩ =
      Res.ok () ⟨b, ⟨rest, out ++ ([ackReply] ++ lenPrefixed (rangeOf s.data start end_)), []⟩⟩ := by
  have hst : start < 2 ^ 32 := by omega
  have hen : end_ < 2 ^ 32 := by omega
  have hus : u32 s.len = s.data.length := Nat.mod_eq_of_lt hs
  have hadd : add32 end_ 1 = end_ + 1 := add32_eq _ _ (by omega)
  by_cases hgt : start > s.data.length
  · simp only [Store.GetBytesRange, Proc.bind_eq, Proc.bind, onConn_run, readUint32_ok start hst,
      readUint32_ok end_ hen, check, try_, Proc.pure, Proc.get, hb, sendMessage_ok, hus, hadd, hgt,
      if_true, sendUint32_ok, rangeOf, show s.data.length ≤ start by omega, lenPrefixed_nil,
      List.append_assoc]
  · have hsl := slice_ok (σ := BucketConn) s start (if end_ + 1 > s.data.length then s.data.length else end_ + 1)
      ⟨b, ⟨rest, out ++ [ackReply], []⟩⟩ (by split <;> omega) (by unfold GoSlice.cap; split <;> omega)
    have hpart : List.drop start (List.take (if end_ + 1 > s.data.length then s.data.length else end_ + 1)
        s.array) = rangeOf s.data start end_ := by
      unfold rangeOf GoSlice.array
      split
      · rename_i hlt
        rw [List.take_append_of_le_length (le_refl _), List.take_length]
        split
        · rw [List.drop_eq_nil_of_le (by omega)]
        · rw [show min end_ (s.data.length - 1) + 1 = s.data.length by omega, List.take_length]
      · rename_i hle
        rw [List.take_append_of_le_length (by omega)]
        split
        · rw [List.drop_eq_nil_of_le (by simp; omega)]
        · rw [show min end_ (s.data.length - 1) + 1 = end_ + 1 by omega]
    simp only [Store.GetBytesRange, Proc.bind_eq, Proc.bind, onConn_run, readUint32_ok start hst,
      readUint32_ok end_ hen, check, try_, Proc.pure, Proc.get, hb, sendMessage_ok, hus, hadd, hgt,
      if_false, hsl, sendBytes_ok, hpart, List.append_assoc]

theorem rangeOf_eq (D : List Byte) (s e : Nat) :
    rangeOf D s e = (D.drop s).take (min (e + 1) D.length - s) := by
  unfold rangeOf
  split
  · rw [List.drop_eq_nil_of_le (by omega)]; simp
  · rw [List.drop_take]
    by_cases h : e + 1 ≤ D.length
    · rw [show min e (D.length - 1) + 1 = e + 1 by omega, show min (e + 1) D.length = e + 1 by omega]
    · rw [show min e (D.length - 1) + 1 = D.length by omega, show min (e + 1) D.length = D.length by omega]

theorem rangeOf_length (D : List Byte) (s e : Nat) :
    (rangeOf D s e).length = min (e + 1) D.length - s := by
  rw [rangeOf_eq]
  simp
  omega

theorem rangeOf_getElem? (D : List Byte) (s e i : Nat) (h : i < (rangeOf D s e).length) :
    (rangeOf D s e)[i]? = D[s + i]? := by
  rw [rangeOf_length] at h
  rw [rangeOf_eq, List.getElem?_take_of_lt h, List.getElem?_drop]

theorem GetBytesRangeInto_run (key : Key) (b : Bucket) (s : GoSlice) (start end_ dstSize : Nat)
    (rest out : List Byte) (hb : b.bytedata key = some s) (hs : s.data.length < 2 ^ 32)
    (h1 : start ≤ end_) (h2 : end_ < 2 ^ 32 - 1) (hN : dstSize < 2 ^ 32) :
    Store.GetBytesRangeInto key
        ⟨b, ⟨PutUint32 start ++ (PutUint32 end_ ++ (PutUint32 dstSize ++ rest)), out, []⟩⟩ =
      Res.ok () ⟨b, ⟨rest,
        out ++ ([ackReply] ++ lenPrefixed ((rangeOf s.data start end_).take dstSize)), []⟩⟩ := by
  have hst : start < 2 ^ 32 := by omega
  have hen : end_ < 2 ^ 32 := by omega
  have hus : u32 s.len = s.data.length := Nat.mod_eq_of_lt hs
  have hadd : add32 end_ 1 = end_ + 1 := add32_eq _ _ (by omega)
  by_cases hgt : start > s.data.length
  · simp only [Store.GetBytesRangeInto, Proc.bind_eq, Proc.bind, onConn_run, readUint32_ok start hst,
      readUint32_ok end_ hen, readUint32_ok dstSize hN, check, try_, Proc.pure, Proc.get, hb,
      sendMessage_ok, hus, hadd, hgt, if_true, sendUint32_ok, rangeOf,
      show s.data.length ≤ start by omega, lenPrefixed_nil, List.append_assoc, List.take_nil]
  · have he1 : (if end_ + 1 > s.data.length then s.data.length else end_ + 1) = min (end_ + 1) s.data.length := by
      split <;> omega
    have hsub : sub32 (min (end_ + 1) s.data.length) start = min (end_ + 1) s.data.length - start :=
      sub32_eq _ _ (by omega) (by omega)
    by_cases hclamp : min (end_ + 1) s.data.length - start > dstSize
    · have hadd2 : add32 start dstSize = start + dstSize := add32_eq _ _ (by omega)
      have hsl := slice_ok (σ := BucketConn) s start (start + dstSize)
        ⟨b, ⟨rest, out ++ [ackReply], []⟩⟩ (by omega) (by unfold GoSlice.cap; omega)
      have hpart : List.drop start (List.take (start + dstSize) s.array) =
          (rangeOf s.data start end_).take dstSize := by
        rw [rangeOf_eq, List.take_take, GoSlice.array, List.take_append_of_le_length (by omega),
          List.drop_take, show min dstSize (min (end_ + 1) s.data.length - start) = dstSize by omega,
          show start + dstSize - start = dstSize by omega]
      simp only [Store.GetBytesRangeInto, Proc.bind_eq, Proc.bind, onConn_run, readUint32_ok start hst,
        readUint32_ok end_ hen, readUint32_ok dstSize hN, check, try_, Proc.pure, Proc.get, hb,
        sendMessage_ok, hus, hadd, hgt, if_false, he1, hsub, hclamp, if_true, hadd2, hsl, sendBytes_ok,
        hpart, List.append_assoc]
    · have hsl := slice_ok (σ := BucketConn) s start (min (end_ + 1) s.data.length)
        ⟨b, ⟨rest, out ++ [ackReply], []⟩⟩ (by omega) (by unfold GoSlice.cap; omega)
      have hpart : List.drop start (List.take (min (end_ + 1) s.data.length) s.array) =
          (rangeOf s.data start end_).take dstSize := by
        rw [rangeOf_eq, List.take_take, GoSlice.array, List.take_append_of_le_length (by omega),
          List.drop_take,
          show min dstSize (min (end_ + 1) s.data.length - start) =
            min (end_ + 1) s.data.length - start by omega]
      simp only [Store.GetBytesRangeInto, Proc.bind_eq, Proc.bind, onConn_run, readUint32_ok start hst,
        readUint32_ok end_ hen, readUint32_ok dstSize hN, check, try_, Proc.pure, Proc.get, hb,
        sendMessage_ok, hus, hadd, hgt, if_false, he1, hsub, hclamp, hsl, sendBytes_ok,
        hpart, List.append_assoc]

/-! ## Reads into a destination buffer -/

theorem GetBytesInto_run (key : Key) (b : Bucket) (s : GoSlice) (dstSize : Nat)
    (rest out : List Byte) (hb : b.bytedata key = some s) (hs : s.data.length < 2 ^ 32)
    (hN : dstSize < 2 ^ 32) :
    Store.GetBytesInto key ⟨b, ⟨PutUint32 dstSize ++ rest, out, []⟩⟩ =
      Res.ok () ⟨b, ⟨rest, out ++ ([ackReply] ++ lenPrefixed (s.data.take dstSize)), []⟩⟩ := by
  have hus : u32 s.len = s.data.length := Nat.mod_eq_of_lt hs
  by_cases hlt : dstSize < s.data.length
  · have hsl := slice_ok (σ := BucketConn) s 0 dstSize ⟨b, ⟨rest, out ++ [ackReply], []⟩⟩ (by omega)
      (by unfold GoSlice.cap; omega)
    simp only [Store.GetBytesInto, Proc.bind_eq, Proc.bind, onConn_run, readUint32_ok dstSize hN, check,
      try_, Proc.pure, Proc.get, hb, sendMessage_ok, hus, hlt, if_true, hsl, sendBytes_ok, List.drop_zero,
      GoSlice.array, List.take_append_of_le_length (le_of_lt hlt), List.append_assoc]
  · simp only [Store.GetBytesInto, Proc.bind_eq, Proc.bind, onConn_run, readUint32_ok dstSize hN, check,
      try_, Proc.pure, Proc.get, hb, sendMessage_ok, hus, hlt, if_false, sendBytes_ok,
      List.take_of_length_le (show s.data.length ≤ dstSize by omega), List.append_assoc]

theorem ReadAtLeast_zero (s : ConnBuf) : ReadAtLeast 0 s = Res.ok (0, none) s := by
  simp [ReadAtLeast]

theorem ReadAtLeast_all (p dst out : List Byte) (w : List Bool) (h0 : p.length ≠ 0)
    (hp : p.length ≤ dst.length) :
    ReadAtLeast p.length ⟨⟨p, out, w⟩, dst⟩ =
      Res.ok (p.length, none) ⟨⟨[], out, w⟩, p ++ dst.drop p.length⟩ := by
  simp [ReadAtLeast, h0, hp, List.take_of_length_le hp, List.drop_eq_nil_of_le hp,
    show ¬ dst.length < p.length by omega]

/-- Reading a complete length-prefixed payload that fits into the destination:
the payload lands at the front of the destination, the rest of which is left
as it was, and `io.EOF` is returned exactly when the payload is shorter than
the destination. -/
theorem readBytesInto_ok (p dst out : List Byte) (w : List Bool) (hp : p.length ≤ dst.length)
    (hd : dst.length < 2 ^ 32) :
    readBytesInto ⟨⟨lenPrefixed p, out, w⟩, dst⟩ =
      Res.ok (p.length, if p.length < dst.length then some Err.EOF else none)
        ⟨⟨[], out, w⟩, p ++ dst.drop p.length⟩ := by
  have hpl : p.length < 2 ^ 32 := by omega
  have hu : u32 p.length = p.length := Nat.mod_eq_of_lt hpl
  have hud : u32 dst.length = dst.length := Nat.mod_eq_of_lt hd
  have hr := readUint32_ok p.length hpl p out w
  have hlen : (p ++ dst.drop p.length).length = dst.length := by simp; omega
  by_cases h0 : p.length = 0
  · have hp0 : p = [] := List.length_eq_zero.mp h0
    subst hp0
    simp only [List.length_nil, List.append_nil] at hr
    simp only [readBytesInto, Proc.bind_eq, Proc.bind, Proc.zoom, lenPrefixed, List.append_nil,
      List.length_nil, show u32 0 = 0 from rfl, hr, ReadAtLeast_zero, Proc.get, Proc.pure, hud,
      List.drop_zero, List.nil_append, ne_eq, not_true_eq_false, if_false, reduceCtorEq]
    split <;> rfl
  · simp only [readBytesInto, Proc.bind_eq, Proc.bind, Proc.zoom, lenPrefixed, hu, hr,
      ReadAtLeast_all p dst out w h0 hp, Proc.get, Proc.pure, hlen, hud, ne_eq, not_true_eq_false,
      if_false, reduceCtorEq]
    split <;> rfl

theorem Client_GetBytesInto_run (grow : Nat → Nat → Nat) (key : Key) (st : Store) (b : Bucket)
    (s : GoSlice) (dst : List Byte) (hk : key.length < 2 ^ 32) (hs : s.data.length < 2 ^ 32)
    (hd : dst.length < 2 ^ 32) (hb : st.getBucket key = some b) (h : b.bytedata key = some s) :
    Client.GetBytesInto grow key dst ⟨Conn.idle, st⟩ =
      Res.ok ((s.data.take dst.length).length,
          (if (s.data.take dst.length).length < dst.length then some Err.EOF else none),
          s.data.take dst.length ++ dst.drop (s.data.take dst.length).length)
        ⟨Conn.idle, st⟩ := by
  have hud : u32 dst.length = dst.length := Nat.mod_eq_of_lt hd
  have hx := await_run grow getBytesIntoCmd key (Store.GetBytesInto key) st b b (PutUint32 dst.length)
    ([ackReply] ++ lenPrefixed (s.data.take dst.length))
    (by decide) hk (dispatch_cases grow key).2.1 hb
    (by simpa using GetBytesInto_run key b s dst.length [] [] h hs hd)
  have hr := readBytesInto_ok (s.data.take dst.length) dst [] [] (by simp) hd
  by_cases hc : (s.data.take dst.length).length < dst.length
  · simp only [hc, if_true] at hr ⊢
    simp [Client.GetBytesInto, Conn.idle, Proc.bind, onClientConn_run, sendMessage_ok, sendBytes_ok,
      sendUint32_ok, hud, try_, check, hx, readMessage_ok, Proc.pure, withBuf, hr,
      withBucket_self st key b hb, ackReply_ne_errNoKeyReply]
  · simp only [hc, if_false] at hr ⊢
    simp [Client.GetBytesInto, Conn.idle, Proc.bind, onClientConn_run, sendMessage_ok, sendBytes_ok,
      sendUint32_ok, hud, try_, check, hx, readMessage_ok, Proc.pure, withBuf, hr,
      withBucket_self st key b hb, ackReply_ne_errNoKeyReply]

theorem Client_GetBytesRange_run (grow : Nat → Nat → Nat) (key : Key) (st : Store) (b : Bucket)
    (s : GoSlice) (start end_ : Nat) (hk : key.length < 2 ^ 32) (hs : s.data.length < 2 ^ 32)
    (h1 : start ≤ end_) (h2 : end_ < 2 ^ 32 - 1)
    (hb : st.getBucket key = some b) (h : b.bytedata key = some s) :
    Client.GetBytesRange grow key start end_ ⟨Conn.idle, st⟩ =
      Res.ok (rangeOf s.data start end_, none) ⟨Conn.idle, st⟩ := by
  have hx := await_run grow getBytesRangeCmd key (Store.GetBytesRange key) st b b
    (PutUint32 start ++ PutUint32 end_) ([ackReply] ++ lenPrefixed (rangeOf s.data start end_))
    (by decide) hk (dispatch_cases grow key).2.2.1 hb
    (by simpa using GetBytesRange_run key b s start end_ [] [] h hs h1 h2)
  have hr := readBytes_ok (rangeOf s.data start end_) [] [] []
    (by rw [rangeOf_length]; omega)
  simp only [List.append_nil] at hr
  simp [Client.GetBytesRange, Conn.idle, Proc.bind, onClientConn_run, sendMessage_ok, sendBytes_ok,
    sendUint32_ok, try_, check, hx, readMessage_ok, Proc.pure, hr, withBucket_self st key b hb,
    ackReply_ne_errNoKeyReply]

theorem Client_GetBytesRangeInto_run (grow : Nat → Nat → Nat) (key : Key) (st : Store) (b : Bucket)
    (s : GoSlice) (start end_ : Nat) (dst : List Byte) (hk : key.length < 2 ^ 32)
    (hs : s.data.length < 2 ^ 32) (h1 : start ≤ end_) (h2 : end_ < 2 ^ 32 - 1)
    (hd : dst.length < 2 ^ 32) (hb : st.getBucket key = some b) (h : b.bytedata key = some s) :
    Client.GetBytesRangeInto grow key start end_ dst ⟨Conn.idle, st⟩ =
      Res.ok (((rangeOf s.data start end_).take dst.length).length,
          (if ((rangeOf s.data start end_).take dst.length).length < dst.length then some Err.EOF
            else none),
          (rangeOf s.data start end_).take dst.length ++
            dst.drop ((rangeOf s.data start end_).take dst.length).length)
        ⟨Conn.idle, st⟩ := by
  have hud : u32 dst.length = dst.length := Nat.mod_eq_of_lt hd
  have hx := await_run grow getBytesRangeIntoCmd key (Store.GetBytesRangeInto key) st b b
    (PutUint32 start ++ (PutUint32 end_ ++ PutUint32 dst.length))
    ([ackReply] ++ lenPrefixed ((rangeOf s.data start end_).take dst.length))
    (by decide) hk (dispatch_cases grow key).2.2.2.1 hb
    (by simpa using GetBytesRangeInto_run key b s start end_ dst.length [] [] h hs h1 h2 hd)
  have hr := readBytesInto_ok ((rangeOf s.data start end_).take dst.length) dst [] [] (by simp) hd
  by_cases hc : ((rangeOf s.data start end_).take dst.length).length < dst.length
  · simp only [hc, if_true] at hr ⊢
    simp [Client.GetBytesRangeInto, Conn.idle, Proc.bind, onClientConn_run, sendMessage_ok, sendBytes_ok,
      sendUint32_ok, hud, try_, check, hx, readMessage_ok, Proc.pure, withBuf, hr,
      withBucket_self st key b hb, ackReply_ne_errNoKeyReply]
  · simp only [hc, if_false] at hr ⊢
    simp [Client.GetBytesRangeInto, Conn.idle, Proc.bind, onClientConn_run, sendMessage_ok, sendBytes_ok,
      sendUint32_ok, hud, try_, check, hx, readMessage_ok, Proc.pure, withBuf, hr,
      withBucket_self st key b hb, ackReply_ne_errNoKeyReply]

/-! ## C4: the range a range read returns -/

/-- C4. `GetBytesRange(K, s, e)` on a key holding `D`, for every `s ≤ e` with
`e` below the 32-bit maximum, acknowledges and replies with one payload: the
empty payload when `s ≥ len(D)`, and otherwise exactly the bytes
`D[s], ..., D[min(e, len(D)-1)]` (end inclusive, clamped to the last byte). The
client call returns that payload with a nil error. -/
theorem C4_get_range_payload (grow : Nat → Nat → Nat) (key : Key) (st : Store) (b : Bucket)
    (s : GoSlice) (start end_ : Nat) (hk : key.length < 2 ^ 32) (hs : s.data.length < 2 ^ 32)
    (h1 : start ≤ end_) (h2 : end_ < 2 ^ 32 - 1)
    (hb : st.getBucket key = some b) (h : b.bytedata key = some s) :
    ∃ payload : List Byte,
      (∀ rest out : List Byte,
        Store.GetBytesRange key ⟨b, ⟨PutUint32 start ++ (PutUint32 end_ ++ rest), out, []⟩⟩ =
          Res.ok () ⟨b, ⟨rest, out ++ ([ackReply] ++ lenPrefixed payload), []⟩⟩) ∧
      Client.GetBytesRange grow key start end_ ⟨Conn.idle, st⟩ =
        Res.ok (payload, none) ⟨Conn.idle, st⟩ ∧
      (s.data.length ≤ start → payload = []) ∧
      (start < s.data.length →
        payload = (s.data.take (min end_ (s.data.length - 1) + 1)).drop start ∧
        payload.length = min end_ (s.data.length - 1) + 1 - start ∧
        ∀ i, i < payload.length → payload[i]? = s.data[start + i]?) := by
  refine ⟨rangeOf s.data start end_, ?_, ?_, ?_, ?_⟩
  · intro rest out
    exact GetBytesRange_run key b s start end_ rest out h hs h1 h2
  · exact Client_GetBytesRange_run grow key st b s start end_ hk hs h1 h2 hb h
  · intro hle
    simp [rangeOf, hle]
  · intro hlt
    refine ⟨by simp [rangeOf, show ¬ s.data.length ≤ start by omega], ?_, ?_⟩
    · rw [rangeOf_length]; omega
    · intro i hi
      exact rangeOf_getElem? _ _ _ _ hi

/-- An instance of C4: the range from 1 to 5 of the value `1, 2, 3` is `2, 3`. -/
theorem C4_get_range_payload_witness :
    ∃ payload : List Byte,
      Client.GetBytesRange (fun _ n => n) [102] 1 5
          ⟨Conn.idle, oneBucketStore.withBucket [102] (Bucket.empty.setBytes [102] ⟨[1, 2, 3], []⟩)⟩ =
        Res.ok (payload, none)
          ⟨Conn.idle, oneBucketStore.withBucket [102] (Bucket.empty.setBytes [102] ⟨[1, 2, 3], []⟩)⟩ ∧
      payload = [2, 3] :=
  match C4_get_range_payload (fun _ n => n) [102]
      (oneBucketStore.withBucket [102] (Bucket.empty.setBytes [102] ⟨[1, 2, 3], []⟩))
      (Bucket.empty.setBytes [102] ⟨[1, 2, 3], []⟩) ⟨[1, 2, 3], []⟩ 1 5
      (by decide) (by decide) (by decide) (by decide) (getBucket_withBucket _ _ _)
      (setBytes_get _ _ _) with
  | ⟨payload, _, hc, _, hp⟩ => ⟨payload, hc, by rw [(hp (by decide)).1]; decide⟩

/-! ## C5: the range read into a buffer against the plain range read -/

/-- Below the 32-bit maximum the two range reads agree: the payload of
`GetBytesRangeInto` is the first `N` bytes of the payload of `GetBytesRange`. -/
theorem range_into_agrees_below_max (key : Key) (b : Bucket) (s : GoSlice) (start end_ dstSize : Nat)
    (hb : b.bytedata key = some s) (hs : s.data.length < 2 ^ 32)
    (h1 : start ≤ end_) (h2 : end_ < 2 ^ 32 - 1) (hN : dstSize < 2 ^ 32) :
    ∃ R : List Byte,
      (∀ rest out : List Byte,
        Store.GetBytesRange key ⟨b, ⟨PutUint32 start ++ (PutUint32 end_ ++ rest), out, []⟩⟩ =
          Res.ok () ⟨b, ⟨rest, out ++ ([ackReply] ++ lenPrefixed R), []⟩⟩) ∧
      (∀ rest out : List Byte,
        Store.GetBytesRangeInto key
            ⟨b, ⟨PutUint32 start ++ (PutUint32 end_ ++ (PutUint32 dstSize ++ rest)), out, []⟩⟩ =
          Res.ok () ⟨b, ⟨rest, out ++ ([ackReply] ++ lenPrefixed (R.take dstSize)), []⟩⟩) ∧
      (R.take dstSize).length = min dstSize R.length :=
  ⟨rangeOf s.data start end_,
    fun rest out => GetBytesRange_run key b s start end_ rest out hb hs h1 h2,
    fun rest out => GetBytesRangeInto_run key b s start end_ dstSize rest out hb hs h1 h2 hN,
    by simp⟩

/-- C5 (the code at the failing input). With the key holding the three bytes
`1, 2, 3`, start `1` and end `2^32 - 1`: `GetBytesRange` acknowledges and then
panics on the slice `data[1:0]` (the increment of `end` has wrapped to `0`),
so it returns no payload, whereas `GetBytesRangeInto` with capacity `1`
replies with the payload `2`. -/
theorem C5_range_reads_disagree_at_max_end :
    Store.GetBytesRange [102]
        ⟨Bucket.empty.setBytes [102] ⟨[1, 2, 3], []⟩,
          ⟨PutUint32 1 ++ (PutUint32 4294967295 ++ []), [], []⟩⟩ =
      Res.panic Panic.sliceBounds
        ⟨Bucket.empty.setBytes [102] ⟨[1, 2, 3], []⟩, ⟨[], [ackReply], []⟩⟩ ∧
    Store.GetBytesRangeInto [102]
        ⟨Bucket.empty.setBytes [102] ⟨[1, 2, 3], []⟩,
          ⟨PutUint32 1 ++ (PutUint32 4294967295 ++ (PutUint32 1 ++ [])), [], []⟩⟩ =
      Res.ok ()
        ⟨Bucket.empty.setBytes [102] ⟨[1, 2, 3], []⟩, ⟨[], [ackReply] ++ lenPrefixed [2], []⟩⟩ := by
  have hb := setBytes_get Bucket.empty [102] ⟨[1, 2, 3], []⟩
  have hw : add32 4294967295 1 = 0 := by decide
  have hu : u32 (GoSlice.len ⟨[1, 2, 3], []⟩) = 3 := by decide
  constructor
  · have hsl := slice_panic (σ := BucketConn) ⟨[1, 2, 3], []⟩ 1 0
      ⟨Bucket.empty.setBytes [102] ⟨[1, 2, 3], []⟩, ⟨[], [ackReply], []⟩⟩ (by decide)
    simp only [Store.GetBytesRange, Proc.bind_eq, Proc.bind, onConn_run,
      readUint32_ok 1 (by decide), readUint32_ok 4294967295 (by decide), check, try_, Proc.pure,
      Proc.get, hb, sendMessage_ok, hw, hu, show ¬ (1 > 3) by decide, show ¬ (0 > 3) by decide,
      if_false, hsl, List.nil_append]
  · have hs1 : sub32 0 1 = 4294967295 := by decide
    have ha : add32 1 1 = 2 := by decide
    have hsl := slice_ok (σ := BucketConn) ⟨[1, 2, 3], []⟩ 1 2
      ⟨Bucket.empty.setBytes [102] ⟨[1, 2, 3], []⟩, ⟨[], [ackReply], []⟩⟩ (by decide) (by decide)
    simp only [Store.GetBytesRangeInto, Proc.bind_eq, Proc.bind, onConn_run,
      readUint32_ok 1 (by decide), readUint32_ok 4294967295 (by decide), check, try_, Proc.pure,
      Proc.get, hb, sendMessage_ok, hw, hu, show ¬ (1 > 3) by decide, show ¬ (0 > 3) by decide,
      if_false, hs1, show (4294967295 > 1) by decide, if_true, ha, hsl, sendBytes_ok, List.nil_append]
    rfl

/-- Whenever `GetBytesRangeInto` on a present key returns (whatever the start
and the end), it has acknowledged and replied with one payload of at most
`dstSize` bytes, and it has left the bucket as it was. -/
theorem GetBytesRangeInto_reply (key : Key) (b : Bucket) (s : GoSlice) (start end_ dstSize : Nat)
    (rest out : List Byte) (t : BucketConn) (hb : b.bytedata key = some s)
    (hs : s.data.length < 2 ^ 32) (hst : start < 2 ^ 32) (hen : end_ < 2 ^ 32)
    (hN : dstSize < 2 ^ 32)
    (hrun : Store.GetBytesRangeInto key
      ⟨b, ⟨PutUint32 start ++ (PutUint32 end_ ++ (PutUint32 dstSize ++ rest)), out, []⟩⟩ = Res.ok () t) :
    ∃ part : List Byte, part.length ≤ dstSize ∧
      t = ⟨b, ⟨rest, out ++ ([ackReply] ++ lenPrefixed part), []⟩⟩ := by
  have hus : u32 s.len = s.data.length := Nat.mod_eq_of_lt hs
  by_cases hgt : start > s.data.length
  · refine ⟨[], by simp, ?_⟩
    simp only [Store.GetBytesRangeInto, Proc.bind_eq, Proc.bind, onConn_run, readUint32_ok start hst,
      readUint32_ok end_ hen, readUint32_ok dstSize hN, check, try_, Proc.pure, Proc.get, hb,
      sendMessage_ok, hus, hgt, if_true, sendUint32_ok, List.append_assoc, Res.ok.injEq,
      true_and] at hrun
    rw [← hrun, lenPrefixed_nil]
  · generalize he1 : (if add32 end_ 1 > s.data.length then s.data.length else add32 end_ 1) = e1 at hrun
    have he1lt : e1 < 2 ^ 32 := by
      rw [← he1]; unfold add32; split <;> omega
    generalize he2 : (if sub32 e1 start > dstSize then add32 start dstSize else e1) = e2 at hrun
    by_cases hsl : start ≤ e2 ∧ e2 ≤ s.cap
    · refine ⟨(s.array.take e2).drop start, ?_, ?_⟩
      · have hlen : ((s.array.take e2).drop start).length = e2 - start := by
          simp [GoSlice.array]; unfold GoSlice.cap at hsl; omega
        rw [hlen, ← he2]
        split
        · unfold add32; omega
        · rename_i hle
          rw [← he2] at hsl
          simp only [hle, if_false] at hsl
          rw [sub32_eq e1 start hsl.1 he1lt] at hle
          omega
      · simp only [Store.GetBytesRangeInto, Proc.bind_eq, Proc.bind, onConn_run,
          readUint32_ok start hst, readUint32_ok end_ hen, readUint32_ok dstSize hN, check, try_,
          Proc.pure, Proc.get, hb, sendMessage_ok, hus, hgt, if_false, he1, he2,
          slice_ok s start e2 _ hsl.1 hsl.2, sendBytes_ok, List.append_assoc, Res.ok.injEq,
          true_and] at hrun
        rw [← hrun]
    · simp only [Store.GetBytesRangeInto, Proc.bind_eq, Proc.bind, onConn_run,
        readUint32_ok start hst, readUint32_ok end_ hen, readUint32_ok dstSize hN, check, try_,
        Proc.pure, Proc.get, hb, sendMessage_ok, hus, hgt, if_false, he1, he2,
        slice_panic s start e2 _ hsl, reduceCtorEq] at hrun

/-- The client side of a range read into a buffer, for any reply payload that
fits the buffer. -/
theorem Client_GetBytesRangeInto_of_reply (grow : Nat → Nat → Nat) (key : Key) (st : Store)
    (b : Bucket) (start end_ : Nat) (dst part : List Byte) (hk : key.length < 2 ^ 32)
    (hd : dst.length < 2 ^ 32) (hp : part.length ≤ dst.length) (hb : st.getBucket key = some b)
    (hop : Store.GetBytesRangeInto key
      ⟨b, ⟨PutUint32 start ++ (PutUint32 end_ ++ PutUint32 dst.length), [], []⟩⟩ =
        Res.ok () ⟨b, ⟨[], [ackReply] ++ lenPrefixed part, []⟩⟩) :
    Client.GetBytesRangeInto grow key start end_ dst ⟨Conn.idle, st⟩ =
      Res.ok (part.length, (if part.length < dst.length then some Err.EOF else none),
          part ++ dst.drop part.length)
        ⟨Conn.idle, st⟩ := by
  have hud : u32 dst.length = dst.length := Nat.mod_eq_of_lt hd
  have hx := await_run grow getBytesRangeIntoCmd key (Store.GetBytesRangeInto key) st b b
    (PutUint32 start ++ (PutUint32 end_ ++ PutUint32 dst.length))
    ([ackReply] ++ lenPrefixed part)
    (by decide) hk (dispatch_cases grow key).2.2.2.1 hb hop
  have hr := readBytesInto_ok part dst [] [] hp hd
  by_cases hc : part.length < dst.length
  · simp only [hc, if_true] at hr ⊢
    simp [Client.GetBytesRangeInto, Conn.idle, Proc.bind, onClientConn_run, sendMessage_ok, sendBytes_ok,
      sendUint32_ok, hud, try_, check, hx, readMessage_ok, Proc.pure, withBuf, hr,
      withBucket_self st key b hb, ackReply_ne_errNoKeyReply]
  · simp only [hc, if_false] at hr ⊢
    simp [Client.GetBytesRangeInto, Conn.idle, Proc.bind, onClientConn_run, sendMessage_ok, sendBytes_ok,
      sendUint32_ok, hud, try_, check, hx, readMessage_ok, Proc.pure, withBuf, hr,
      withBucket_self st key b hb, ackReply_ne_errNoKeyReply]

/-! ## C6: the short-read signal of `GetBytesInto` after `SetBytes` -/

/-- What `GetBytesInto` returns right after `SetBytes`. -/
theorem Client_SetBytes_GetBytesInto_run (grow : Nat → Nat → Nat) (key : Key) (st : Store)
    (b : Bucket) (D dst : List Byte) (hk : key.length < 2 ^ 32) (hD : D.length < 2 ^ 32)
    (hd : dst.length < 2 ^ 32) (hb : st.getBucket key = some b) :
    (Client.SetBytes grow key D >>= fun _ => Client.GetBytesInto grow key dst) ⟨Conn.idle, st⟩ =
      Res.ok ((D.take dst.length).length,
          (if (D.take dst.length).length < dst.length then some Err.EOF else none),
          D.take dst.length ++ dst.drop (D.take dst.length).length)
        ⟨Conn.idle, st.withBucket key (b.setBytes key (GoSlice.ofBytes D))⟩ := by
  have hg := Client_GetBytesInto_run grow key (st.withBucket key (b.setBytes key (GoSlice.ofBytes D)))
    (b.setBytes key (GoSlice.ofBytes D)) (GoSlice.ofBytes D) dst hk hD hd (getBucket_withBucket _ _ _)
    (setBytes_get _ _ _)
  simp only [Proc.bind_eq, Proc.bind, Client_SetBytes_run grow key st b D hk hD hb, hg]
  rfl

/-- C6 (as the code has it). `GetBytesInto` after `SetBytes(K, D)` with a
destination of capacity `N` returns the first `min(N, len(D))` bytes of `D` at
the front of the destination. When `N < len(D)` these are the first `N` bytes
and no short-read signal is given; when `N = len(D)` it is all of `D`, with no
signal; when `N > len(D)` it is all of `D`, the rest of the destination is
left as it was, and the short-read signal `io.EOF` is given. -/
theorem C6_get_into_after_set (grow : Nat → Nat → Nat) (key : Key) (st : Store)
    (b : Bucket) (D dst : List Byte) (hk : key.length < 2 ^ 32) (hD : D.length < 2 ^ 32)
    (hd : dst.length < 2 ^ 32) (hb : st.getBucket key = some b) :
    (dst.length < D.length →
      (Client.SetBytes grow key D >>= fun _ => Client.GetBytesInto grow key dst) ⟨Conn.idle, st⟩ =
        Res.ok (dst.length, none, D.take dst.length)
          ⟨Conn.idle, st.withBucket key (b.setBytes key (GoSlice.ofBytes D))⟩) ∧
    (dst.length = D.length →
      (Client.SetBytes grow key D >>= fun _ => Client.GetBytesInto grow key dst) ⟨Conn.idle, st⟩ =
        Res.ok (D.length, none, D)
          ⟨Conn.idle, st.withBucket key (b.setBytes key (GoSlice.ofBytes D))⟩) ∧
    (D.length < dst.length →
      (Client.SetBytes grow key D >>= fun _ => Client.GetBytesInto grow key dst) ⟨Conn.idle, st⟩ =
        Res.ok (D.length, some Err.EOF, D ++ dst.drop D.length)
          ⟨Conn.idle, st.withBucket key (b.setBytes key (GoSlice.ofBytes D))⟩) := by
  have h := Client_SetBytes_GetBytesInto_run grow key st b D dst hk hD hd hb
  refine ⟨fun hlt => ?_, fun heq => ?_, fun hgt => ?_⟩
  · rw [h]
    have h1 : (D.take dst.length).length = dst.length := by simp; omega
    simp [h1]
  · rw [h]
    have h1 : D.take dst.length = D := List.take_of_length_le (by omega)
    simp [h1, heq]
  · rw [h]
    have h1 : D.take dst.length = D := List.take_of_length_le (by omega)
    simp [h1, hgt]

/-- An instance of C6: a two-byte value read into a three-byte destination. -/
theorem C6_get_into_after_set_witness :
    (Client.SetBytes (fun _ n => n) [102] [1, 2] >>= fun _ =>
        Client.GetBytesInto (fun _ n => n) [102] [9, 9, 9]) ⟨Conn.idle, oneBucketStore⟩ =
      Res.ok (2, some Err.EOF, [1, 2, 9])
        ⟨Conn.idle, oneBucketStore.withBucket [102] (Bucket.empty.setBytes [102] (GoSlice.ofBytes [1, 2]))⟩ :=
  (C6_get_into_after_set (fun _ n => n) [102] oneBucketStore Bucket.empty [1, 2] [9, 9, 9]
    (by decide) (by decide) (by decide) (oneBucketStore_getBucket _)).2.2 (by decide)

/-- C6 (counterexample to the claim as stated). With `D` of two bytes and a
destination of capacity one, `N < len(D)`: the call returns the first byte and
a nil error, so no short-read signal is given. With `D` of one byte and a
destination of capacity two, `N ≥ len(D)`: the call returns all of `D` and the
short-read signal `io.EOF`. -/
theorem C6_signal_is_the_other_way_round :
    (Client.SetBytes (fun _ n => n) [102] [1, 2] >>= fun _ =>
        Client.GetBytesInto (fun _ n => n) [102] [9]) ⟨Conn.idle, oneBucketStore⟩ =
      Res.ok (1, none, [1])
        ⟨Conn.idle, oneBucketStore.withBucket [102] (Bucket.empty.setBytes [102] (GoSlice.ofBytes [1, 2]))⟩ ∧
    (Client.SetBytes (fun _ n => n) [102] [1] >>= fun _ =>
        Client.GetBytesInto (fun _ n => n) [102] [9, 9]) ⟨Conn.idle, oneBucketStore⟩ =
      Res.ok (1, some Err.EOF, [1, 9])
        ⟨Conn.idle, oneBucketStore.withBucket [102] (Bucket.empty.setBytes [102] (GoSlice.ofBytes [1]))⟩ :=
  ⟨Client_SetBytes_GetBytesInto_run (fun _ n => n) [102] oneBucketStore Bucket.empty [1, 2] [9]
      (by decide) (by decide) (by decide) (oneBucketStore_getBucket _),
    Client_SetBytes_GetBytesInto_run (fun _ n => n) [102] oneBucketStore Bucket.empty [1] [9, 9]
      (by decide) (by decide) (by decide) (oneBucketStore_getBucket _)⟩

/-! ## C7: what the client's reads into a buffer return -/

/-- C7. For every stored value `D` and every destination buffer `dst` (whose
length, like every capacity of the protocol, is a 32-bit quantity),
`Client.GetBytesInto` returns `n = min(len(D), len(dst))`, fills `dst[0:n]`
with `D[0:n]`, leaves `dst[n:]` untouched, and returns `io.EOF` exactly when
`n < len(dst)` and a nil error otherwise. `Client.GetBytesRangeInto` follows
the same rule on the number of range bytes it receives: whenever the store
operation replies with a payload, the call returns the length `n` of that
payload, with the payload at the front of `dst` and the rest untouched, and
`io.EOF` exactly when `n < len(dst)`; for `start ≤ end` below the 32-bit
maximum the store operation does reply. -/
theorem C7_client_reads_into_buffer (grow : Nat → Nat → Nat) (key : Key) (st : Store) (b : Bucket)
    (s : GoSlice) (dst : List Byte) (hk : key.length < 2 ^ 32) (hs : s.data.length < 2 ^ 32)
    (hd : dst.length < 2 ^ 32) (hb : st.getBucket key = some b) (h : b.bytedata key = some s) :
    (∃ (n : Nat) (err : Option Err) (dst1 : List Byte),
      Client.GetBytesInto grow key dst ⟨Conn.idle, st⟩ = Res.ok (n, err, dst1) ⟨Conn.idle, st⟩ ∧
      n = min s.data.length dst.length ∧ dst1.take n = s.data.take n ∧ dst1.drop n = dst.drop n ∧
      dst1.length = dst.length ∧
      (err = some Err.EOF ↔ n < dst.length) ∧ (err = none ↔ ¬ n < dst.length)) ∧
    (∀ (start end_ : Nat) (t : BucketConn), start < 2 ^ 32 → end_ < 2 ^ 32 →
      Store.GetBytesRangeInto key
        ⟨b, ⟨PutUint32 start ++ (PutUint32 end_ ++ PutUint32 dst.length), [], []⟩⟩ = Res.ok () t →
      ∃ (part : List Byte) (err : Option Err),
        t.conn.out = [ackReply] ++ lenPrefixed part ∧
        Client.GetBytesRangeInto grow key start end_ dst ⟨Conn.idle, st⟩ =
          Res.ok (part.length, err, part ++ dst.drop part.length) ⟨Conn.idle, st⟩ ∧
        part.length ≤ dst.length ∧
        (err = some Err.EOF ↔ part.length < dst.length) ∧
        (err = none ↔ ¬ part.length < dst.length)) ∧
    (∀ start end_ : Nat, start ≤ end_ → end_ < 2 ^ 32 - 1 →
      Store.GetBytesRangeInto key
        ⟨b, ⟨PutUint32 start ++ (PutUint32 end_ ++ PutUint32 dst.length), [], []⟩⟩ =
        Res.ok () ⟨b, ⟨[], [ackReply] ++ lenPrefixed ((rangeOf s.data start end_).take dst.length), []⟩⟩) := by
  refine ⟨?_, ?_, ?_⟩
  · refine ⟨_, _, _, Client_GetBytesInto_run grow key st b s dst hk hs hd hb h, ?_, ?_, ?_, ?_, ?_, ?_⟩
    · simp [Nat.min_comm]
    · simp
    · simp
    · simp
    · split <;> simp_all
    · split <;> simp_all
  · intro start end_ t hst hen hrun
    have hrun1 : Store.GetBytesRangeInto key
        ⟨b, ⟨PutUint32 start ++ (PutUint32 end_ ++ (PutUint32 dst.length ++ [])), [], []⟩⟩ =
        Res.ok () t := by simpa using hrun
    obtain ⟨part, hpl, ht⟩ := GetBytesRangeInto_reply key b s start end_ dst.length [] [] t h hs hst
      hen hd hrun1
    refine ⟨part, _, ?_, Client_GetBytesRangeInto_of_reply grow key st b start end_ dst part hk hd hpl
      hb ?_, hpl, ?_, ?_⟩
    · rw [ht]; simp
    · rw [hrun, ht]; simp
    · split <;> simp_all
    · split <;> simp_all
  · intro start end_ h1 h2
    simpa using GetBytesRangeInto_run key b s start end_ dst.length [] [] h hs h1 h2 hd

/-- An instance of C7: a three-byte value read into a four-byte destination. -/
theorem C7_client_reads_into_buffer_witness :
    ∃ (n : Nat) (err : Option Err) (dst1 : List Byte),
      Client.GetBytesInto (fun _ n => n) [102] [9, 9, 9, 9]
          ⟨Conn.idle, oneBucketStore.withBucket [102] (Bucket.empty.setBytes [102] ⟨[1, 2, 3], []⟩)⟩ =
        Res.ok (n, err, dst1)
          ⟨Conn.idle, oneBucketStore.withBucket [102] (Bucket.empty.setBytes [102] ⟨[1, 2, 3], []⟩)⟩ ∧
      n = 3 ∧ (err = some Err.EOF ↔ n < 4) :=
  match (C7_client_reads_into_buffer (fun _ n => n) [102]
      (oneBucketStore.withBucket [102] (Bucket.empty.setBytes [102] ⟨[1, 2, 3], []⟩))
      (Bucket.empty.setBytes [102] ⟨[1, 2, 3], []⟩) ⟨[1, 2, 3], []⟩ [9, 9, 9, 9]
      (by decide) (by decide) (by decide) (getBucket_withBucket _ _ _) (setBytes_get _ _ _)).1 with
  | ⟨n, err, dst1, hrun, hn, _, _, _, he, _⟩ => ⟨n, err, dst1, hrun, hn, he⟩

/-! ## C8: truncation -/

theorem setBytes_self (b : Bucket) (key : Key) (s : GoSlice) (h : b.bytedata key = some s) :
    b.setBytes key s = b := by
  simp [Bucket.setBytes, ← h]

theorem TruncateBytes_run (key : Key) (b : Bucket) (s : GoSlice) (size : Nat) (rest out : List Byte)
    (hb : b.bytedata key = some s) (hs : s.data.length < 2 ^ 32) (hz : size < 2 ^ 32) :
    Store.TruncateBytes key ⟨b, ⟨PutUint32 size ++ rest, out, []⟩⟩ =
      Res.ok () ⟨if size < s.data.length
          then b.setBytes key ⟨s.data.take size, s.data.drop size ++ s.spare⟩ else b,
        ⟨rest, out ++ [ackReply], []⟩⟩ := by
  have hus : u32 s.len = s.data.length := Nat.mod_eq_of_lt hs
  by_cases hlt : size < s.data.length
  · have hsl := slice_ok (σ := BucketConn) s 0 size ⟨b, ⟨rest, out ++ [ackReply], []⟩⟩ (by omega)
      (by unfold GoSlice.cap; omega)
    simp only [Store.TruncateBytes, Proc.bind_eq, Proc.bind, onConn_run, readUint32_ok size hz, check,
      try_, Proc.pure, Proc.get, hb, sendMessage_ok, hus, hlt, if_true, hsl, Proc.modify, List.drop_zero,
      GoSlice.array, List.take_append_of_le_length (le_of_lt hlt),
      List.drop_append_of_le_length (le_of_lt hlt)]
  · simp only [Store.TruncateBytes, Proc.bind_eq, Proc.bind, onConn_run, readUint32_ok size hz, check,
      try_, Proc.pure, Proc.get, hb, sendMessage_ok, hus, hlt, if_false, Proc.pure_eq]

theorem Client_TruncateBytes_run (grow : Nat → Nat → Nat) (key : Key) (st : Store) (b b1 : Bucket)
    (size : Nat) (hk : key.length < 2 ^ 32) (hb : st.getBucket key = some b)
    (hop : Store.TruncateBytes key ⟨b, ⟨PutUint32 size, [], []⟩⟩ = Res.ok () ⟨b1, ⟨[], [ackReply], []⟩⟩) :
    Client.TruncateBytes grow key size ⟨Conn.idle, st⟩ =
      Res.ok none ⟨Conn.idle, st.withBucket key b1⟩ := by
  have hx := await_run grow truncateBytesCmd key (Store.TruncateBytes key) st b b1 (PutUint32 size)
    [ackReply] (by decide) hk (dispatch_cases grow key).2.2.2.2.2.2.2.1 hb hop
  simp [Client.TruncateBytes, Conn.idle, Proc.bind, onClientConn_run, sendMessage_ok, sendBytes_ok,
    sendUint32_ok, try_, check, hx, readMessage_ok, Proc.pure, ackReply_ne_errNoKeyReply]

/-- C8. `TruncateBytes(K, size)` on a key holding `V` always acknowledges. If
`size < len(V)` the stored value becomes exactly the first `size` bytes of `V`;
if `size ≥ len(V)` the bucket is unchanged. Hence the new length is
`min(len(V), size)`, and truncating twice with the same size leaves the same
bucket as truncating once (with two acknowledgements). The client call returns
a nil error. -/
theorem C8_truncate (grow : Nat → Nat → Nat) (key : Key) (st : Store) (b : Bucket) (s : GoSlice)
    (size : Nat) (hk : key.length < 2 ^ 32) (hb : st.getBucket key = some b)
    (h : b.bytedata key = some s) (hs : s.data.length < 2 ^ 32) (hz : size < 2 ^ 32) :
    ∃ (b1 : Bucket) (s1 : GoSlice),
      (∀ rest out : List Byte,
        Store.TruncateBytes key ⟨b, ⟨PutUint32 size ++ rest, out, []⟩⟩ =
          Res.ok () ⟨b1, ⟨rest, out ++ [ackReply], []⟩⟩) ∧
      b1.bytedata key = some s1 ∧
      (size < s.data.length → s1.data = s.data.take size) ∧
      (s.data.length ≤ size → b1 = b ∧ s1 = s) ∧
      s1.data.length = min s.data.length size ∧
      (∀ rest out : List Byte,
        (Store.TruncateBytes key >>= fun _ => Store.TruncateBytes key)
            ⟨b, ⟨PutUint32 size ++ (PutUint32 size ++ rest), out, []⟩⟩ =
          Res.ok () ⟨b1, ⟨rest, out ++ [ackReply] ++ [ackReply], []⟩⟩) ∧
      Client.TruncateBytes grow key size ⟨Conn.idle, st⟩ =
        Res.ok none ⟨Conn.idle, st.withBucket key b1⟩ := by
  have hrun := TruncateBytes_run key b s size
  by_cases hlt : size < s.data.length
  · have hb1 := setBytes_get b key ⟨s.data.take size, s.data.drop size ++ s.spare⟩
    have hlen : (s.data.take size).length = size := by simp; omega
    have hrun2 := TruncateBytes_run key (b.setBytes key ⟨s.data.take size, s.data.drop size ++ s.spare⟩)
      ⟨s.data.take size, s.data.drop size ++ s.spare⟩ size
    simp only [hlt, if_true] at hrun
    simp only [hlen, lt_irrefl, if_false] at hrun2
    refine ⟨b.setBytes key ⟨s.data.take size, s.data.drop size ++ s.spare⟩,
      ⟨s.data.take size, s.data.drop size ++ s.spare⟩, ?_, hb1, fun _ => rfl, fun hle => by omega,
      by simp; omega, ?_, ?_⟩
    · intro rest out
      exact hrun rest out h hs hz
    · intro rest out
      simp only [Proc.bind_eq, Proc.bind, hrun _ out h hs hz, hrun2 rest _ hb1 (by omega) hz]
    · exact Client_TruncateBytes_run grow key st b _ size hk hb (by simpa using hrun [] [] h hs hz)
  · simp only [hlt, if_false] at hrun
    refine ⟨b, s, ?_, h, fun hl => by omega, fun _ => ⟨rfl, rfl⟩, by omega, ?_, ?_⟩
    · intro rest out
      exact hrun rest out h hs hz
    · intro rest out
      simp only [Proc.bind_eq, Proc.bind, hrun _ out h hs hz, hrun rest _ h hs hz]
    · exact Client_TruncateBytes_run grow key st b _ size hk hb (by simpa using hrun [] [] h hs hz)

/-- An instance of C8: truncating the value `1, 2, 3` to two bytes. -/
theorem C8_truncate_witness :
    ∃ (b1 : Bucket) (s1 : GoSlice),
      Client.TruncateBytes (fun _ n => n) [102] 2
          ⟨Conn.idle, oneBucketStore.withBucket [102] (Bucket.empty.setBytes [102] ⟨[1, 2, 3], []⟩)⟩ =
        Res.ok none
          ⟨Conn.idle, (oneBucketStore.withBucket [102]
            (Bucket.empty.setBytes [102] ⟨[1, 2, 3], []⟩)).withBucket [102] b1⟩ ∧
      b1.bytedata [102] = some s1 ∧ s1.data = [1, 2] :=
  match C8_truncate (fun _ n => n) [102]
      (oneBucketStore.withBucket [102] (Bucket.empty.setBytes [102] ⟨[1, 2, 3], []⟩))
      (Bucket.empty.setBytes [102] ⟨[1, 2, 3], []⟩) ⟨[1, 2, 3], []⟩ 2
      (by decide) (getBucket_withBucket _ _ _) (setBytes_get _ _ _) (by decide) (by decide) with
  | ⟨b1, s1, _, hs1, htake, _, _, _, hc⟩ => ⟨b1, s1, hc, hs1, htake (by decide)⟩

/-! ## C9: the high-water mark -/

theorem setUint_get (b : Bucket) (key : Key) (v : Nat) : (b.setUint key v).uintdata key = some v := by
  simp [Bucket.setUint]

theorem setUint_self (b : Bucket) (key : Key) (v : Nat) (h : b.uintdata key = some v) :
    b.setUint key v = b := by
  simp [Bucket.setUint, ← h]

theorem SetUintIfMax_run (key : Key) (b : Bucket) (v : Nat) (rest out : List Byte) (hv : v < 2 ^ 32) :
    Store.SetUintIfMax key ⟨b, ⟨PutUint32 v ++ rest, out, []⟩⟩ =
      Res.ok () ⟨b.setUint key (highWater (b.uintdata key) v), ⟨rest, out ++ [ackReply], []⟩⟩ := by
  cases hcur : b.uintdata key with
  | none =>
    simp only [Store.SetUintIfMax, Proc.bind_eq, Proc.bind, onConn_run, readUint32_ok v hv, check, try_,
      Proc.pure, Proc.get, hcur, Proc.modify, sendMessage_ok, highWater]
  | some u =>
    by_cases hgt : v > u
    · simp only [Store.SetUintIfMax, Proc.bind_eq, Proc.bind, onConn_run, readUint32_ok v hv, check,
        try_, Proc.pure, Proc.get, hcur, Proc.modify, sendMessage_ok, highWater, hgt, if_true,
        show max u v = v by omega]
    · simp only [Store.SetUintIfMax, Proc.bind_eq, Proc.bind, onConn_run, readUint32_ok v hv, check,
        try_, Proc.pure, Proc.get, hcur, Proc.modify, sendMessage_ok, highWater, hgt, if_false,
        Proc.pure_eq, show max u v = u by omega, setUint_self b key u hcur]

theorem setUintIfMaxCalls_run (key : Key) (rest : List Byte) (vs : List Nat) :
    ∀ (b : Bucket) (out : List Byte), (∀ v ∈ vs, v < 2 ^ 32) →
      setUintIfMaxCalls key vs.length ⟨b, ⟨uintFields vs ++ rest, out, []⟩⟩ =
        Res.ok () ⟨vs.foldl (fun bb v => bb.setUint key (highWater (bb.uintdata key) v)) b,
          ⟨rest, out ++ List.replicate vs.length ackReply, []⟩⟩ := by
  induction vs with
  | nil =>
    intro b out _
    simp [setUintIfMaxCalls, uintFields, Proc.pure]
  | cons v tl ih =>
    intro b out hall
    have hv : v < 2 ^ 32 := hall v (List.mem_cons_self _ _)
    have htl : ∀ x ∈ tl, x < 2 ^ 32 := fun x hx => hall x (List.mem_cons_of_mem _ hx)
    simp only [setUintIfMaxCalls, uintFields, List.length_cons, List.append_assoc, Proc.bind_eq,
      Proc.bind, SetUintIfMax_run key b v _ out hv, ih _ _ htl, List.foldl_cons]
    simp [List.replicate_succ]

theorem fold_setUint_get (key : Key) (vs : List Nat) :
    ∀ (b : Bucket) (u : Nat), b.uintdata key = some u →
      (vs.foldl (fun bb v => bb.setUint key (highWater (bb.uintdata key) v)) b).uintdata key =
        some (vs.foldl max u) := by
  induction vs with
  | nil => intro b u h; simpa using h
  | cons v tl ih =>
    intro b u h
    simp only [List.foldl_cons]
    exact ih _ _ (by rw [setUint_get, h]; rfl)

theorem le_foldl_max (vs : List Nat) : ∀ u : Nat, u ≤ vs.foldl max u ∧ ∀ x ∈ vs, x ≤ vs.foldl max u := by
  induction vs with
  | nil => intro u; simp
  | cons v tl ih =>
    intro u
    simp only [List.foldl_cons, List.mem_cons]
    have h := ih (max u v)
    refine ⟨by omega, ?_⟩
    rintro x (rfl | hx)
    · omega
    · exact h.2 x hx

theorem foldl_max_mem (vs : List Nat) : ∀ u : Nat, vs.foldl max u ∈ u :: vs := by
  induction vs with
  | nil => intro u; simp
  | cons v tl ih =>
    intro u
    simp only [List.foldl_cons]
    have h := ih (max u v)
    rcases List.mem_cons.mp h with h1 | h1
    · rcases Nat.le_total u v with huv | huv
      · rw [h1, Nat.max_eq_right huv]; simp
      · rw [h1, Nat.max_eq_left huv]; simp
    · exact List.mem_cons_of_mem _ (List.mem_cons_of_mem _ h1)

/-- C9. `SetUintIfMax` is a high-water mark. After the calls
`SetUintIfMax(K, v1)`, ..., `SetUintIfMax(K, vn)` (any 32-bit values) every call
has been acknowledged; starting from a key absent in the integer mapping and a
non-empty sequence the stored value is `max(v1, ..., vn)`; starting from a stored
value `u` it is `max(u, v1, ..., vn)`, which is at least `u`. The maximum is
stated both as a fold and by its defining properties (an upper bound that is
one of the values). A single call on a stored value `u` leaves `max(u, v)`,
never less than `u`, and acknowledges whether or not it replaced the value. -/
theorem C9_set_uint_if_max_high_water (key : Key) (b : Bucket) (vs : List Nat)
    (rest out : List Byte) (hvs : ∀ v ∈ vs, v < 2 ^ 32) :
    ∃ b1 : Bucket,
      setUintIfMaxCalls key vs.length ⟨b, ⟨uintFields vs ++ rest, out, []⟩⟩ =
        Res.ok () ⟨b1, ⟨rest, out ++ List.replicate vs.length ackReply, []⟩⟩ ∧
      (∀ (v : Nat) (tl : List Nat), vs = v :: tl → b.uintdata key = none →
        b1.uintdata key = some (tl.foldl max v) ∧
        (∀ x ∈ v :: tl, x ≤ tl.foldl max v) ∧ tl.foldl max v ∈ v :: tl) ∧
      (∀ u : Nat, b.uintdata key = some u →
        b1.uintdata key = some (vs.foldl max u) ∧ u ≤ vs.foldl max u ∧
        (∀ x ∈ vs, x ≤ vs.foldl max u) ∧ vs.foldl max u ∈ u :: vs) ∧
      (∀ (b0 : Bucket) (u v : Nat) (rest0 out0 : List Byte), v < 2 ^ 32 →
        b0.uintdata key = some u →
        ∃ u1 : Nat,
          Store.SetUintIfMax key ⟨b0, ⟨PutUint32 v ++ rest0, out0, []⟩⟩ =
            Res.ok () ⟨b0.setUint key u1, ⟨rest0, out0 ++ [ackReply], []⟩⟩ ∧
          u1 = max u v ∧ u ≤ u1) := by
  refine ⟨_, setUintIfMaxCalls_run key rest vs b out hvs, ?_, ?_, ?_⟩
  · intro v tl hvt hnone
    subst hvt
    refine ⟨?_, ?_, foldl_max_mem tl v⟩
    · simp only [List.foldl_cons, hnone, highWater]
      exact fold_setUint_get key tl _ v (setUint_get _ _ _)
    · intro x hx
      rcases List.mem_cons.mp hx with rfl | hx
      · exact (le_foldl_max tl x).1
      · exact (le_foldl_max tl v).2 x hx
  · intro u hu
    exact ⟨fold_setUint_get key vs b u hu, (le_foldl_max vs u).1, (le_foldl_max vs u).2,
      foldl_max_mem vs u⟩
  · intro b0 u v rest0 out0 hv hu
    refine ⟨max u v, ?_, rfl, by omega⟩
    have h := SetUintIfMax_run key b0 v rest0 out0 hv
    rw [hu] at h
    exact h

/-- An instance of C9: the calls with 4, 2 and 100 on an absent key leave 100. -/
theorem C9_set_uint_if_max_high_water_witness :
    ∃ b1 : Bucket,
      setUintIfMaxCalls [102] 3 ⟨Bucket.empty, ⟨uintFields [4, 2, 100] ++ [], [], []⟩⟩ =
        Res.ok () ⟨b1, ⟨[], [] ++ List.replicate 3 ackReply, []⟩⟩ ∧
      b1.uintdata [102] = some 100 :=
  match C9_set_uint_if_max_high_water [102] Bucket.empty [4, 2, 100] [] [] (by decide) with
  | ⟨b1, hrun, habs, _, _⟩ => ⟨b1, hrun, (habs 4 [2, 100] rfl rfl).1⟩

/-! ## C10: keys that are not there -/

theorem GetBytes_absent (key : Key) (b : Bucket) (rest out : List Byte) (hb : b.bytedata key = none) :
    Store.GetBytes key ⟨b, ⟨rest, out, []⟩⟩ = Res.ok () ⟨b, ⟨rest, out ++ [errNoKeyReply], []⟩⟩ := by
  simp only [Store.GetBytes, Proc.bind_eq, Proc.bind, onConn_run, try_, Proc.pure, Proc.get, hb,
    sendMessage_ok]

theorem GetBytesInto_absent (key : Key) (b : Bucket) (dstSize : Nat) (rest out : List Byte)
    (hb : b.bytedata key = none) (hN : dstSize < 2 ^ 32) :
    Store.GetBytesInto key ⟨b, ⟨PutUint32 dstSize ++ rest, out, []⟩⟩ =
      Res.ok () ⟨b, ⟨rest, out ++ [errNoKeyReply], []⟩⟩ := by
  simp only [Store.GetBytesInto, Proc.bind_eq, Proc.bind, onConn_run, readUint32_ok dstSize hN, check,
    try_, Proc.pure, Proc.get, hb, sendMessage_ok]

theorem GetBytesRange_absent (key : Key) (b : Bucket) (start end_ : Nat) (rest out : List Byte)
    (hb : b.bytedata key = none) (hst : start < 2 ^ 32) (hen : end_ < 2 ^ 32) :
    Store.GetBytesRange key ⟨b, ⟨PutUint32 start ++ (PutUint32 end_ ++ rest), out, []⟩⟩ =
      Res.ok () ⟨b, ⟨rest, out ++ [errNoKeyReply], []⟩⟩ := by
  simp only [Store.GetBytesRange, Proc.bind_eq, Proc.bind, onConn_run, readUint32_ok start hst,
    readUint32_ok end_ hen, check, try_, Proc.pure, Proc.get, hb, sendMessage_ok]

theorem GetBytesRangeInto_absent (key : Key) (b : Bucket) (start end_ dstSize : Nat)
    (rest out : List Byte) (hb : b.bytedata key = none) (hst : start < 2 ^ 32) (hen : end_ < 2 ^ 32)
    (hN : dstSize < 2 ^ 32) :
    Store.GetBytesRangeInto key
        ⟨b, ⟨PutUint32 start ++ (PutUint32 end_ ++ (PutUint32 dstSize ++ rest)), out, []⟩⟩ =
      Res.ok () ⟨b, ⟨rest, out ++ [errNoKeyReply], []⟩⟩ := by
  simp only [Store.GetBytesRangeInto, Proc.bind_eq, Proc.bind, onConn_run, readUint32_ok start hst,
    readUint32_ok end_ hen, readUint32_ok dstSize hN, check, try_, Proc.pure, Proc.get, hb,
    sendMessage_ok]

theorem TruncateBytes_absent (key : Key) (b : Bucket) (size : Nat) (rest out : List Byte)
    (hb : b.bytedata key = none) (hz : size < 2 ^ 32) :
    Store.TruncateBytes key ⟨b, ⟨PutUint32 size ++ rest, out, []⟩⟩ =
      Res.ok () ⟨b, ⟨rest, out ++ [errNoKeyReply], []⟩⟩ := by
  simp only [Store.TruncateBytes, Proc.bind_eq, Proc.bind, onConn_run, readUint32_ok size hz, check,
    try_, Proc.pure, Proc.get, hb, sendMessage_ok]

theorem DelBytes_absent (key : Key) (b : Bucket) (rest out : List Byte) (hb : b.bytedata key = none) :
    Store.DelBytes key ⟨b, ⟨rest, out, []⟩⟩ = Res.ok () ⟨b, ⟨rest, out ++ [errNoKeyReply], []⟩⟩ := by
  simp only [Store.DelBytes, Proc.bind_eq, Proc.bind, onConn_run, try_, Proc.pure, Proc.get, hb,
    sendMessage_ok]

theorem GetUint_absent (key : Key) (b : Bucket) (rest out : List Byte) (hb : b.uintdata key = none) :
    Store.GetUint key ⟨b, ⟨rest, out, []⟩⟩ = Res.ok () ⟨b, ⟨rest, out ++ [errNoKeyReply], []⟩⟩ := by
  simp only [Store.GetUint, Proc.bind_eq, Proc.bind, onConn_run, try_, Proc.pure, Proc.get, hb,
    sendMessage_ok]

theorem DelUint_absent (key : Key) (b : Bucket) (rest out : List Byte) (hb : b.uintdata key = none) :
    Store.DelUint key ⟨b, ⟨rest, out, []⟩⟩ = Res.ok () ⟨b, ⟨rest, out ++ [errNoKeyReply], []⟩⟩ := by
  simp only [Store.DelUint, Proc.bind_eq, Proc.bind, onConn_run, try_, Proc.pure, Proc.get, hb,
    sendMessage_ok]

/-- The exchange behind a client call on an absent key: the reply is the single
byte error-no-key and the store is as before. -/
theorem await_absent (grow : Nat → Nat → Nat) (cmd : Message) (key : Key) (op : Proc BucketConn Unit)
    (st : Store) (b : Bucket) (fields : List Byte)
    (hc : cmd ≠ stopCmd) (hk : key.length < 2 ^ 32)
    (hd : Store.handleRequest.dispatch grow cmd key = onBucket key op)
    (hb : st.getBucket key = some b)
    (hop : op ⟨b, ⟨fields, [], []⟩⟩ = Res.ok () ⟨b, ⟨[], [errNoKeyReply], []⟩⟩) :
    Client.await grow ⟨⟨[], cmd :: (lenPrefixed key ++ fields), []⟩, st⟩ =
      Res.ok () ⟨⟨[errNoKeyReply], [], []⟩, st⟩ := by
  rw [await_run grow cmd key op st b b fields [errNoKeyReply] hc hk hd hb hop,
    withBucket_self st key b hb]

/-- C10. Not-found. For a key absent from the byte mapping of its bucket,
`GetBytes`, `GetBytesInto`, `GetBytesRange`, `GetBytesRangeInto`, `TruncateBytes`
and `DelBytes` reply with the single byte error-no-key, for all values of their
32-bit arguments, consume exactly their fields and leave the bucket unchanged;
the corresponding client calls return `ErrKeyNotFound` and leave the store (and
a destination buffer) unchanged. For a key absent from the integer mapping,
`GetUint` and `DelUint` do the same. -/
theorem C10_not_found (grow : Nat → Nat → Nat) (key : Key) (st : Store) (b : Bucket)
    (hk : key.length < 2 ^ 32) (hb : st.getBucket key = some b) :
    (b.bytedata key = none →
      (∀ rest out : List Byte,
        Store.GetBytes key ⟨b, ⟨rest, out, []⟩⟩ = Res.ok () ⟨b, ⟨rest, out ++ [errNoKeyReply], []⟩⟩) ∧
      (∀ (n : Nat) (rest out : List Byte), n < 2 ^ 32 →
        Store.GetBytesInto key ⟨b, ⟨PutUint32 n ++ rest, out, []⟩⟩ =
          Res.ok () ⟨b, ⟨rest, out ++ [errNoKeyReply], []⟩⟩) ∧
      (∀ (start end_ : Nat) (rest out : List Byte), start < 2 ^ 32 → end_ < 2 ^ 32 →
        Store.GetBytesRange key ⟨b, ⟨PutUint32 start ++ (PutUint32 end_ ++ rest), out, []⟩⟩ =
          Res.ok () ⟨b, ⟨rest, out ++ [errNoKeyReply], []⟩⟩) ∧
      (∀ (start end_ n : Nat) (rest out : List Byte), start < 2 ^ 32 → end_ < 2 ^ 32 → n < 2 ^ 32 →
        Store.GetBytesRangeInto key
            ⟨b, ⟨PutUint32 start ++ (PutUint32 end_ ++ (PutUint32 n ++ rest)), out, []⟩⟩ =
          Res.ok () ⟨b, ⟨rest, out ++ [errNoKeyReply], []⟩⟩) ∧
      (∀ (size : Nat) (rest out : List Byte), size < 2 ^ 32 →
        Store.TruncateBytes key ⟨b, ⟨PutUint32 size ++ rest, out, []⟩⟩ =
          Res.ok () ⟨b, ⟨rest, out ++ [errNoKeyReply], []⟩⟩) ∧
      (∀ rest out : List Byte,
        Store.DelBytes key ⟨b, ⟨rest, out, []⟩⟩ = Res.ok () ⟨b, ⟨rest, out ++ [errNoKeyReply], []⟩⟩) ∧
      Client.GetBytes grow key ⟨Conn.idle, st⟩ =
        Res.ok ([], some Err.ErrKeyNotFound) ⟨Conn.idle, st⟩ ∧
      (∀ dst : List Byte,
        Client.GetBytesInto grow key dst ⟨Conn.idle, st⟩ =
          Res.ok (0, some Err.ErrKeyNotFound, dst) ⟨Conn.idle, st⟩) ∧
      (∀ start end_ : Nat, start < 2 ^ 32 → end_ < 2 ^ 32 →
        Client.GetBytesRange grow key start end_ ⟨Conn.idle, st⟩ =
          Res.ok ([], some Err.ErrKeyNotFound) ⟨Conn.idle, st⟩) ∧
      (∀ (start end_ : Nat) (dst : List Byte), start < 2 ^ 32 → end_ < 2 ^ 32 →
        Client.GetBytesRangeInto grow key start end_ dst ⟨Conn.idle, st⟩ =
          Res.ok (0, some Err.ErrKeyNotFound, dst) ⟨Conn.idle, st⟩) ∧
      (∀ size : Nat, size < 2 ^ 32 →
        Client.TruncateBytes grow key size ⟨Conn.idle, st⟩ =
          Res.ok (some Err.ErrKeyNotFound) ⟨Conn.idle, st⟩) ∧
      Client.DelBytes grow key ⟨Conn.idle, st⟩ =
        Res.ok (some Err.ErrKeyNotFound) ⟨Conn.idle, st⟩) ∧
    (b.uintdata key = none →
      (∀ rest out : List Byte,
        Store.GetUint key ⟨b, ⟨rest, out, []⟩⟩ = Res.ok () ⟨b, ⟨rest, out ++ [errNoKeyReply], []⟩⟩) ∧
      (∀ rest out : List Byte,
        Store.DelUint key ⟨b, ⟨rest, out, []⟩⟩ = Res.ok () ⟨b, ⟨rest, out ++ [errNoKeyReply], []⟩⟩) ∧
      Client.GetUint grow key ⟨Conn.idle, st⟩ =
        Res.ok (0, some Err.ErrKeyNotFound) ⟨Conn.idle, st⟩ ∧
      Client.DelUint grow key ⟨Conn.idle, st⟩ =
        Res.ok (some Err.ErrKeyNotFound) ⟨Conn.idle, st⟩) := by
  have hd := dispatch_cases grow key
  have hu32 : ∀ n : Nat, u32 n < 2 ^ 32 := fun n => Nat.mod_lt _ (by decide)
  constructor
  · intro hnone
    refine ⟨fun rest out => GetBytes_absent key b rest out hnone,
      fun n rest out hn => GetBytesInto_absent key b n rest out hnone hn,
      fun start end_ rest out h1 h2 => GetBytesRange_absent key b start end_ rest out hnone h1 h2,
      fun start end_ n rest out h1 h2 h3 =>
        GetBytesRangeInto_absent key b start end_ n rest out hnone h1 h2 h3,
      fun size rest out hz => TruncateBytes_absent key b size rest out hnone hz,
      fun rest out => DelBytes_absent key b rest out hnone, ?_, ?_, ?_, ?_, ?_, ?_⟩
    · have hx := await_absent grow getBytesCmd key (Store.GetBytes key) st b [] (by decide) hk hd.1 hb
        (by simpa using GetBytes_absent key b [] [] hnone)
      simp only [List.append_nil] at hx
      simp [Client.GetBytes, Conn.idle, Proc.bind, onClientConn_run, sendMessage_ok, sendBytes_ok, try_,
        check, hx, readMessage_ok, Proc.pure]
    · intro dst
      have hx := await_absent grow getBytesIntoCmd key (Store.GetBytesInto key) st b
        (PutUint32 (u32 dst.length)) (by decide) hk hd.2.1 hb
        (by simpa using GetBytesInto_absent key b (u32 dst.length) [] [] hnone (hu32 _))
      simp [Client.GetBytesInto, Conn.idle, Proc.bind, onClientConn_run, sendMessage_ok, sendBytes_ok,
        sendUint32_ok, try_, check, hx, readMessage_ok, Proc.pure]
    · intro start end_ h1 h2
      have hx := await_absent grow getBytesRangeCmd key (Store.GetBytesRange key) st b
        (PutUint32 start ++ PutUint32 end_) (by decide) hk hd.2.2.1 hb
        (by simpa using GetBytesRange_absent key b start end_ [] [] hnone h1 h2)
      simp [Client.GetBytesRange, Conn.idle, Proc.bind, onClientConn_run, sendMessage_ok, sendBytes_ok,
        sendUint32_ok, try_, check, hx, readMessage_ok, Proc.pure]
    · intro start end_ dst h1 h2
      have hop := GetBytesRangeInto_absent key b start end_ (u32 dst.length) [] [] hnone h1 h2 (hu32 _)
      have hx := await_absent grow getBytesRangeIntoCmd key (Store.GetBytesRangeInto key) st b
        (PutUint32 start ++ (PutUint32 end_ ++ PutUint32 (u32 dst.length))) (by decide) hk
        hd.2.2.2.1 hb (by simpa using hop)
      simp [Client.GetBytesRangeInto, Conn.idle, Proc.bind, onClientConn_run, sendMessage_ok,
        sendBytes_ok, sendUint32_ok, try_, check, hx, readMessage_ok, Proc.pure]
    · intro size hz
      have hx := await_absent grow truncateBytesCmd key (Store.TruncateBytes key) st b
        (PutUint32 size) (by decide) hk hd.2.2.2.2.2.2.2.1 hb
        (by simpa using TruncateBytes_absent key b size [] [] hnone hz)
      simp [Client.TruncateBytes, Conn.idle, Proc.bind, onClientConn_run, sendMessage_ok, sendBytes_ok,
        sendUint32_ok, try_, check, hx, readMessage_ok, Proc.pure]
    · have hx := await_absent grow delBytesCmd key (Store.DelBytes key) st b [] (by decide) hk
        hd.2.2.2.2.2.2.1 hb (by simpa using DelBytes_absent key b [] [] hnone)
      simp only [List.append_nil] at hx
      simp [Client.DelBytes, Conn.idle, Proc.bind, onClientConn_run, sendMessage_ok, sendBytes_ok, try_,
        check, hx, readMessage_ok, Proc.pure]
  · intro hnone
    refine ⟨fun rest out => GetUint_absent key b rest out hnone,
      fun rest out => DelUint_absent key b rest out hnone, ?_, ?_⟩
    · have hx := await_absent grow getUintCmd key (Store.GetUint key) st b [] (by decide) hk
        hd.2.2.2.2.2.2.2.2.2.1 hb (by simpa using GetUint_absent key b [] [] hnone)
      simp only [List.append_nil] at hx
      simp [Client.GetUint, Conn.idle, Proc.bind, onClientConn_run, sendMessage_ok, sendBytes_ok, try_,
        check, hx, readMessage_ok, Proc.pure]
    · have hx := await_absent grow delUintCmd key (Store.DelUint key) st b [] (by decide) hk
        hd.2.2.2.2.2.2.2.2.2.2.1 hb (by simpa using DelUint_absent key b [] [] hnone)
      simp only [List.append_nil] at hx
      simp [Client.DelUint, Conn.idle, Proc.bind, onClientConn_run, sendMessage_ok, sendBytes_ok, try_,
        check, hx, readMessage_ok, Proc.pure]

/-- An instance of C10: reading a byte value and deleting an integer under a key never written. -/
theorem C10_not_found_witness :
    Client.GetBytes (fun _ n => n) [102, 111, 111] ⟨Conn.idle, oneBucketStore⟩ =
      Res.ok ([], some Err.ErrKeyNotFound) ⟨Conn.idle, oneBucketStore⟩ ∧
    Client.DelUint (fun _ n => n) [102, 111, 111] ⟨Conn.idle, oneBucketStore⟩ =
      Res.ok (some Err.ErrKeyNotFound) ⟨Conn.idle, oneBucketStore⟩ :=
  ⟨((C10_not_found (fun _ n => n) [102, 111, 111] oneBucketStore Bucket.empty (by decide)
      (oneBucketStore_getBucket _)).1 rfl).2.2.2.2.2.2.1,
    ((C10_not_found (fun _ n => n) [102, 111, 111] oneBucketStore Bucket.empty (by decide)
      (oneBucketStore_getBucket _)).2 rfl).2.2.2⟩

/-! ## Outcomes on arbitrary input -/

theorem sat_bind {σ α β : Type} (p : Proc σ α) (f : α → Proc σ β) (s : σ) (Q : β → σ → Prop)
    (E : σ → Prop) :
    (Proc.bind p f s).sat Q E ↔ (p s).sat (fun a s1 => (f a s1).sat Q E) E := by
  unfold Proc.bind
  cases p s <;> rfl

theorem sat_pure {σ α : Type} (a : α) (s : σ) (Q : α → σ → Prop) (E : σ → Prop) :
    (Proc.pure a s).sat Q E ↔ Q a s := Iff.rfl

theorem sat_raise {σ α : Type} (p : Panic) (s : σ) (Q : α → σ → Prop) (E : σ → Prop) :
    ((Proc.raise p : Proc σ α) s).sat Q E ↔ E s := Iff.rfl

theorem sat_get {σ : Type} (s : σ) (Q : σ → σ → Prop) (E : σ → Prop) :
    (Proc.get s).sat Q E ↔ Q s s := Iff.rfl

theorem sat_modify {σ : Type} (f : σ → σ) (s : σ) (Q : Unit → σ → Prop) (E : σ → Prop) :
    (Proc.modify f s).sat Q E ↔ Q () (f s) := Iff.rfl

theorem sat_zoom {σ τ α : Type} (get : σ → τ) (set : τ → σ → σ) (p : Proc τ α) (s : σ)
    (Q : α → σ → Prop) (E : σ → Prop) :
    (Proc.zoom get set p s).sat Q E ↔
      (p (get s)).sat (fun a t => Q a (set t s)) (fun t => E (set t s)) := by
  unfold Proc.zoom
  cases p (get s) <;> rfl

theorem sat_try {σ : Type} (err : Option Err) (s : σ) (Q : Unit → σ → Prop) (E : σ → Prop) :
    (try_ err s).sat Q E ↔ (err = none → Q () s) ∧ (err ≠ none → E s) := by
  cases err <;> simp [try_, Res.sat, Proc.pure, Proc.raise]

theorem sat_of_forall {σ α : Type} (r : Res σ α) (Q : α → σ → Prop) (E : σ → Prop)
    (hQ : ∀ a s, Q a s) (hE : ∀ s, E s) : r.sat Q E := by
  cases r
  · exact hQ _ _
  · exact hE _

theorem sat_mono {σ α : Type} (r : Res σ α) (Q Q1 : α → σ → Prop) (E E1 : σ → Prop)
    (h : r.sat Q E) (hQ : ∀ a s, Q a s → Q1 a s) (hE : ∀ s, E s → E1 s) : r.sat Q1 E1 := by
  cases r
  · exact hQ _ _ h
  · exact hE _ h

theorem sat_slice {σ : Type} (d : GoSlice) (lo hi : Nat) (s : σ) (Q : GoSlice → σ → Prop)
    (E : σ → Prop) :
    (d.slice lo hi s).sat Q E ↔
      (lo ≤ hi ∧ hi ≤ d.cap → Q ⟨(d.array.take hi).drop lo, d.array.drop hi⟩ s) ∧
      (¬ (lo ≤ hi ∧ hi ≤ d.cap) → E s) := by
  unfold GoSlice.slice
  split <;> simp_all [Res.sat, Proc.pure, Proc.raise]

/-- The operations that only read leave the bucket as it was, whatever
arrives on the connection and whether they return or panic. -/
theorem reads_keep_bucket (key : Key) (b : Bucket) (c : Conn) :
    (Store.GetBytes key ⟨b, c⟩).sat (fun _ s => s.bucket = b) (fun s => s.bucket = b) ∧
    (Store.GetBytesInto key ⟨b, c⟩).sat (fun _ s => s.bucket = b) (fun s => s.bucket = b) ∧
    (Store.GetBytesRange key ⟨b, c⟩).sat (fun _ s => s.bucket = b) (fun s => s.bucket = b) ∧
    (Store.GetBytesRangeInto key ⟨b, c⟩).sat (fun _ s => s.bucket = b) (fun s => s.bucket = b) ∧
    (Store.GetUint key ⟨b, c⟩).sat (fun _ s => s.bucket = b) (fun s => s.bucket = b) := by
  refine ⟨?_, ?_, ?_, ?_, ?_⟩
  · simp only [Store.GetBytes, Proc.bind_eq, sat_bind, sat_get, onConn]
    cases b.bytedata key <;>
      repeat' (first
        | trivial
        | simp only [sat_bind, sat_zoom, sat_try, sat_pure, sat_raise, sat_get, sat_modify, sat_slice,
            check]
        | split
        | refine ⟨fun _ => ?_, fun _ => ?_⟩
        | refine sat_of_forall _ _ _ (fun _ _ => ?_) (fun _ => ?_))
  · simp only [Store.GetBytesInto, Proc.bind_eq, sat_bind, sat_get, onConn, check, sat_zoom, sat_try]
    cases b.bytedata key <;>
      repeat' (first
        | trivial
        | simp only [sat_bind, sat_zoom, sat_try, sat_pure, sat_raise, sat_get, sat_modify, sat_slice,
            check]
        | split
        | refine ⟨fun _ => ?_, fun _ => ?_⟩
        | refine sat_of_forall _ _ _ (fun _ _ => ?_) (fun _ => ?_))
  · simp only [Store.GetBytesRange, Proc.bind_eq, sat_bind, sat_get, onConn, check, sat_zoom, sat_try]
    cases b.bytedata key <;>
      repeat' (first
        | trivial
        | simp only [sat_bind, sat_zoom, sat_try, sat_pure, sat_raise, sat_get, sat_modify, sat_slice,
            check]
        | split
        | refine ⟨fun _ => ?_, fun _ => ?_⟩
        | refine sat_of_forall _ _ _ (fun _ _ => ?_) (fun _ => ?_))
  · simp only [Store.GetBytesRangeInto, Proc.bind_eq, sat_bind, sat_get, onConn, check, sat_zoom,
      sat_try]
    cases b.bytedata key <;>
      repeat' (first
        | trivial
        | simp only [sat_bind, sat_zoom, sat_try, sat_pure, sat_raise, sat_get, sat_modify, sat_slice,
            check]
        | split
        | refine ⟨fun _ => ?_, fun _ => ?_⟩
        | refine sat_of_forall _ _ _ (fun _ _ => ?_) (fun _ => ?_))
  · simp only [Store.GetUint, Proc.bind_eq, sat_bind, sat_get, onConn]
    cases b.uintdata key <;>
      repeat' (first
        | trivial
        | simp only [sat_bind, sat_zoom, sat_try, sat_pure, sat_raise, sat_get, sat_modify, sat_slice,
            check]
        | split
        | refine ⟨fun _ => ?_, fun _ => ?_⟩
        | refine sat_of_forall _ _ _ (fun _ _ => ?_) (fun _ => ?_))

/-! ## Stored values stay shorter than `2^32` -/

theorem Uint32_lt (l : List Byte) : Uint32 l < 2 ^ 32 := by
  unfold Uint32
  split
  · rename_i b0 b1 b2 b3 _
    have h0 := b0.isLt
    have h1 := b1.isLt
    have h2 := b2.isLt
    have h3 := b3.isLt
    omega
  · decide

theorem ReadAtLeast_sat (min : Nat) (s : ConnBuf) :
    (ReadAtLeast min s).sat (fun _ s1 => s1.buf.length = s.buf.length)
      (fun s1 => s1.buf.length = s.buf.length) := by
  unfold ReadAtLeast
  split
  · rfl
  · split
    · rfl
    · have h : (List.take s.buf.length s.conn.inp ++
          List.drop (List.take s.buf.length s.conn.inp).length s.buf).length = s.buf.length := by
        simp
      dsimp only
      split
      · exact h
      · split <;> exact h

theorem readFillBuf_sat (s : ConnBuf) :
    (readFillBuf s).sat (fun _ s1 => s1.buf.length = s.buf.length)
      (fun s1 => s1.buf.length = s.buf.length) := by
  simp only [readFillBuf, Proc.bind_eq, sat_bind, sat_get]
  refine sat_mono _ _ _ _ _ (ReadAtLeast_sat s.buf.length s) (fun a s1 h => ?_) (fun s1 h => h)
  split
  · exact h
  · exact h

theorem readUint32_sat (c : Conn) :
    (readUint32 c).sat (fun a _ => a.1 < 2 ^ 32) (fun _ => True) := by
  simp only [readUint32, Proc.bind_eq, sat_bind]
  refine sat_of_forall _ _ _ (fun a c1 => ?_) (fun _ => trivial)
  split
  · trivial
  · exact Uint32_lt _

theorem readBytes_sat (c : Conn) :
    (readBytes c).sat (fun a _ => a.1.length < 2 ^ 32) (fun _ => True) := by
  simp only [readBytes, Proc.bind_eq, sat_bind]
  refine sat_mono _ _ _ _ _ (readUint32_sat c) (fun a c1 h => ?_) (fun _ _ => trivial)
  split
  · simp [sat_pure]
  · simp only [sat_bind, withBuf]
    have hf := readFillBuf_sat ⟨c1, List.replicate a.1 0⟩
    cases hr : readFillBuf ⟨c1, List.replicate a.1 0⟩ with
    | ok e s1 =>
      rw [hr] at hf
      simp only [Res.sat, List.length_replicate] at hf
      simp only [Res.sat, Proc.pure, hf]
      exact h
    | panic p s1 => trivial

theorem patch_length_le (s : GoSlice) (lo : Nat) (w : List Byte) :
    (s.patch lo w).data.length ≤ s.data.length := by
  simp only [GoSlice.patch, List.length_take]
  omega

theorem bounded_setBytes (b : Bucket) (key : Key) (v : GoSlice) (hb : b.bounded)
    (hv : v.data.length < 2 ^ 32) : (b.setBytes key v).bounded := by
  intro k s hs
  by_cases hk : k = key
  · subst hk
    rw [setBytes_get] at hs
    cases hs
    exact hv
  · simp only [Bucket.setBytes, Function.update_noteq hk] at hs
    exact hb k s hs

theorem bounded_delBytes (b : Bucket) (key : Key) (hb : b.bounded) : (b.delBytes key).bounded := by
  intro k s hs
  by_cases hk : k = key
  · subst hk
    simp [Bucket.delBytes] at hs
  · simp only [Bucket.delBytes, Function.update_noteq hk] at hs
    exact hb k s hs

theorem bounded_empty : Bucket.empty.bounded := by
  intro k s hs
  simp [Bucket.empty] at hs

theorem bounded_setUint (b : Bucket) (key : Key) (v : Nat) (hb : b.bounded) :
    (b.setUint key v).bounded := hb

theorem bounded_delUint (b : Bucket) (key : Key) (hb : b.bounded) : (b.delUint key).bounded := hb

theorem SetBytes_keeps_bounded (key : Key) (b : Bucket) (c : Conn) (hb : b.bounded) :
    (Store.SetBytes key ⟨b, c⟩).sat (fun _ s => s.bucket.bounded) (fun s => s.bucket.bounded) := by
  simp only [Store.SetBytes, Proc.bind_eq, sat_bind, onConn, sat_zoom, check, sat_try, sat_modify]
  refine sat_mono _ _ _ _ _ (readBytes_sat c) (fun a c1 h => ?_) (fun c1 _ => hb)
  refine ⟨fun _ => ?_, fun _ => hb⟩
  exact sat_of_forall _ _ _
    (fun _ _ => ⟨fun _ => bounded_setBytes b key _ hb h, fun _ => bounded_setBytes b key _ hb h⟩)
    (fun _ => bounded_setBytes b key _ hb h)

theorem DelBytes_keeps_bounded (key : Key) (b : Bucket) (c : Conn) (hb : b.bounded) :
    (Store.DelBytes key ⟨b, c⟩).sat (fun _ s => s.bucket.bounded) (fun s => s.bucket.bounded) := by
  simp only [Store.DelBytes, Proc.bind_eq, sat_bind, sat_get, onConn]
  cases b.bytedata key with
  | none =>
    simp only [sat_bind, sat_zoom, sat_try]
    exact sat_of_forall _ _ _ (fun _ _ => ⟨fun _ => hb, fun _ => hb⟩) (fun _ => hb)
  | some d =>
    simp only [sat_bind, sat_zoom, sat_try, sat_modify]
    exact sat_of_forall _ _ _
      (fun _ _ => ⟨fun _ => bounded_delBytes b key hb, fun _ => bounded_delBytes b key hb⟩)
      (fun _ => bounded_delBytes b key hb)

theorem TruncateBytes_keeps_bounded (key : Key) (b : Bucket) (c : Conn) (hb : b.bounded) :
    (Store.TruncateBytes key ⟨b, c⟩).sat (fun _ s => s.bucket.bounded) (fun s => s.bucket.bounded) := by
  simp only [Store.TruncateBytes, Proc.bind_eq, sat_bind, sat_get, onConn, sat_zoom, check, sat_try]
  refine sat_mono _ _ _ _ _ (readUint32_sat c) (fun a c1 h => ?_) (fun c1 _ => hb)
  refine ⟨fun _ => ?_, fun _ => hb⟩
  cases b.bytedata key with
  | none =>
    simp only [sat_bind, sat_zoom, sat_try]
    exact sat_of_forall _ _ _ (fun _ _ => ⟨fun _ => hb, fun _ => hb⟩) (fun _ => hb)
  | some d =>
    simp only [sat_bind, sat_zoom, sat_try]
    refine sat_of_forall _ _ _ (fun _ c2 => ⟨fun _ => ?_, fun _ => hb⟩) (fun _ => hb)
    split
    · simp only [sat_bind, sat_slice, sat_modify]
      refine ⟨fun _ => bounded_setBytes b key _ hb ?_, fun _ => hb⟩
      simp only [List.drop_zero, List.length_take]
      omega
    · exact hb

theorem uint_writes_keep_bounded (key : Key) (b : Bucket) (c : Conn) (hb : b.bounded) :
    (Store.SetUint key ⟨b, c⟩).sat (fun _ s => s.bucket.bounded) (fun s => s.bucket.bounded) ∧
    (Store.SetUintIfMax key ⟨b, c⟩).sat (fun _ s => s.bucket.bounded) (fun s => s.bucket.bounded) ∧
    (Store.DelUint key ⟨b, c⟩).sat (fun _ s => s.bucket.bounded) (fun s => s.bucket.bounded) := by
  refine ⟨?_, ?_, ?_⟩
  · simp only [Store.SetUint, Proc.bind_eq, sat_bind, onConn, sat_zoom, check, sat_try, sat_modify]
    repeat' (first
      | exact hb
      | exact bounded_setUint _ _ _ hb
      | refine ⟨fun _ => ?_, fun _ => ?_⟩
      | refine sat_of_forall _ _ _ (fun _ _ => ?_) (fun _ => ?_))
  · simp only [Store.SetUintIfMax, Proc.bind_eq, sat_bind, sat_get, onConn, sat_zoom, check, sat_try]
    refine sat_of_forall _ _ _ (fun a c1 => ⟨fun _ => ?_, fun _ => hb⟩) (fun _ => hb)
    cases b.uintdata key with
    | none =>
      simp only [sat_bind, sat_zoom, sat_try, sat_modify]
      exact sat_of_forall _ _ _
        (fun _ _ => ⟨fun _ => bounded_setUint _ _ _ hb, fun _ => bounded_setUint _ _ _ hb⟩)
        (fun _ => bounded_setUint _ _ _ hb)
    | some u =>
      dsimp only
      split
      · simp only [sat_bind, sat_modify, sat_zoom, sat_try]
        exact sat_of_forall _ _ _
          (fun _ _ => ⟨fun _ => bounded_setUint _ _ _ hb, fun _ => bounded_setUint _ _ _ hb⟩)
          (fun _ => bounded_setUint _ _ _ hb)
      · simp only [sat_bind, Proc.pure_eq, sat_pure, sat_zoom, sat_try]
        exact sat_of_forall _ _ _ (fun _ _ => ⟨fun _ => hb, fun _ => hb⟩) (fun _ => hb)
  · simp only [Store.DelUint, Proc.bind_eq, sat_bind, sat_get, onConn]
    cases b.uintdata key with
    | none =>
      simp only [sat_bind, sat_zoom, sat_try]
      exact sat_of_forall _ _ _ (fun _ _ => ⟨fun _ => hb, fun _ => hb⟩) (fun _ => hb)
    | some d =>
      simp only [sat_bind, sat_zoom, sat_try, sat_modify]
      exact sat_of_forall _ _ _
        (fun _ _ => ⟨fun _ => bounded_delUint b key hb, fun _ => bounded_delUint b key hb⟩)
        (fun _ => bounded_delUint b key hb)

theorem readFillLocal_sat (buf : GoSlice) (lo hi : Nat) (b : Bucket) (c : Conn) :
    (readFillLocal buf lo hi ⟨b, c⟩).sat
      (fun a s => s.bucket = b ∧ a.2.data.length ≤ buf.data.length) (fun s => s.bucket = b) := by
  simp only [readFillLocal, Proc.bind_eq, sat_bind, sat_slice, onConn, sat_zoom, sat_pure]
  refine ⟨fun _ => ?_, fun _ => ?_⟩
  · refine sat_of_forall _ _ _ (fun _ _ => ?_) (fun _ => ?_) <;> simp [patch_length_le]
  · simp

theorem readFillStored_sat (key : Key) (data : GoSlice) (lo hi : Nat) (b : Bucket) (c : Conn) :
    (readFillStored key data lo hi ⟨b, c⟩).sat
      (fun _ s => s.bucket = b ∨ ∃ w, s.bucket = b.setBytes key (data.patch lo w))
      (fun s => s.bucket = b ∨ ∃ w, s.bucket = b.setBytes key (data.patch lo w)) := by
  simp only [readFillStored, Proc.bind_eq, sat_bind, sat_slice, sat_zoom]
  refine ⟨fun _ => ?_, fun _ => ?_⟩
  · exact sat_of_forall _ _ _ (fun _ t => Or.inr ⟨t.buf, rfl⟩) (fun t => Or.inr ⟨t.buf, rfl⟩)
  · simp

theorem SetBytesRange_keeps_bounded (grow : Nat → Nat → Nat) (key : Key) (b : Bucket) (c : Conn)
    (hb : b.bounded) :
    (Store.SetBytesRange grow key ⟨b, c⟩).sat (fun _ s => s.bucket.bounded)
      (fun s => s.bucket.bounded) := by
  simp only [Store.SetBytesRange, Proc.bind_eq, sat_bind, sat_get, onConn, sat_zoom, check, sat_try]
  refine sat_mono _ _ _ _ _ (readUint32_sat c) (fun a1 c1 h1 => ?_) (fun _ _ => hb)
  refine ⟨fun _ => ?_, fun _ => hb⟩
  refine sat_mono _ _ _ _ _ (readUint32_sat c1) (fun a2 c2 h2 => ?_) (fun _ _ => hb)
  refine ⟨fun _ => ?_, fun _ => hb⟩
  have hadd : add32 a1.1 a2.1 < 2 ^ 32 := Nat.mod_lt _ (by decide)
  cases hcur : b.bytedata key with
  | none =>
    dsimp only
    simp only [sat_bind]
    refine sat_mono _ _ _ _ _ (readFillLocal_sat _ _ _ b c2) (fun a s hs => ?_)
      (fun s hs => by rw [hs]; exact hb)
    obtain ⟨hs, hl⟩ := hs
    have hnew : (s.bucket.setBytes key a.2).bounded := by
      rw [hs]
      refine bounded_setBytes b key _ hb ?_
      simp only [GoSlice.make, List.length_replicate] at hl
      omega
    simp only [sat_try, sat_modify, sat_bind, sat_zoom]
    refine ⟨fun _ => ?_, fun _ => by rw [hs]; exact hb⟩
    exact sat_of_forall _ _ _ (fun _ _ => ⟨fun _ => hnew, fun _ => hnew⟩) (fun _ => hnew)
  | some actualData =>
    have hlen : actualData.data.length < 2 ^ 32 := hb key actualData hcur
    have hus : u32 actualData.len = actualData.data.length := Nat.mod_eq_of_lt hlen
    have hP : ∀ (lo : Nat) (s : BucketConn),
        (s.bucket = b ∨ ∃ w, s.bucket = b.setBytes key (actualData.patch lo w)) →
          s.bucket.bounded ∧ ((s.bucket.bytedata key).getD actualData).data.length ≤
            actualData.data.length := by
      intro lo s hs
      rcases hs with hs | ⟨w, hs⟩
      · rw [hs, hcur]
        exact ⟨hb, le_refl _⟩
      · rw [hs, setBytes_get]
        have := patch_length_le actualData lo w
        exact ⟨bounded_setBytes b key _ hb (by omega), this⟩
    dsimp only
    rw [hus]
    split
    · simp only [sat_bind]
      refine sat_mono _ _ _ _ _ (readFillStored_sat key actualData _ _ b c2) (fun _ s hs => ?_)
        (fun s hs => (hP _ s hs).1)
      have hbd := (hP _ s hs).1
      simp only [sat_try, sat_zoom]
      refine ⟨fun _ => ?_, fun _ => hbd⟩
      exact sat_of_forall _ _ _ (fun _ _ => ⟨fun _ => hbd, fun _ => hbd⟩) (fun _ => hbd)
    · rename_i hnot
      split
      · rename_i hlt
        simp only [sat_bind]
        refine sat_mono _ _ _ _ _ (readFillStored_sat key actualData _ _ b c2) (fun _ s hs => ?_)
          (fun s hs => (hP _ s hs).1)
        obtain ⟨hbd, hle⟩ := hP _ s hs
        simp only [sat_try, sat_get, sat_pure, sat_bind]
        refine ⟨fun _ => ?_, fun _ => hbd⟩
        refine sat_mono _ _ _ _ _ (readFillLocal_sat _ _ _ s.bucket s.conn) (fun a t ht => ?_)
          (fun t ht => by rw [ht]; exact hbd)
        obtain ⟨ht, hl⟩ := ht
        have hnew : (t.bucket.setBytes key
            (GoSlice.append grow ((s.bucket.bytedata key).getD actualData) a.2.data)).bounded := by
          rw [ht]
          refine bounded_setBytes _ key _ hbd ?_
          rw [append_data, List.length_append]
          simp only [GoSlice.make, List.length_replicate] at hl
          unfold add32 sub32 at *
          omega
        simp only [sat_try, sat_modify, sat_bind, sat_zoom]
        refine ⟨fun _ => ?_, fun _ => by rw [ht]; exact hbd⟩
        exact sat_of_forall _ _ _ (fun _ _ => ⟨fun _ => hnew, fun _ => hnew⟩) (fun _ => hnew)
      · rename_i hge
        simp only [sat_pure, sat_bind]
        refine sat_mono _ _ _ _ _ (readFillLocal_sat _ _ _ b c2) (fun a t ht => ?_)
          (fun t ht => by rw [ht]; exact hb)
        obtain ⟨ht, hl⟩ := ht
        have hnew : (t.bucket.setBytes key (GoSlice.append grow actualData a.2.data)).bounded := by
          rw [ht]
          refine bounded_setBytes _ key _ hb ?_
          rw [append_data, List.length_append]
          simp only [GoSlice.make, List.length_replicate] at hl
          unfold add32 sub32 at *
          omega
        simp only [sat_try, sat_modify, sat_bind, sat_zoom]
        refine ⟨fun _ => ?_, fun _ => by rw [ht]; exact hb⟩
        exact sat_of_forall _ _ _ (fun _ _ => ⟨fun _ => hnew, fun _ => hnew⟩) (fun _ => hnew)

/-- The bound on stored values is an invariant: the empty bucket satisfies it
and each of the twelve store operations, run on any connection, leaves a
bucket that satisfies it, whether the operation returns or panics. -/
theorem operations_keep_bounded (grow : Nat → Nat → Nat) (key : Key) (b : Bucket) (c : Conn)
    (hb : b.bounded) :
    Bucket.empty.bounded ∧
    (Store.GetBytes key ⟨b, c⟩).sat (fun _ s => s.bucket.bounded) (fun s => s.bucket.bounded) ∧
    (Store.GetBytesInto key ⟨b, c⟩).sat (fun _ s => s.bucket.bounded) (fun s => s.bucket.bounded) ∧
    (Store.GetBytesRange key ⟨b, c⟩).sat (fun _ s => s.bucket.bounded) (fun s => s.bucket.bounded) ∧
    (Store.GetBytesRangeInto key ⟨b, c⟩).sat (fun _ s => s.bucket.bounded)
      (fun s => s.bucket.bounded) ∧
    (Store.SetBytes key ⟨b, c⟩).sat (fun _ s => s.bucket.bounded) (fun s => s.bucket.bounded) ∧
    (Store.SetBytesRange grow key ⟨b, c⟩).sat (fun _ s => s.bucket.bounded)
      (fun s => s.bucket.bounded) ∧
    (Store.DelBytes key ⟨b, c⟩).sat (fun _ s => s.bucket.bounded) (fun s => s.bucket.bounded) ∧
    (Store.TruncateBytes key ⟨b, c⟩).sat (fun _ s => s.bucket.bounded) (fun s => s.bucket.bounded) ∧
    (Store.SetUint key ⟨b, c⟩).sat (fun _ s => s.bucket.bounded) (fun s => s.bucket.bounded) ∧
    (Store.GetUint key ⟨b, c⟩).sat (fun _ s => s.bucket.bounded) (fun s => s.bucket.bounded) ∧
    (Store.SetUintIfMax key ⟨b, c⟩).sat (fun _ s => s.bucket.bounded) (fun s => s.bucket.bounded) ∧
    (Store.DelUint key ⟨b, c⟩).sat (fun _ s => s.bucket.bounded) (fun s => s.bucket.bounded) := by
  have hr := reads_keep_bucket key b c
  have hu := uint_writes_keep_bounded key b c hb
  have keep : ∀ (r : Res BucketConn Unit),
      r.sat (fun _ s => s.bucket = b) (fun s => s.bucket = b) →
      r.sat (fun _ s => s.bucket.bounded) (fun s => s.bucket.bounded) := fun r h =>
    sat_mono r _ _ _ _ h (fun _ s hs => by rw [hs]; exact hb) (fun s hs => by rw [hs]; exact hb)
  exact ⟨bounded_empty, keep _ hr.1, keep _ hr.2.1, keep _ hr.2.2.1, keep _ hr.2.2.2.1,
    SetBytes_keeps_bounded key b c hb, SetBytesRange_keeps_bounded grow key b c hb,
    DelBytes_keeps_bounded key b c hb, TruncateBytes_keeps_bounded key b c hb, hu.1,
    keep _ hr.2.2.2.2, hu.2.1, hu.2.2⟩

/-! ## C11: deleting -/

theorem delBytes_get (b : Bucket) (key : Key) : (b.delBytes key).bytedata key = none := by
  simp [Bucket.delBytes]

theorem delUint_get (b : Bucket) (key : Key) : (b.delUint key).uintdata key = none := by
  simp [Bucket.delUint]

theorem DelBytes_run (key : Key) (b : Bucket) (s : GoSlice) (rest out : List Byte)
    (hb : b.bytedata key = some s) :
    Store.DelBytes key ⟨b, ⟨rest, out, []⟩⟩ =
      Res.ok () ⟨b.delBytes key, ⟨rest, out ++ [ackReply], []⟩⟩ := by
  simp only [Store.DelBytes, Proc.bind_eq, Proc.bind, onConn_run, try_, Proc.pure, Proc.get, hb,
    Proc.modify, sendMessage_ok]

theorem DelUint_run (key : Key) (b : Bucket) (v : Nat) (rest out : List Byte)
    (hb : b.uintdata key = some v) :
    Store.DelUint key ⟨b, ⟨rest, out, []⟩⟩ =
      Res.ok () ⟨b.delUint key, ⟨rest, out ++ [ackReply], []⟩⟩ := by
  simp only [Store.DelUint, Proc.bind_eq, Proc.bind, onConn_run, try_, Proc.pure, Proc.get, hb,
    Proc.modify, sendMessage_ok]

theorem Client_DelBytes_run (grow : Nat → Nat → Nat) (key : Key) (st : Store) (b : Bucket)
    (s : GoSlice) (hk : key.length < 2 ^ 32) (hb : st.getBucket key = some b)
    (h : b.bytedata key = some s) :
    Client.DelBytes grow key ⟨Conn.idle, st⟩ =
      Res.ok none ⟨Conn.idle, st.withBucket key (b.delBytes key)⟩ := by
  have hx := await_run grow delBytesCmd key (Store.DelBytes key) st b (b.delBytes key) [] [ackReply]
    (by decide) hk (dispatch_cases grow key).2.2.2.2.2.2.1 hb
    (by simpa using DelBytes_run key b s [] [] h)
  simp only [List.append_nil] at hx
  simp [Client.DelBytes, Conn.idle, Proc.bind, onClientConn_run, sendMessage_ok, sendBytes_ok, try_,
    check, hx, readMessage_ok, Proc.pure, ackReply_ne_errNoKeyReply]

theorem Client_DelUint_run (grow : Nat → Nat → Nat) (key : Key) (st : Store) (b : Bucket)
    (v : Nat) (hk : key.length < 2 ^ 32) (hb : st.getBucket key = some b)
    (h : b.uintdata key = some v) :
    Client.DelUint grow key ⟨Conn.idle, st⟩ =
      Res.ok none ⟨Conn.idle, st.withBucket key (b.delUint key)⟩ := by
  have hx := await_run grow delUintCmd key (Store.DelUint key) st b (b.delUint key) [] [ackReply]
    (by decide) hk (dispatch_cases grow key).2.2.2.2.2.2.2.2.2.2.1 hb
    (by simpa using DelUint_run key b v [] [] h)
  simp only [List.append_nil] at hx
  simp [Client.DelUint, Conn.idle, Proc.bind, onClientConn_run, sendMessage_ok, sendBytes_ok, try_,
    check, hx, readMessage_ok, Proc.pure, ackReply_ne_errNoKeyReply]

theorem Client_GetBytes_absent (grow : Nat → Nat → Nat) (key : Key) (st : Store) (b : Bucket)
    (hk : key.length < 2 ^ 32) (hb : st.getBucket key = some b) (h : b.bytedata key = none) :
    Client.GetBytes grow key ⟨Conn.idle, st⟩ =
      Res.ok ([], some Err.ErrKeyNotFound) ⟨Conn.idle, st⟩ := by
  have hx := await_absent grow getBytesCmd key (Store.GetBytes key) st b [] (by decide) hk
    (dispatch_cases grow key).1 hb (by simpa using GetBytes_absent key b [] [] h)
  simp only [List.append_nil] at hx
  simp [Client.GetBytes, Conn.idle, Proc.bind, onClientConn_run, sendMessage_ok, sendBytes_ok, try_,
    check, hx, readMessage_ok, Proc.pure]

theorem Client_DelBytes_absent (grow : Nat → Nat → Nat) (key : Key) (st : Store) (b : Bucket)
    (hk : key.length < 2 ^ 32) (hb : st.getBucket key = some b) (h : b.bytedata key = none) :
    Client.DelBytes grow key ⟨Conn.idle, st⟩ =
      Res.ok (some Err.ErrKeyNotFound) ⟨Conn.idle, st⟩ := by
  have hx := await_absent grow delBytesCmd key (Store.DelBytes key) st b [] (by decide) hk
    (dispatch_cases grow key).2.2.2.2.2.2.1 hb (by simpa using DelBytes_absent key b [] [] h)
  simp only [List.append_nil] at hx
  simp [Client.DelBytes, Conn.idle, Proc.bind, onClientConn_run, sendMessage_ok, sendBytes_ok, try_,
    check, hx, readMessage_ok, Proc.pure]

theorem Client_GetUint_absent (grow : Nat → Nat → Nat) (key : Key) (st : Store) (b : Bucket)
    (hk : key.length < 2 ^ 32) (hb : st.getBucket key = some b) (h : b.uintdata key = none) :
    Client.GetUint grow key ⟨Conn.idle, st⟩ =
      Res.ok (0, some Err.ErrKeyNotFound) ⟨Conn.idle, st⟩ := by
  have hx := await_absent grow getUintCmd key (Store.GetUint key) st b [] (by decide) hk
    (dispatch_cases grow key).2.2.2.2.2.2.2.2.2.1 hb (by simpa using GetUint_absent key b [] [] h)
  simp only [List.append_nil] at hx
  simp [Client.GetUint, Conn.idle, Proc.bind, onClientConn_run, sendMessage_ok, sendBytes_ok, try_,
    check, hx, readMessage_ok, Proc.pure]

theorem Client_DelUint_absent (grow : Nat → Nat → Nat) (key : Key) (st : Store) (b : Bucket)
    (hk : key.length < 2 ^ 32) (hb : st.getBucket key = some b) (h : b.uintdata key = none) :
    Client.DelUint grow key ⟨Conn.idle, st⟩ =
      Res.ok (some Err.ErrKeyNotFound) ⟨Conn.idle, st⟩ := by
  have hx := await_absent grow delUintCmd key (Store.DelUint key) st b [] (by decide) hk
    (dispatch_cases grow key).2.2.2.2.2.2.2.2.2.2.1 hb (by simpa using DelUint_absent key b [] [] h)
  simp only [List.append_nil] at hx
  simp [Client.DelUint, Conn.idle, Proc.bind, onClientConn_run, sendMessage_ok, sendBytes_ok, try_,
    check, hx, readMessage_ok, Proc.pure]

/-- C11. Delete. `DelBytes` on a key present in the byte mapping acknowledges
and removes the entry: an immediately following `GetBytes` of the key replies
error-no-key, and so does a second `DelBytes`. Seen from the client, `DelBytes`
returns a nil error, after which `GetBytes` and a second `DelBytes` return
`ErrKeyNotFound`. `DelUint` and `GetUint` behave the same way on the integer
mapping. -/
theorem C11_delete (grow : Nat → Nat → Nat) (key : Key) (st : Store) (b : Bucket)
    (hk : key.length < 2 ^ 32) (hb : st.getBucket key = some b) :
    (∀ s : GoSlice, b.bytedata key = some s →
      (∀ rest out : List Byte,
        (Store.DelBytes key >>= fun _ => Store.GetBytes key >>= fun _ => Store.DelBytes key)
            ⟨b, ⟨rest, out, []⟩⟩ =
          Res.ok () ⟨b.delBytes key,
            ⟨rest, out ++ [ackReply] ++ [errNoKeyReply] ++ [errNoKeyReply], []⟩⟩) ∧
      (b.delBytes key).bytedata key = none ∧
      Client.DelBytes grow key ⟨Conn.idle, st⟩ =
        Res.ok none ⟨Conn.idle, st.withBucket key (b.delBytes key)⟩ ∧
      Client.GetBytes grow key ⟨Conn.idle, st.withBucket key (b.delBytes key)⟩ =
        Res.ok ([], some Err.ErrKeyNotFound) ⟨Conn.idle, st.withBucket key (b.delBytes key)⟩ ∧
      Client.DelBytes grow key ⟨Conn.idle, st.withBucket key (b.delBytes key)⟩ =
        Res.ok (some Err.ErrKeyNotFound) ⟨Conn.idle, st.withBucket key (b.delBytes key)⟩) ∧
    (∀ v : Nat, b.uintdata key = some v →
      (∀ rest out : List Byte,
        (Store.DelUint key >>= fun _ => Store.GetUint key >>= fun _ => Store.DelUint key)
            ⟨b, ⟨rest, out, []⟩⟩ =
          Res.ok () ⟨b.delUint key,
            ⟨rest, out ++ [ackReply] ++ [errNoKeyReply] ++ [errNoKeyReply], []⟩⟩) ∧
      (b.delUint key).uintdata key = none ∧
      Client.DelUint grow key ⟨Conn.idle, st⟩ =
        Res.ok none ⟨Conn.idle, st.withBucket key (b.delUint key)⟩ ∧
      Client.GetUint grow key ⟨Conn.idle, st.withBucket key (b.delUint key)⟩ =
        Res.ok (0, some Err.ErrKeyNotFound) ⟨Conn.idle, st.withBucket key (b.delUint key)⟩ ∧
      Client.DelUint grow key ⟨Conn.idle, st.withBucket key (b.delUint key)⟩ =
        Res.ok (some Err.ErrKeyNotFound) ⟨Conn.idle, st.withBucket key (b.delUint key)⟩) := by
  constructor
  · intro s hs
    have hnone := delBytes_get b key
    have hb1 := getBucket_withBucket st key (b.delBytes key)
    refine ⟨fun rest out => ?_, hnone, Client_DelBytes_run grow key st b s hk hb hs,
      Client_GetBytes_absent grow key _ _ hk hb1 hnone,
      Client_DelBytes_absent grow key _ _ hk hb1 hnone⟩
    simp only [Proc.bind_eq, Proc.bind, DelBytes_run key b s rest out hs,
      GetBytes_absent key _ rest _ hnone, DelBytes_absent key _ rest _ hnone]
  · intro v hv
    have hnone := delUint_get b key
    have hb1 := getBucket_withBucket st key (b.delUint key)
    refine ⟨fun rest out => ?_, hnone, Client_DelUint_run grow key st b v hk hb hv,
      Client_GetUint_absent grow key _ _ hk hb1 hnone,
      Client_DelUint_absent grow key _ _ hk hb1 hnone⟩
    simp only [Proc.bind_eq, Proc.bind, DelUint_run key b v rest out hv,
      GetUint_absent key _ rest _ hnone, DelUint_absent key _ rest _ hnone]

/-- An instance of C11: deleting the value `1, 2, 3` stored under `f`. -/
theorem C11_delete_witness :
    Client.DelBytes (fun _ n => n) [102]
        ⟨Conn.idle, oneBucketStore.withBucket [102] (Bucket.empty.setBytes [102] ⟨[1, 2, 3], []⟩)⟩ =
      Res.ok none
        ⟨Conn.idle, (oneBucketStore.withBucket [102]
          (Bucket.empty.setBytes [102] ⟨[1, 2, 3], []⟩)).withBucket [102]
          ((Bucket.empty.setBytes [102] ⟨[1, 2, 3], []⟩).delBytes [102])⟩ :=
  ((C11_delete (fun _ n => n) [102]
    (oneBucketStore.withBucket [102] (Bucket.empty.setBytes [102] ⟨[1, 2, 3], []⟩))
    (Bucket.empty.setBytes [102] ⟨[1, 2, 3], []⟩) (by decide) (getBucket_withBucket _ _ _)).1
    ⟨[1, 2, 3], []⟩ (setBytes_get _ _ _)).2.2.1

/-! ## C12: the two mappings are independent -/

theorem SetBytesRange_keeps_uintdata (grow : Nat → Nat → Nat) (key : Key) (b : Bucket) (c : Conn) :
    (Store.SetBytesRange grow key ⟨b, c⟩).sat (fun _ s => s.bucket.uintdata = b.uintdata)
      (fun s => s.bucket.uintdata = b.uintdata) := by
  simp only [Store.SetBytesRange, Proc.bind_eq, sat_bind, sat_get, onConn, sat_zoom, check, sat_try]
  refine sat_of_forall _ _ _ (fun a1 c1 => ⟨fun _ => ?_, fun _ => trivial⟩) (fun _ => trivial)
  refine sat_of_forall _ _ _ (fun a2 c2 => ⟨fun _ => ?_, fun _ => trivial⟩) (fun _ => trivial)
  cases b.bytedata key with
  | none =>
    dsimp only
    simp only [sat_bind]
    refine sat_mono _ _ _ _ _ (readFillLocal_sat _ _ _ b c2) (fun a s hs => ?_)
      (fun s hs => by rw [hs])
    have hs1 := hs.1
    have hnew : (s.bucket.setBytes key a.2).uintdata = b.uintdata := by rw [hs1]; rfl
    simp only [sat_try, sat_modify, sat_bind, sat_zoom]
    refine ⟨fun _ => ?_, fun _ => by rw [hs1]⟩
    exact sat_of_forall _ _ _ (fun _ _ => ⟨fun _ => hnew, fun _ => hnew⟩) (fun _ => hnew)
  | some actualData =>
    have hP : ∀ (lo : Nat) (s : BucketConn),
        (s.bucket = b ∨ ∃ w, s.bucket = b.setBytes key (actualData.patch lo w)) →
          s.bucket.uintdata = b.uintdata := by
      intro lo s hs
      rcases hs with hs | ⟨w, hs⟩ <;> simp [hs, Bucket.setBytes]
    dsimp only
    split
    · simp only [sat_bind]
      refine sat_mono _ _ _ _ _ (readFillStored_sat key actualData _ _ b c2) (fun _ s hs => ?_)
        (fun s hs => hP _ s hs)
      have hbd := hP _ s hs
      simp only [sat_try, sat_zoom]
      refine ⟨fun _ => ?_, fun _ => hbd⟩
      exact sat_of_forall _ _ _ (fun _ _ => ⟨fun _ => hbd, fun _ => hbd⟩) (fun _ => hbd)
    · split
      · simp only [sat_bind]
        refine sat_mono _ _ _ _ _ (readFillStored_sat key actualData _ _ b c2) (fun _ s hs => ?_)
          (fun s hs => hP _ s hs)
        have hbd := hP _ s hs
        simp only [sat_try, sat_get, sat_pure, sat_bind]
        refine ⟨fun _ => ?_, fun _ => hbd⟩
        refine sat_mono _ _ _ _ _ (readFillLocal_sat _ _ _ s.bucket s.conn) (fun a t ht => ?_)
          (fun t ht => by rw [ht]; exact hbd)
        have ht1 := ht.1
        have hnew : (t.bucket.setBytes key
            (GoSlice.append grow ((s.bucket.bytedata key).getD actualData) a.2.data)).uintdata =
              b.uintdata := by
          rw [ht1]
          exact hbd
        simp only [sat_try, sat_modify, sat_bind, sat_zoom]
        refine ⟨fun _ => ?_, fun _ => by rw [ht1]; exact hbd⟩
        exact sat_of_forall _ _ _ (fun _ _ => ⟨fun _ => hnew, fun _ => hnew⟩) (fun _ => hnew)
      · simp only [sat_pure, sat_bind]
        refine sat_mono _ _ _ _ _ (readFillLocal_sat _ _ _ b c2) (fun a t ht => ?_)
          (fun t ht => by rw [ht])
        have ht1 := ht.1
        have hnew : (t.bucket.setBytes key (GoSlice.append grow actualData a.2.data)).uintdata =
            b.uintdata := by
          rw [ht1]
          rfl
        simp only [sat_try, sat_modify, sat_bind, sat_zoom]
        refine ⟨fun _ => ?_, fun _ => by rw [ht1]⟩
        exact sat_of_forall _ _ _ (fun _ _ => ⟨fun _ => hnew, fun _ => hnew⟩) (fun _ => hnew)

theorem byte_writes_keep_uintdata (key : Key) (b : Bucket) (c : Conn) :
    (Store.SetBytes key ⟨b, c⟩).sat (fun _ s => s.bucket.uintdata = b.uintdata)
      (fun s => s.bucket.uintdata = b.uintdata) ∧
    (Store.DelBytes key ⟨b, c⟩).sat (fun _ s => s.bucket.uintdata = b.uintdata)
      (fun s => s.bucket.uintdata = b.uintdata) ∧
    (Store.TruncateBytes key ⟨b, c⟩).sat (fun _ s => s.bucket.uintdata = b.uintdata)
      (fun s => s.bucket.uintdata = b.uintdata) := by
  refine ⟨?_, ?_, ?_⟩
  · simp only [Store.SetBytes, Proc.bind_eq, sat_bind, onConn, sat_zoom, check, sat_try, sat_modify]
    repeat' (first
      | trivial
      | simp only [sat_bind, sat_zoom, sat_try, sat_pure, sat_raise, sat_get, sat_modify, sat_slice,
          check]
      | split
      | refine ⟨fun _ => ?_, fun _ => ?_⟩
      | refine sat_of_forall _ _ _ (fun _ _ => ?_) (fun _ => ?_))
  · simp only [Store.DelBytes, Proc.bind_eq, sat_bind, sat_get, onConn]
    cases b.bytedata key <;>
    repeat' (first
      | trivial
      | simp only [sat_bind, sat_zoom, sat_try, sat_pure, sat_raise, sat_get, sat_modify, sat_slice,
          check]
      | split
      | refine ⟨fun _ => ?_, fun _ => ?_⟩
      | refine sat_of_forall _ _ _ (fun _ _ => ?_) (fun _ => ?_))
  · simp only [Store.TruncateBytes, Proc.bind_eq, sat_bind, sat_get, onConn, sat_zoom, check, sat_try]
    refine sat_of_forall _ _ _ (fun a c1 => ⟨fun _ => ?_, fun _ => trivial⟩) (fun _ => trivial)
    cases b.bytedata key <;>
    repeat' (first
      | trivial
      | simp only [sat_bind, sat_zoom, sat_try, sat_pure, sat_raise, sat_get, sat_modify, sat_slice,
          check]
      | split
      | refine ⟨fun _ => ?_, fun _ => ?_⟩
      | refine sat_of_forall _ _ _ (fun _ _ => ?_) (fun _ => ?_))

theorem uint_writes_keep_bytedata (key : Key) (b : Bucket) (c : Conn) :
    (Store.SetUint key ⟨b, c⟩).sat (fun _ s => s.bucket.bytedata = b.bytedata)
      (fun s => s.bucket.bytedata = b.bytedata) ∧
    (Store.SetUintIfMax key ⟨b, c⟩).sat (fun _ s => s.bucket.bytedata = b.bytedata)
      (fun s => s.bucket.bytedata = b.bytedata) ∧
    (Store.DelUint key ⟨b, c⟩).sat (fun _ s => s.bucket.bytedata = b.bytedata)
      (fun s => s.bucket.bytedata = b.bytedata) := by
  refine ⟨?_, ?_, ?_⟩
  · simp only [Store.SetUint, Proc.bind_eq, sat_bind, onConn, sat_zoom, check, sat_try, sat_modify]
    repeat' (first
      | trivial
      | simp only [sat_bind, sat_zoom, sat_try, sat_pure, sat_raise, sat_get, sat_modify, sat_slice,
          check]
      | split
      | refine ⟨fun _ => ?_, fun _ => ?_⟩
      | refine sat_of_forall _ _ _ (fun _ _ => ?_) (fun _ => ?_))
  · simp only [Store.SetUintIfMax, Proc.bind_eq, sat_bind, sat_get, onConn, sat_zoom, check, sat_try]
    refine sat_of_forall _ _ _ (fun a c1 => ⟨fun _ => ?_, fun _ => trivial⟩) (fun _ => trivial)
    cases b.uintdata key with
    | none =>
      repeat' (first
      | trivial
      | simp only [sat_bind, sat_zoom, sat_try, sat_pure, sat_raise, sat_get, sat_modify, sat_slice,
          check]
      | split
      | refine ⟨fun _ => ?_, fun _ => ?_⟩
      | refine sat_of_forall _ _ _ (fun _ _ => ?_) (fun _ => ?_))
    | some u =>
      dsimp only
      split
      · repeat' (first
          | trivial
          | simp only [sat_bind, sat_zoom, sat_try, sat_pure, sat_raise, sat_get, sat_modify,
              sat_slice, check]
          | refine ⟨fun _ => ?_, fun _ => ?_⟩
          | refine sat_of_forall _ _ _ (fun _ _ => ?_) (fun _ => ?_))
      · simp only [sat_bind, Proc.pure_eq, sat_pure, sat_zoom, sat_try]
        exact sat_of_forall _ _ _ (fun _ _ => ⟨fun _ => trivial, fun _ => trivial⟩) (fun _ => trivial)
  · simp only [Store.DelUint, Proc.bind_eq, sat_bind, sat_get, onConn]
    cases b.uintdata key <;>
    repeat' (first
      | trivial
      | simp only [sat_bind, sat_zoom, sat_try, sat_pure, sat_raise, sat_get, sat_modify, sat_slice,
          check]
      | split
      | refine ⟨fun _ => ?_, fun _ => ?_⟩
      | refine sat_of_forall _ _ _ (fun _ _ => ?_) (fun _ => ?_))

/-- C12. The byte mapping and the integer mapping of a bucket are independent.
Each of the eight byte-value operations (set, set-range, delete, truncate and
the four gets), run on any bucket and any connection, leaves the integer
mapping as it was, whether the operation returns or panics; each of the four
integer operations (set-uint, set-uint-if-max, delete-uint, get-uint) leaves
the byte mapping as it was. So one key can hold a byte value and an integer at
the same time: after `SetBytes` and `SetUint` on the same key, `GetBytes` and
`GetUint` of that key reply with the byte value and with the integer. -/
theorem C12_mappings_independent (grow : Nat → Nat → Nat) (key : Key) (b : Bucket) (c : Conn) :
    ((Store.SetBytes key ⟨b, c⟩).sat (fun _ s => s.bucket.uintdata = b.uintdata)
        (fun s => s.bucket.uintdata = b.uintdata) ∧
      (Store.SetBytesRange grow key ⟨b, c⟩).sat (fun _ s => s.bucket.uintdata = b.uintdata)
        (fun s => s.bucket.uintdata = b.uintdata) ∧
      (Store.DelBytes key ⟨b, c⟩).sat (fun _ s => s.bucket.uintdata = b.uintdata)
        (fun s => s.bucket.uintdata = b.uintdata) ∧
      (Store.TruncateBytes key ⟨b, c⟩).sat (fun _ s => s.bucket.uintdata = b.uintdata)
        (fun s => s.bucket.uintdata = b.uintdata) ∧
      (Store.GetBytes key ⟨b, c⟩).sat (fun _ s => s.bucket.uintdata = b.uintdata)
        (fun s => s.bucket.uintdata = b.uintdata) ∧
      (Store.GetBytesInto key ⟨b, c⟩).sat (fun _ s => s.bucket.uintdata = b.uintdata)
        (fun s => s.bucket.uintdata = b.uintdata) ∧
      (Store.GetBytesRange key ⟨b, c⟩).sat (fun _ s => s.bucket.uintdata = b.uintdata)
        (fun s => s.bucket.uintdata = b.uintdata) ∧
      (Store.GetBytesRangeInto key ⟨b, c⟩).sat (fun _ s => s.bucket.uintdata = b.uintdata)
        (fun s => s.bucket.uintdata = b.uintdata)) ∧
    ((Store.SetUint key ⟨b, c⟩).sat (fun _ s => s.bucket.bytedata = b.bytedata)
        (fun s => s.bucket.bytedata = b.bytedata) ∧
      (Store.SetUintIfMax key ⟨b, c⟩).sat (fun _ s => s.bucket.bytedata = b.bytedata)
        (fun s => s.bucket.bytedata = b.bytedata) ∧
      (Store.DelUint key ⟨b, c⟩).sat (fun _ s => s.bucket.bytedata = b.bytedata)
        (fun s => s.bucket.bytedata = b.bytedata) ∧
      (Store.GetUint key ⟨b, c⟩).sat (fun _ s => s.bucket.bytedata = b.bytedata)
        (fun s => s.bucket.bytedata = b.bytedata)) ∧
    (∀ (d rest out : List Byte) (v : Nat), d.length < 2 ^ 32 → v < 2 ^ 32 →
      (Store.SetBytes key >>= fun _ => Store.SetUint key >>= fun _ =>
          Store.GetBytes key >>= fun _ => Store.GetUint key)
          ⟨b, ⟨lenPrefixed d ++ (PutUint32 v ++ rest), out, []⟩⟩ =
        Res.ok () ⟨(b.setBytes key (GoSlice.ofBytes d)).setUint key v,
          ⟨rest, out ++ [ackReply] ++ [ackReply] ++ ([ackReply] ++ lenPrefixed d) ++
            ([ackReply] ++ PutUint32 v), []⟩⟩) := by
  have hr := reads_keep_bucket key b c
  have hw := byte_writes_keep_uintdata key b c
  have hu := uint_writes_keep_bytedata key b c
  have keepU : ∀ (r : Res BucketConn Unit),
      r.sat (fun _ s => s.bucket = b) (fun s => s.bucket = b) →
      r.sat (fun _ s => s.bucket.uintdata = b.uintdata)
        (fun s => s.bucket.uintdata = b.uintdata) := fun r h =>
    sat_mono r _ _ _ _ h (fun _ s hs => by rw [hs]) (fun s hs => by rw [hs])
  have keepB : ∀ (r : Res BucketConn Unit),
      r.sat (fun _ s => s.bucket = b) (fun s => s.bucket = b) →
      r.sat (fun _ s => s.bucket.bytedata = b.bytedata)
        (fun s => s.bucket.bytedata = b.bytedata) := fun r h =>
    sat_mono r _ _ _ _ h (fun _ s hs => by rw [hs]) (fun s hs => by rw [hs])
  refine ⟨⟨hw.1, SetBytesRange_keeps_uintdata grow key b c, hw.2.1, hw.2.2, keepU _ hr.1,
    keepU _ hr.2.1, keepU _ hr.2.2.1, keepU _ hr.2.2.2.1⟩,
    ⟨hu.1, hu.2.1, hu.2.2, keepB _ hr.2.2.2.2⟩, ?_⟩
  intro d rest out v hd hv
  have hB : ((b.setBytes key (GoSlice.ofBytes d)).setUint key v).bytedata key =
      some (GoSlice.ofBytes d) := setBytes_get b key _
  have hU := setUint_get (b.setBytes key (GoSlice.ofBytes d)) key v
  have hdat : (GoSlice.ofBytes d).data = d := rfl
  simp only [Proc.bind_eq, Proc.bind, SetBytes_run key b d _ out hd,
    SetUint_run key _ v rest _ hv, GetBytes_run key _ _ rest _ hB, GetUint_run key _ v rest _ hU,
    hdat]

/-- An instance of C12: the key `f` of an empty bucket is given the bytes
`1, 2` and the integer `7`, and both are read back. -/
theorem C12_mappings_independent_witness :
    (Store.SetBytes [102] >>= fun _ => Store.SetUint [102] >>= fun _ =>
        Store.GetBytes [102] >>= fun _ => Store.GetUint [102])
        ⟨Bucket.empty, ⟨lenPrefixed [1, 2] ++ (PutUint32 7 ++ []), [], []⟩⟩ =
      Res.ok () ⟨(Bucket.empty.setBytes [102] (GoSlice.ofBytes [1, 2])).setUint [102] 7,
        ⟨[], [] ++ [ackReply] ++ [ackReply] ++ ([ackReply] ++ lenPrefixed [1, 2]) ++
          ([ackReply] ++ PutUint32 7), []⟩⟩ :=
  (C12_mappings_independent (fun _ n => n) [102] Bucket.empty ⟨[], [], []⟩).2.2
    [1, 2] [] [] 7 (by decide) (by decide)

/-! ## C13: request framing -/

/-- A turn of the handler on a request whose store operation returns: the
turn ends with what the operation left of the input. -/
theorem turn_ok (grow : Nat → Nat → Nat) (cmd : Message) (key : Key) (op : Proc BucketConn Unit)
    (st : Store) (b b1 : Bucket) (fields out : List Byte) (c1 : Conn)
    (hc : cmd ≠ stopCmd) (hk : key.length < 2 ^ 32)
    (hd : Store.handleRequest.dispatch grow cmd key = onBucket key op)
    (hb : st.getBucket key = some b)
    (hop : op ⟨b, ⟨fields, out, []⟩⟩ = Res.ok () ⟨b1, c1⟩) :
    Store.handleRequest.turn grow ⟨st, ⟨cmd :: (lenPrefixed key ++ fields), out, []⟩⟩ =
      Res.ok true ⟨st.withBucket key b1, c1⟩ := by
  simp [turn_run grow cmd key st fields out [] hc hk, hd, onBucket_run key op st _ b hb, hop]

/-- A turn of the handler on a request whose store operation panics: the turn
panics with the input as the operation left it. -/
theorem turn_panic (grow : Nat → Nat → Nat) (cmd : Message) (key : Key) (op : Proc BucketConn Unit)
    (st : Store) (b b1 : Bucket) (fields out : List Byte) (c1 : Conn) (e : Panic)
    (hc : cmd ≠ stopCmd) (hk : key.length < 2 ^ 32)
    (hd : Store.handleRequest.dispatch grow cmd key = onBucket key op)
    (hb : st.getBucket key = some b)
    (hop : op ⟨b, ⟨fields, out, []⟩⟩ = Res.panic e ⟨b1, c1⟩) :
    Store.handleRequest.turn grow ⟨st, ⟨cmd :: (lenPrefixed key ++ fields), out, []⟩⟩ =
      Res.panic e ⟨st.withBucket key b1, c1⟩ := by
  simp [turn_run grow cmd key st fields out [] hc hk, hd, onBucket_run key op st _ b hb, hop]

theorem readMessage_eof (out : List Byte) (w : List Bool) :
    readMessage ⟨[], out, w⟩ = Res.ok (0, some Err.EOF) ⟨[], out, w⟩ := by
  simp [readMessage, Proc.bind, withBuf, ReadAtLeast, Proc.pure]

/-- C13 (the code at the failing input). The client call
`SetBytesRange("f", 4294967295, "A")` writes the command byte, the key, the
start and the one-byte blob. The handler of a store that does not hold the key
decodes the command, the key, the start and the length of the blob, and panics
before reading the blob: the turn ends with the byte `A` of the request, and
whatever request follows it, still unread on the connection. The client call
finds the connection closed without a reply. -/
theorem C13_set_range_request_left_unread :
    (∀ next : List Byte,
      Store.handleRequest.turn (fun _ n => n)
          ⟨oneBucketStore,
            ⟨setBytesRangeCmd :: (lenPrefixed [102] ++
              (PutUint32 4294967295 ++ (lenPrefixed [65] ++ next))), [], []⟩⟩ =
        Res.panic Panic.sliceBounds ⟨oneBucketStore, ⟨[65] ++ next, [], []⟩⟩) ∧
    Client.SetBytesRange (fun _ n => n) [102] 4294967295 [65] ⟨Conn.idle, oneBucketStore⟩ =
      Res.panic (Panic.err Err.EOF) ⟨⟨[], [65], []⟩, oneBucketStore⟩ := by
  have hb := oneBucketStore_getBucket [102]
  have hturn : ∀ next : List Byte,
      Store.handleRequest.turn (fun _ n => n)
          ⟨oneBucketStore,
            ⟨setBytesRangeCmd :: (lenPrefixed [102] ++
              (PutUint32 4294967295 ++ (lenPrefixed [65] ++ next))), [], []⟩⟩ =
        Res.panic Panic.sliceBounds ⟨oneBucketStore, ⟨[65] ++ next, [], []⟩⟩ := by
    intro next
    have h := turn_panic (fun _ n => n) setBytesRangeCmd [102]
      (Store.SetBytesRange (fun _ n => n) [102]) oneBucketStore Bucket.empty Bucket.empty
      (PutUint32 4294967295 ++ (lenPrefixed [65] ++ next)) [] ⟨[65] ++ next, [], []⟩
      Panic.sliceBounds (by decide) (by decide) (dispatch_cases _ _).2.2.2.2.2.1 hb
      (SetBytesRange_absent_overflow (fun _ n => n) [102] Bucket.empty 4294967295 [65] next [] rfl
        (by decide) (by decide) (by decide))
    rw [h, withBucket_self _ _ _ hb]
  refine ⟨hturn, ?_⟩
  have h1 := hturn []
  simp only [List.append_nil] at h1
  simp [Client.SetBytesRange, Conn.idle, Proc.bind, onClientConn_run, sendMessage_ok, sendBytes_ok,
    sendUint32_ok, try_, check, Client.await, h1, readMessage_eof, Proc.pure, Proc.raise]

/-! ## C14: reply framing -/

/-- When the end of the range, once incremented and clamped to the length of
the value, lies before the start, `GetBytesRange` on a present key has written
the acknowledgement and nothing else when it panics on the slice. -/
theorem GetBytesRange_ack_then_panic (key : Key) (b : Bucket) (s : GoSlice) (start end_ : Nat)
    (rest out : List Byte) (hb : b.bytedata key = some s) (hs : s.data.length < 2 ^ 32)
    (hst : start < 2 ^ 32) (hen : end_ < 2 ^ 32) (h1 : start ≤ s.data.length)
    (h2 : add32 end_ 1 < start) :
    Store.GetBytesRange key ⟨b, ⟨PutUint32 start ++ (PutUint32 end_ ++ rest), out, []⟩⟩ =
      Res.panic Panic.sliceBounds ⟨b, ⟨rest, out ++ [ackReply], []⟩⟩ := by
  have hus : u32 s.len = s.data.length := Nat.mod_eq_of_lt hs
  have hgt : ¬ (start > s.data.length) := by omega
  have hcl : ¬ (add32 end_ 1 > s.data.length) := by omega
  have hsl := slice_panic (σ := BucketConn) s start (add32 end_ 1)
    ⟨b, ⟨rest, out ++ [ackReply], []⟩⟩ (by omega)
  simp only [Store.GetBytesRange, Proc.bind_eq, Proc.bind, onConn_run, readUint32_ok start hst,
    readUint32_ok end_ hen, check, try_, Proc.pure, Proc.get, hb, sendMessage_ok, hus, hgt, hcl,
    if_false, hsl]

theorem readUint32_eof (out : List Byte) (w : List Bool) :
    readUint32 ⟨[], out, w⟩ = Res.ok (0, some Err.EOF) ⟨[], out, w⟩ := by
  simp [readUint32, Proc.bind, withBuf, ReadAtLeast, Proc.pure, Uint32]

/-- C14 (the code at the failing input). With the key `f` holding the three
bytes `1, 2, 3`, `GetBytesRange` with start `2` and end `0` writes the
acknowledgement and then panics on the slice `data[2:1]`: the status byte ack
is all it writes, no length-prefixed blob follows. The client call
`GetBytesRange("f", 2, 0)` reads the acknowledgement and finds the connection
closed where the blob should start. -/
theorem C14_range_reply_has_no_blob :
    Store.GetBytesRange [102]
        ⟨Bucket.empty.setBytes [102] ⟨[1, 2, 3], []⟩,
          ⟨PutUint32 2 ++ (PutUint32 0 ++ []), [], []⟩⟩ =
      Res.panic Panic.sliceBounds
        ⟨Bucket.empty.setBytes [102] ⟨[1, 2, 3], []⟩, ⟨[], [ackReply], []⟩⟩ ∧
    Client.GetBytesRange (fun _ n => n) [102] 2 0
        ⟨Conn.idle, oneBucketStore.withBucket [102] (Bucket.empty.setBytes [102] ⟨[1, 2, 3], []⟩)⟩ =
      Res.panic (Panic.err Err.EOF)
        ⟨Conn.idle, oneBucketStore.withBucket [102] (Bucket.empty.setBytes [102] ⟨[1, 2, 3], []⟩)⟩ := by
  have hop := GetBytesRange_ack_then_panic [102] (Bucket.empty.setBytes [102] ⟨[1, 2, 3], []⟩)
    ⟨[1, 2, 3], []⟩ 2 0 [] [] (setBytes_get _ _ _) (by decide) (by decide) (by decide) (by decide)
    (by decide)
  refine ⟨hop, ?_⟩
  have hb := getBucket_withBucket oneBucketStore [102] (Bucket.empty.setBytes [102] ⟨[1, 2, 3], []⟩)
  have h := turn_panic (fun _ n => n) getBytesRangeCmd [102] (Store.GetBytesRange [102])
    _ _ _ (PutUint32 2 ++ (PutUint32 0 ++ [])) [] _ Panic.sliceBounds (by decide) (by decide)
    (dispatch_cases _ _).2.2.1 hb hop
  rw [withBucket_self _ _ _ hb] at h
  simp only [List.append_nil, List.nil_append] at h
  simp [Client.GetBytesRange, Conn.idle, Proc.bind, onClientConn_run, sendMessage_ok, sendBytes_ok,
    sendUint32_ok, try_, check, Client.await, h, readMessage_ok, readBytes, readUint32_eof,
    Proc.pure, Proc.raise, ackReply_ne_errNoKeyReply]

/-! ## C15: the defaults of the server options -/

/-- C15. `ServerOptions.normalize`: an empty bind address becomes `127.0.0.1`
and the bind address `*` becomes the empty host, every other bind address is
kept; port `0` becomes `8001` and port `-1` becomes `0`, every other port is
kept; a bucket count of `0` becomes `20`, every other count is kept. -/
theorem C15_normalize (o : ServerOptions) :
    o.normalize.Bind =
      (if o.Bind = "" then "127.0.0.1" else if o.Bind = "*" then "" else o.Bind) ∧
    o.normalize.Port = (if o.Port = 0 then 8001 else if o.Port = -1 then 0 else o.Port) ∧
    o.normalize.Buckets = (if o.Buckets = 0 then 20 else o.Buckets) := by
  have h1 : ("127.0.0.1" : String) ≠ "*" := by decide
  have h2 : ("*" : String) ≠ "" := by decide
  obtain ⟨b, p, n⟩ := o
  simp only [ServerOptions.normalize]
  refine ⟨?_, ?_, ?_⟩ <;> split_ifs <;> simp_all

/-! ## C16: the buckets of a new store -/

theorem digitVal_digitChar (k : Nat) (h : k < 10) : digitVal (Nat.digitChar k) = k := by
  interval_cases k <;> rfl

theorem decimalVal_snoc (l : List Char) (c : Char) :
    decimalVal (l ++ [c]) = decimalVal l * 10 + digitVal c := by
  simp [decimalVal, List.foldl_append]

theorem toDigitsCore_decimal (fuel : Nat) :
    ∀ (n : Nat) (ds : List Char), n < fuel →
      ∃ pre, Nat.toDigitsCore 10 fuel n ds = pre ++ ds ∧ decimalVal pre = n := by
  induction fuel with
  | zero => intro n ds h; omega
  | succ fuel ih =>
    intro n ds h
    unfold Nat.toDigitsCore
    dsimp only
    split
    · rename_i h0
      refine ⟨[Nat.digitChar (n % 10)], rfl, ?_⟩
      have := decimalVal_snoc [] (Nat.digitChar (n % 10))
      simp only [List.nil_append] at this
      rw [this, digitVal_digitChar _ (Nat.mod_lt _ (by decide))]
      simp only [decimalVal, List.foldl_nil]
      omega
    · rename_i h0
      obtain ⟨pre, hp, hv⟩ := ih (n / 10) (Nat.digitChar (n % 10) :: ds) (by omega)
      refine ⟨pre ++ [Nat.digitChar (n % 10)], by rw [hp]; simp, ?_⟩
      rw [decimalVal_snoc, hv, digitVal_digitChar _ (Nat.mod_lt _ (by decide))]
      omega

theorem decimalVal_toString (n : Nat) : decimalVal (toString n).data = n := by
  obtain ⟨pre, hp, hv⟩ := toDigitsCore_decimal (n + 1) n [] (by omega)
  have : (toString n).data = pre := by
    show (Nat.repr n).data = pre
    simp only [Nat.repr, Nat.toDigits, hp, List.append_nil, List.asString]
  rw [this, hv]

theorem toString_injective : Function.Injective (fun n : Nat => toString n) := by
  intro a b h
  have := congrArg (fun s : String => decimalVal s.data) h
  simpa [decimalVal_toString] using this

theorem fill_hash (route : List String → Key → String) (k : Nat) :
    (NewStore.fill route k).2.names = (List.range k).map (fun i => toString i) ∧
    (NewStore.fill route k).2.route = route := by
  induction k with
  | zero => exact ⟨rfl, rfl⟩
  | succ k ih =>
    obtain ⟨ih1, ih2⟩ := ih
    rcases h : NewStore.fill route k with ⟨bk, hs⟩
    rw [h] at ih1 ih2
    simp only [NewStore.fill, h, ConsistentHash.Add, List.range_succ, List.map_append, List.map_cons,
      List.map_nil]
    exact ⟨by rw [← ih1], ih2⟩

theorem fill_buckets (route : List String → Key → String) (k : Nat) (name : String) :
    (NewStore.fill route k).1 name =
      if name ∈ (List.range k).map (fun i => toString i) then some Bucket.empty else none := by
  induction k with
  | zero => rfl
  | succ k ih =>
    rcases h : NewStore.fill route k with ⟨bk, hs⟩
    rw [h] at ih
    simp only [NewStore.fill, h, List.range_succ, List.map_append, List.map_cons, List.map_nil,
      List.mem_append, List.mem_singleton]
    by_cases hn : name = toString k
    · subst hn
      simp
    · simp only [Function.update_noteq hn, hn, or_false]
      exact ih

/-- C16. `NewStore(n)` for `n ≥ 0` (below the largest `int`, so that the loop
counter does not wrap): the names added to the routing table are the decimal
strings of `0, ..., n`, in this order; they are pairwise different, so there
are `n + 1` of them; the bucket map holds an empty bucket under each of these
names and nothing under any other name. Consequently, whenever the routing
primitive answers with one of the added names, `getBucket` returns a bucket
(not nil), and a key keeps resolving to the same bucket name, under which the
bucket is found as the last operation left it. -/
theorem C16_new_store (route : List String → Key → String) (n : Int) (hn : 0 ≤ n)
    (_hmax : n < 2 ^ 63 - 1) :
    (NewStore route n).hash.names = (List.range (n.toNat + 1)).map (fun i => toString i) ∧
    (NewStore route n).hash.names.Nodup ∧
    (NewStore route n).hash.names.length = n.toNat + 1 ∧
    (∀ name : String, (NewStore route n).buckets name =
      if name ∈ (NewStore route n).hash.names then some Bucket.empty else none) ∧
    (∀ i : Nat, i ≤ n.toNat → (NewStore route n).buckets (toString i) = some Bucket.empty) ∧
    (∀ key : Key, route (NewStore route n).hash.names key ∈ (NewStore route n).hash.names →
      (NewStore route n).getBucket key = some Bucket.empty ∧
      ∀ (other : Key) (b : Bucket),
        ((NewStore route n).withBucket other b).hash.Get key = (NewStore route n).hash.Get key ∧
        ((NewStore route n).withBucket key b).getBucket key = some b) := by
  have hk : (n + 1).toNat = n.toNat + 1 := by omega
  have hnames : (NewStore route n).hash.names =
      (List.range (n.toNat + 1)).map (fun i => toString i) := by
    simp only [NewStore, hk]
    exact (fill_hash route (n.toNat + 1)).1
  have hroute : (NewStore route n).hash.route = route := by
    simp only [NewStore, hk]
    exact (fill_hash route (n.toNat + 1)).2
  have hbk : ∀ name : String, (NewStore route n).buckets name =
      if name ∈ (NewStore route n).hash.names then some Bucket.empty else none := by
    intro name
    rw [hnames]
    simp only [NewStore, hk]
    exact fill_buckets route (n.toNat + 1) name
  refine ⟨hnames, ?_, ?_, hbk, ?_, ?_⟩
  · rw [hnames]
    exact List.Nodup.map toString_injective (List.nodup_range _)
  · rw [hnames, List.length_map, List.length_range]
  · intro i hi
    rw [hbk, hnames, if_pos]
    exact List.mem_map.mpr ⟨i, List.mem_range.mpr (by omega), rfl⟩
  · intro key hkey
    refine ⟨?_, fun other b => ⟨rfl, getBucket_withBucket _ _ _⟩⟩
    simp only [Store.getBucket, ConsistentHash.Get, hroute]
    rw [hbk, if_pos hkey]

/-- An instance of C16: `NewStore(2)` adds three names. -/
theorem C16_new_store_witness :
    (NewStore (fun _ _ => "0") 2).hash.names.length = (2 : Int).toNat + 1 :=
  (C16_new_store (fun _ _ => "0") 2 (by decide) (by decide)).2.2.1

/-! ## C17, C18: the accept loop and shutdown -/

theorem NewStore_stopChan (route : List String → Key → String) (n : Int) :
    (NewStore route n).stopChan = [] := by
  unfold NewStore
  rfl

theorem NewServer_process (route : List String → Key → String) (opt : ServerOptions) :
    (NewServer route opt).process.server.listener = ⟨true, 0⟩ ∧
    (NewServer route opt).process.server.store.stopChan = [] ∧
    (NewServer route opt).process.wg = 0 ∧
    (NewServer route opt).process.accepted = 0 ∧
    (NewServer route opt).process.pc = StartPc.accept :=
  ⟨rfl, NewStore_stopChan _ _, rfl, rfl, rfl⟩

/-- A turn of the handler on the stop command: the acknowledgement is written,
`true` is sent on the stop channel and the loop ends. -/
theorem turn_stop (grow : Nat → Nat → Nat) (st : Store) (rest out : List Byte) :
    Store.handleRequest.turn grow ⟨st, ⟨stopCmd :: rest, out, []⟩⟩ =
      Res.ok false ⟨{ st with stopChan := st.stopChan ++ [true] }, ⟨rest, out ++ [ackReply], []⟩⟩ := by
  simp [Store.handleRequest.turn, Proc.bind, onWorkerConn_run, readMessage_ok, check, try_,
    Proc.pure, sendMessage_ok, Proc.modify]

/-- A turn of the handler on a connection that the client has closed: the loop
ends and nothing changes. -/
theorem turn_eof (grow : Nat → Nat → Nat) (st : Store) (out : List Byte) :
    Store.handleRequest.turn grow ⟨st, ⟨[], out, []⟩⟩ = Res.ok false ⟨st, ⟨[], out, []⟩⟩ := by
  simp [Store.handleRequest.turn, Proc.bind, onWorkerConn_run, readMessage_eof, Proc.pure]

theorem run_cons (grow : Nat → Nat → Nat) (e : Event) (es : List Event) (p : Process) :
    p.run grow (e :: es) = (p.apply grow e).run grow es := rfl

theorem run_nil (grow : Nat → Nat → Nat) (p : Process) : p.run grow [] = p := rfl

/-- Neither a step of `Start` nor a turn of a worker closes the listener. -/
theorem listener_kept (grow : Nat → Nat → Nat) (p q : Process) :
    (Server.Start.step p = some q → q.server.listener.isOpen = p.server.listener.isOpen) ∧
    (∀ inp : List Byte, p.workerTurn grow inp = some q →
      q.server.listener = p.server.listener) := by
  constructor
  · intro h
    unfold Server.Start.step at h
    split at h
    · split at h
      · split at h
        · cases h
        · cases h; rfl
      · split at h <;> (cases h; rfl)
    · split at h
      · cases h; rfl
      · cases h
    · split at h
      · cases h; rfl
      · cases h
    · cases h
    · cases h
  · intro inp h
    unfold Process.workerTurn at h
    split at h
    · cases h
    · split at h
      · split at h
        · cases h
        · cases h; rfl
      · cases h; rfl

/-- While nothing is sent on the stop channel the listener stays open and
`Start` is either at its first `Accept`, or past exactly one `Accept`. -/
theorem quiet_apply (grow : Nat → Nat → Nat) (e : Event) (p : Process)
    (hopen : p.server.listener.isOpen = true)
    (hpc : (p.pc = StartPc.accept ∧ p.accepted = 0) ∨ (p.pc = StartPc.recvStop ∧ p.accepted = 1) ∨
      (p.pc = StartPc.panicked ∧ p.accepted ≤ 1))
    (h0 : p.server.store.stopChan = [])
    (h1 : (p.apply grow e).server.store.stopChan = []) :
    (p.apply grow e).server.listener.isOpen = true ∧
    (((p.apply grow e).pc = StartPc.accept ∧ (p.apply grow e).accepted = 0) ∨
      ((p.apply grow e).pc = StartPc.recvStop ∧ (p.apply grow e).accepted = 1) ∨
      ((p.apply grow e).pc = StartPc.panicked ∧ (p.apply grow e).accepted ≤ 1)) := by
  cases e with
  | connect =>
    simp only [Process.apply, Listener.dial, hopen, if_true]
    exact ⟨trivial, hpc⟩
  | start =>
    rcases hpc with ⟨hp, ha⟩ | ⟨hp, ha⟩ | ⟨hp, ha⟩
    · by_cases hz : p.server.listener.pending = 0
      · have hs : Server.Start.step p = none := by
          simp [Server.Start.step, hp, hopen, hz]
        simp only [Process.apply, hs, Option.getD_none]
        exact ⟨hopen, Or.inl ⟨hp, ha⟩⟩
      · simp [Process.apply, Server.Start.step, hp, hopen, hz, ha]
    · have hs : Server.Start.step p = none := by
        simp [Server.Start.step, hp, h0]
      simp only [Process.apply, hs, Option.getD_none]
      exact ⟨hopen, Or.inr (Or.inl ⟨hp, ha⟩)⟩
    · have hs : Server.Start.step p = none := by
        simp [Server.Start.step, hp]
      simp only [Process.apply, hs, Option.getD_none]
      exact ⟨hopen, Or.inr (Or.inr ⟨hp, ha⟩)⟩
  | worker inp =>
    have hle : p.accepted ≤ 1 := by
      rcases hpc with ⟨_, ha⟩ | ⟨_, ha⟩ | ⟨_, ha⟩ <;> omega
    simp only [Process.apply, Process.workerTurn]
    split
    · exact ⟨hopen, hpc⟩
    · split
      · split
        · exact ⟨hopen, hpc⟩
        · exact ⟨hopen, hpc⟩
      · exact ⟨hopen, Or.inr (Or.inr ⟨rfl, hle⟩)⟩
  | shutdown =>
    simp [Process.apply, Server.Shutdown, h0] at h1

theorem quiet_run (grow : Nat → Nat → Nat) (es : List Event) :
    ∀ p : Process, p.server.listener.isOpen = true →
      ((p.pc = StartPc.accept ∧ p.accepted = 0) ∨ (p.pc = StartPc.recvStop ∧ p.accepted = 1) ∨
        (p.pc = StartPc.panicked ∧ p.accepted ≤ 1)) →
      p.quiet grow es → (p.run grow es).accepted ≤ 1 := by
  induction es with
  | nil =>
    intro p _ hpc _
    rw [run_nil]
    rcases hpc with ⟨_, ha⟩ | ⟨_, ha⟩ | ⟨_, ha⟩ <;> omega
  | cons e es ih =>
    intro p hopen hpc hq
    have h0 : p.server.store.stopChan = [] := hq 0
    have h1 : (p.apply grow e).server.store.stopChan = [] := hq 1
    obtain ⟨ho, hp⟩ := quiet_apply grow e p hopen hpc h0 h1
    rw [run_cons]
    exact ih _ ho hp (fun k => hq (k + 1))

/-- C17 (the code at the failing input). Two clients connect to a new server
and no stop signal is sent. `Start` accepts the first connection, spawns its
worker and then blocks in the receive `<-s.stop`: it does not go back to
`Accept`, and the second connection stays in the queue of the listener.
In general, whatever the clients and the workers do, as long as nothing is sent
on the stop channel `Accept` returns at most one connection. -/
theorem C17_second_connection_is_not_accepted (grow : Nat → Nat → Nat)
    (route : List String → Key → String) (opt : ServerOptions) :
    ((NewServer route opt).process.quiet grow [Event.connect, Event.connect, Event.start] ∧
      ((NewServer route opt).process.run grow
        [Event.connect, Event.connect, Event.start]).accepted = 1 ∧
      ((NewServer route opt).process.run grow
        [Event.connect, Event.connect, Event.start]).server.listener.pending = 1 ∧
      ((NewServer route opt).process.run grow
        [Event.connect, Event.connect, Event.start]).pc = StartPc.recvStop ∧
      Server.Start.step ((NewServer route opt).process.run grow
        [Event.connect, Event.connect, Event.start]) = none) ∧
    (∀ es : List Event, (NewServer route opt).process.quiet grow es →
      ((NewServer route opt).process.run grow es).accepted ≤ 1) := by
  obtain ⟨hl, hs, hw, ha, hp⟩ := NewServer_process route opt
  have hrun : (NewServer route opt).process.run grow [Event.connect, Event.connect, Event.start] =
      { (NewServer route opt).process with
        server := { (NewServer route opt).process.server with listener := ⟨true, 1⟩ },
        wg := 1, accepted := 1, pc := StartPc.recvStop } := by
    simp [Process.run, Process.apply, Listener.dial, Server.Start.step, hl, hw, ha, hp]
  refine ⟨⟨?_, ?_, ?_, ?_, ?_⟩, ?_⟩
  · intro k
    match k with
    | 0 => exact hs
    | 1 => simpa [Process.run, Process.apply, Listener.dial, hl] using hs
    | 2 => simpa [Process.run, Process.apply, Listener.dial, hl] using hs
    | k + 3 =>
      have : List.take (k + 3) [Event.connect, Event.connect, Event.start] =
          [Event.connect, Event.connect, Event.start] := by simp
      rw [this, hrun]
      exact hs
  · rw [hrun]
  · rw [hrun]
  · rw [hrun]
  · rw [hrun]
    simp [Server.Start.step, hs]
  · intro es hq
    exact quiet_run grow es _ (by rw [hl]) (Or.inl ⟨hp, ha⟩) hq

/-- C18 (the code at the failing input). A client connects to a new server and
sends the stop command. The worker acknowledges and sends `true` on the stop
channel; `Start` receives it, leaves the loop, waits for the worker and
returns. The listener is still open when `Start` has returned: a later
connection attempt is not refused, it is queued and never accepted. Neither
`Start` nor a worker ever closes the listener; `Shutdown` does, and after
`Shutdown` a connection attempt fails and `Start` returns once the accepted
worker has finished. -/
theorem C18_stop_command_leaves_listener_open (grow : Nat → Nat → Nat)
    (route : List String → Key → String) (opt : ServerOptions) :
    (∀ (st : Store) (rest out : List Byte),
      Store.handleRequest.turn grow ⟨st, ⟨stopCmd :: rest, out, []⟩⟩ =
        Res.ok false
          ⟨{ st with stopChan := st.stopChan ++ [true] }, ⟨rest, out ++ [ackReply], []⟩⟩) ∧
    (((NewServer route opt).process.run grow
        [Event.connect, Event.start, Event.worker [stopCmd], Event.start, Event.start]).pc =
        StartPc.returned ∧
      ((NewServer route opt).process.run grow
        [Event.connect, Event.start, Event.worker [stopCmd], Event.start, Event.start]).wg = 0 ∧
      ((NewServer route opt).process.run grow
        [Event.connect, Event.start, Event.worker [stopCmd], Event.start,
          Event.start]).server.listener.isOpen = true ∧
      ((NewServer route opt).process.run grow
        [Event.connect, Event.start, Event.worker [stopCmd], Event.start,
          Event.start]).server.listener.dial = some ⟨true, 1⟩ ∧
      ((NewServer route opt).process.run grow
        [Event.connect, Event.start, Event.worker [stopCmd], Event.start, Event.start,
          Event.connect, Event.start]).accepted = 1) ∧
    (∀ p q : Process,
      (Server.Start.step p = some q → q.server.listener.isOpen = p.server.listener.isOpen) ∧
      (∀ inp : List Byte, p.workerTurn grow inp = some q →
        q.server.listener = p.server.listener)) ∧
    (((NewServer route opt).process.run grow
        [Event.connect, Event.start, Event.shutdown, Event.start]).pc = StartPc.wait ∧
      ((NewServer route opt).process.run grow
        [Event.connect, Event.start, Event.shutdown, Event.start]).wg = 1 ∧
      Server.Start.step ((NewServer route opt).process.run grow
        [Event.connect, Event.start, Event.shutdown, Event.start]) = none ∧
      ((NewServer route opt).process.run grow
        [Event.connect, Event.start, Event.shutdown, Event.start, Event.worker [],
          Event.start]).pc = StartPc.returned ∧
      ((NewServer route opt).process.run grow
        [Event.connect, Event.start, Event.shutdown, Event.start, Event.worker [],
          Event.start]).server.listener.dial = none ∧
      ((NewServer route opt).process.run grow
        [Event.shutdown, Event.start, Event.start]).pc = StartPc.returned ∧
      ((NewServer route opt).process.run grow
        [Event.shutdown, Event.start, Event.start]).server.listener.dial = none) := by
  obtain ⟨hl, hs, hw, ha, hp⟩ := NewServer_process route opt
  have hstore : ∀ st : Store, st.stopChan = [] → ({ st with stopChan := [] } : Store) = st := by
    intro st h
    cases st
    simp_all
  refine ⟨turn_stop grow, ?_, fun p q => listener_kept grow p q, ?_⟩
  · have hrun : (NewServer route opt).process.run grow
        [Event.connect, Event.start, Event.worker [stopCmd], Event.start, Event.start] =
        { (NewServer route opt).process with
          server := { (NewServer route opt).process.server with listener := ⟨true, 0⟩ },
          wg := 0, accepted := 1, pc := StartPc.returned } := by
      simp [Process.run, Process.apply, Listener.dial, Server.Start.step, Process.workerTurn,
        turn_stop, hl, hs, hw, ha, hp]
      exact hstore _ hs
    have hrun2 : (NewServer route opt).process.run grow
        [Event.connect, Event.start, Event.worker [stopCmd], Event.start, Event.start,
          Event.connect, Event.start] =
        { (NewServer route opt).process with
          server := { (NewServer route opt).process.server with listener := ⟨true, 1⟩ },
          wg := 0, accepted := 1, pc := StartPc.returned } := by
      simp [Process.run, Process.apply, Listener.dial, Server.Start.step, Process.workerTurn,
        turn_stop, hl, hs, hw, ha, hp]
      exact hstore _ hs
    refine ⟨?_, ?_, ?_, ?_, ?_⟩
    · rw [hrun]
    · rw [hrun]
    · rw [hrun]
    · rw [hrun]
      rfl
    · rw [hrun2]
  · have hrun : (NewServer route opt).process.run grow
        [Event.connect, Event.start, Event.shutdown, Event.start] =
        { (NewServer route opt).process with
          server := { (NewServer route opt).process.server with listener := ⟨false, 0⟩ },
          wg := 1, accepted := 1, pc := StartPc.wait } := by
      simp [Process.run, Process.apply, Listener.dial, Server.Start.step, Server.Shutdown,
        hl, hs, hw, ha, hp]
      exact hstore _ hs
    have hrun2 : (NewServer route opt).process.run grow
        [Event.connect, Event.start, Event.shutdown, Event.start, Event.worker [], Event.start] =
        { (NewServer route opt).process with
          server := { (NewServer route opt).process.server with listener := ⟨false, 0⟩ },
          wg := 0, accepted := 1, pc := StartPc.returned } := by
      simp [Process.run, Process.apply, Listener.dial, Server.Start.step, Server.Shutdown,
        Process.workerTurn, turn_eof, hl, hs, hw, ha, hp]
      exact hstore _ hs
    have hrun3 : (NewServer route opt).process.run grow
        [Event.shutdown, Event.start, Event.start] =
        { (NewServer route opt).process with
          server := { (NewServer route opt).process.server with listener := ⟨false, 0⟩ },
          wg := 0, accepted := 0, pc := StartPc.returned } := by
      simp [Process.run, Process.apply, Listener.dial, Server.Start.step, Server.Shutdown,
        hl, hs, hw, ha, hp]
      exact hstore _ hs
    refine ⟨?_, ?_, ?_, ?_, ?_, ?_, ?_⟩
    · rw [hrun]
    · rw [hrun]
    · rw [hrun]
      rfl
    · rw [hrun2]
    · rw [hrun2]
      rfl
    · rw [hrun3]
    · rw [hrun3]
      rfl

/-! ## C20: the range scenario -/

theorem rangeOf_scenario :
    rangeOf (digitsTimes 10) 10 20 = tenDigits ++ [48] ∧
    rangeOf (digitsTimes 10) (100 - 3) (100 + 4) = [55, 56, 57] ∧
    rangeOf (digitsTimes 2) 10 20 = tenDigits ∧
    rangeOf (digitsTimes 2) (20 - 3) (20 + 4) = [55, 56, 57] := by
  refine ⟨?_, ?_, ?_, ?_⟩ <;> rfl

/-- C20 (counterexample to the claim as stated). With the key `foo` holding the
20-byte value `0123456789` written twice, `GetBytesRange("foo", 10, 20)` returns
the ten bytes `0123456789`, not eleven bytes: the end of the range, `21` after
the increment, is cut down to the length `20`. -/
theorem C20_twenty_byte_value_gives_ten_bytes :
    (digitsTimes 2).length = 20 ∧
    Client.GetBytesRange (fun _ n => n) [102, 111, 111] 10 20
        ⟨Conn.idle, oneBucketStore.withBucket [102, 111, 111]
          (Bucket.empty.setBytes [102, 111, 111] (GoSlice.ofBytes (digitsTimes 2)))⟩ =
      Res.ok (tenDigits, none)
        ⟨Conn.idle, oneBucketStore.withBucket [102, 111, 111]
          (Bucket.empty.setBytes [102, 111, 111] (GoSlice.ofBytes (digitsTimes 2)))⟩ ∧
    tenDigits.length = 10 ∧ tenDigits ≠ tenDigits ++ [48] := by
  refine ⟨rfl, ?_, rfl, by decide⟩
  have h := Client_GetBytesRange_run (fun _ n => n) [102, 111, 111]
    (oneBucketStore.withBucket [102, 111, 111]
      (Bucket.empty.setBytes [102, 111, 111] (GoSlice.ofBytes (digitsTimes 2))))
    (Bucket.empty.setBytes [102, 111, 111] (GoSlice.ofBytes (digitsTimes 2)))
    (GoSlice.ofBytes (digitsTimes 2)) 10 20 (by decide) (by decide) (by decide) (by decide)
    (getBucket_withBucket _ _ _) (setBytes_get _ _ _)
  rw [h]
  rfl

/-- C20 (amended). With the key `foo` holding the 100-byte value `0123456789`
written ten times, `GetBytesRange("foo", 10, 20)` returns the eleven bytes
`01234567890`, and `GetBytesRange("foo", len-3, len+4)` returns only the last
three bytes `789` of the value. With the 20-byte value `0123456789` written
twice, `GetBytesRange("foo", 10, 20)` returns the ten bytes `0123456789`, and
`GetBytesRange("foo", len-3, len+4)` again returns only the last three bytes. -/
theorem C20_range_scenario (grow : Nat → Nat → Nat) (st : Store) (b : Bucket) (s : GoSlice)
    (hb : st.getBucket [102, 111, 111] = some b) (h : b.bytedata [102, 111, 111] = some s) :
    (s.data = digitsTimes 10 →
      Client.GetBytesRange grow [102, 111, 111] 10 20 ⟨Conn.idle, st⟩ =
        Res.ok (tenDigits ++ [48], none) ⟨Conn.idle, st⟩ ∧
      Client.GetBytesRange grow [102, 111, 111] (100 - 3) (100 + 4) ⟨Conn.idle, st⟩ =
        Res.ok ([55, 56, 57], none) ⟨Conn.idle, st⟩) ∧
    (s.data = digitsTimes 2 →
      Client.GetBytesRange grow [102, 111, 111] 10 20 ⟨Conn.idle, st⟩ =
        Res.ok (tenDigits, none) ⟨Conn.idle, st⟩ ∧
      Client.GetBytesRange grow [102, 111, 111] (20 - 3) (20 + 4) ⟨Conn.idle, st⟩ =
        Res.ok ([55, 56, 57], none) ⟨Conn.idle, st⟩) := by
  have hrun : ∀ start end_ : Nat, s.data.length < 2 ^ 32 → start ≤ end_ → end_ < 2 ^ 32 - 1 →
      Client.GetBytesRange grow [102, 111, 111] start end_ ⟨Conn.idle, st⟩ =
        Res.ok (rangeOf s.data start end_, none) ⟨Conn.idle, st⟩ := fun start end_ hs h1 h2 =>
    Client_GetBytesRange_run grow [102, 111, 111] st b s start end_ (by decide) hs h1 h2 hb h
  obtain ⟨r1, r2, r3, r4⟩ := rangeOf_scenario
  constructor
  · intro hd
    have hl : s.data.length < 2 ^ 32 := by rw [hd]; decide
    rw [hrun 10 20 hl (by decide) (by decide), hrun (100 - 3) (100 + 4) hl (by decide) (by decide),
      hd, r1, r2]
    exact ⟨rfl, rfl⟩
  · intro hd
    have hl : s.data.length < 2 ^ 32 := by rw [hd]; decide
    rw [hrun 10 20 hl (by decide) (by decide), hrun (20 - 3) (20 + 4) hl (by decide) (by decide),
      hd, r3, r4]
    exact ⟨rfl, rfl⟩

/-- An instance of C20: the 100-byte value in a store with one bucket. -/
theorem C20_range_scenario_witness :
    Client.GetBytesRange (fun _ n => n) [102, 111, 111] 10 20
        ⟨Conn.idle, oneBucketStore.withBucket [102, 111, 111]
          (Bucket.empty.setBytes [102, 111, 111] (GoSlice.ofBytes (digitsTimes 10)))⟩ =
      Res.ok (tenDigits ++ [48], none)
        ⟨Conn.idle, oneBucketStore.withBucket [102, 111, 111]
          (Bucket.empty.setBytes [102, 111, 111] (GoSlice.ofBytes (digitsTimes 10)))⟩ :=
  ((C20_range_scenario (fun _ n => n)
    (oneBucketStore.withBucket [102, 111, 111]
      (Bucket.empty.setBytes [102, 111, 111] (GoSlice.ofBytes (digitsTimes 10))))
    (Bucket.empty.setBytes [102, 111, 111] (GoSlice.ofBytes (digitsTimes 10)))
    (GoSlice.ofBytes (digitsTimes 10)) (getBucket_withBucket _ _ _) (setBytes_get _ _ _)).1 rfl).1

/-! ## C22, C23: failures of the transport that are not reported -/

/-- `GetBytesRange` on a present key, for all values of its fields: after the
acknowledgement it either replies with the bytes between `start` and the
clamped end, or panics on the slice. -/
theorem GetBytesRange_eval (key : Key) (b : Bucket) (s : GoSlice) (start end_ : Nat)
    (rest out : List Byte) (hb : b.bytedata key = some s) (hs : s.data.length < 2 ^ 32)
    (hst : start < 2 ^ 32) (hen : end_ < 2 ^ 32) (h1 : start ≤ s.data.length) :
    Store.GetBytesRange key ⟨b, ⟨PutUint32 start ++ (PutUint32 end_ ++ rest), out, []⟩⟩ =
      if start ≤ min (add32 end_ 1) s.data.length then
        Res.ok () ⟨b, ⟨rest, out ++ ([ackReply] ++
          lenPrefixed ((s.data.take (min (add32 end_ 1) s.data.length)).drop start)), []⟩⟩
      else Res.panic Panic.sliceBounds ⟨b, ⟨rest, out ++ [ackReply], []⟩⟩ := by
  have hus : u32 s.len = s.data.length := Nat.mod_eq_of_lt hs
  have hgt : ¬ (start > s.data.length) := by omega
  have he : (if add32 end_ 1 > s.data.length then s.data.length else add32 end_ 1) =
      min (add32 end_ 1) s.data.length := by
    split <;> omega
  split
  · rename_i h
    have hsl := slice_ok (σ := BucketConn) s start (min (add32 end_ 1) s.data.length)
      ⟨b, ⟨rest, out ++ [ackReply], []⟩⟩ h (by unfold GoSlice.cap; omega)
    have hpart : List.take (min (add32 end_ 1) s.data.length) s.array =
        List.take (min (add32 end_ 1) s.data.length) s.data := by
      rw [GoSlice.array, List.take_append_of_le_length (by omega)]
    simp only [Store.GetBytesRange, Proc.bind_eq, Proc.bind, onConn_run, readUint32_ok start hst,
      readUint32_ok end_ hen, check, try_, Proc.pure, Proc.get, hb, sendMessage_ok, hus, hgt,
      if_false, he, hsl, sendBytes_ok, hpart, List.append_assoc]
  · rename_i h
    have hsl := slice_panic (σ := BucketConn) s start (min (add32 end_ 1) s.data.length)
      ⟨b, ⟨rest, out ++ [ackReply], []⟩⟩ (by omega)
    simp only [Store.GetBytesRange, Proc.bind_eq, Proc.bind, onConn_run, readUint32_ok start hst,
      readUint32_ok end_ hen, check, try_, Proc.pure, Proc.get, hb, sendMessage_ok, hus, hgt,
      if_false, he, hsl]

/-- `GetBytesRangeInto` on a present key, for all values of its fields: after
the acknowledgement it either replies with the part of the backing array
between `start` and the end it has computed, or panics on the slice. -/
theorem GetBytesRangeInto_eval (key : Key) (b : Bucket) (s : GoSlice) (start end_ dstSize : Nat)
    (rest out : List Byte) (hb : b.bytedata key = some s) (hs : s.data.length < 2 ^ 32)
    (hst : start < 2 ^ 32) (hen : end_ < 2 ^ 32) (hN : dstSize < 2 ^ 32)
    (h1 : start ≤ s.data.length) (e : Nat)
    (he : e = if sub32 (min (add32 end_ 1) s.data.length) start > dstSize
      then add32 start dstSize else min (add32 end_ 1) s.data.length) :
    Store.GetBytesRangeInto key
        ⟨b, ⟨PutUint32 start ++ (PutUint32 end_ ++ (PutUint32 dstSize ++ rest)), out, []⟩⟩ =
      if start ≤ e ∧ e ≤ s.cap then
        Res.ok () ⟨b, ⟨rest, out ++ ([ackReply] ++
          lenPrefixed ((s.array.take e).drop start)), []⟩⟩
      else Res.panic Panic.sliceBounds ⟨b, ⟨rest, out ++ [ackReply], []⟩⟩ := by
  have hus : u32 s.len = s.data.length := Nat.mod_eq_of_lt hs
  have hgt : ¬ (start > s.data.length) := by omega
  have he2 : (if add32 end_ 1 > s.data.length then s.data.length else add32 end_ 1) =
      min (add32 end_ 1) s.data.length := by
    split <;> omega
  split
  · rename_i h
    have hsl := slice_ok (σ := BucketConn) s start e
      ⟨b, ⟨rest, out ++ [ackReply], []⟩⟩ h.1 h.2
    simp only [Store.GetBytesRangeInto, Proc.bind_eq, Proc.bind, onConn_run, readUint32_ok start hst,
      readUint32_ok end_ hen, readUint32_ok dstSize hN, check, try_, Proc.pure, Proc.get, hb,
      sendMessage_ok, hus, hgt, if_false, he2, ← he, hsl, sendBytes_ok, List.append_assoc]
  · rename_i h
    have hsl := slice_panic (σ := BucketConn) s start e
      ⟨b, ⟨rest, out ++ [ackReply], []⟩⟩ h
    simp only [Store.GetBytesRangeInto, Proc.bind_eq, Proc.bind, onConn_run, readUint32_ok start hst,
      readUint32_ok end_ hen, readUint32_ok dstSize hN, check, try_, Proc.pure, Proc.get, hb,
      sendMessage_ok, hus, hgt, if_false, he2, ← he, hsl]

/-- C23 (the code at the failing input). On a connection whose next `Write`
fails and whose `Write` after that succeeds, `sendUint32` reports the failure,
but `sendBytes` returns a nil error: it drops the error of the length prefix
and reports the outcome of the payload write alone. The payload is then on
the wire without its length. Seen from a store operation: `GetBytes` on such a
connection returns normally after sending the acknowledgement and the bare
payload. -/
theorem C23_send_bytes_drops_prefix_error :
    sendUint32 (u32 2) ⟨[], [], [true, false]⟩ = Res.ok (some Err.ErrWrite) ⟨[], [], [false]⟩ ∧
    sendBytes [1, 2] ⟨[], [], [true, false]⟩ = Res.ok none ⟨[], [1, 2], []⟩ ∧
    (∀ (d inp out : List Byte) (w : List Bool),
      sendBytes d ⟨inp, out, true :: false :: w⟩ = Res.ok none ⟨inp, out ++ d, w⟩) ∧
    Store.GetBytes [102]
        ⟨Bucket.empty.setBytes [102] ⟨[1, 2], []⟩, ⟨[], [], [false, true, false]⟩⟩ =
      Res.ok () ⟨Bucket.empty.setBytes [102] ⟨[1, 2], []⟩, ⟨[], [ackReply, 1, 2], []⟩⟩ := by
  have hgen : ∀ (d inp out : List Byte) (w : List Bool),
      sendBytes d ⟨inp, out, true :: false :: w⟩ = Res.ok none ⟨inp, out ++ d, w⟩ := by
    intro d inp out w
    simp [sendBytes, sendUint32, Conn.Write, Proc.bind]
  refine ⟨by simp [sendUint32, Conn.Write], by simpa using hgen [1, 2] [] [] [], hgen, ?_⟩
  have hb := setBytes_get Bucket.empty [102] ⟨[1, 2], []⟩
  have h2 := hgen [1, 2] [] [ackReply] []
  simp only [List.singleton_append, List.cons_append, List.nil_append] at h2
  simp [Store.GetBytes, Proc.bind, Proc.get, hb, onConn_run, sendMessage, Conn.Write, try_,
    Proc.pure, h2]

theorem readBytesInto_eof (dst out : List Byte) (w : List Bool) :
    withBuf dst readBytesInto ⟨[], out, w⟩ = Res.ok ((0, some Err.EOF), dst) ⟨[], out, w⟩ := by
  simp [withBuf, readBytesInto, Proc.bind, Proc.zoom, readUint32_eof, Proc.pure]

/-- The length has arrived and the stream ends before the first byte of the
payload: `readBytesInto` returns the announced length, with a nil error when
the destination is no longer than it and with `io.EOF` when it is longer; the
destination is untouched. -/
theorem readBytesInto_no_payload (size : Nat) (dst out : List Byte) (w : List Bool)
    (hz : 0 < size) (hs : size ≤ dst.length) (hd : dst.length < 2 ^ 32) :
    withBuf dst readBytesInto ⟨PutUint32 size, out, w⟩ =
      Res.ok ((size, if size < dst.length then some Err.EOF else none), dst) ⟨[], out, w⟩ := by
  have hr := readUint32_ok size (by omega) [] out w
  simp only [List.append_nil] at hr
  have hra : ReadAtLeast size ⟨⟨[], out, w⟩, dst⟩ = Res.ok (0, some Err.EOF) ⟨⟨[], out, w⟩, dst⟩ := by
    simp [ReadAtLeast, show ¬ dst.length < size by omega, show size ≠ 0 by omega]
  have hu : u32 dst.length = dst.length := Nat.mod_eq_of_lt hd
  by_cases hlt : size < dst.length
  · simp [withBuf, readBytesInto, Proc.bind, Proc.zoom, hr, hra, Proc.get, hu, hlt, Proc.pure]
  · simp [withBuf, readBytesInto, Proc.bind, Proc.zoom, hr, hra, Proc.get, hu, hlt, Proc.pure]

/-- C22 (the code at the failing input). The reply stream carries the ack byte
and the length `5` and then ends. `readBytesInto`, which decodes the reply of
`GetBytesInto` and `GetBytesRangeInto`, returns the count `5` with a nil error
for a destination of 5 bytes, and the count `5` with `io.EOF` for a destination
of 6 bytes, although no byte of the payload has arrived; when the stream ends
right after the ack byte it returns the count `0` with `io.EOF`. End to end:
the server panics after the acknowledgement of `GetBytesRangeInto("f", 2, 0)`
with a destination of 2 bytes, and the client call returns `(0, io.EOF)`. -/
theorem C22_truncated_reply_is_not_fatal :
    withBuf [9, 9, 9, 9, 9] readBytesInto ⟨PutUint32 5, [], []⟩ =
      Res.ok ((5, none), [9, 9, 9, 9, 9]) ⟨[], [], []⟩ ∧
    withBuf [9, 9, 9, 9, 9, 9] readBytesInto ⟨PutUint32 5, [], []⟩ =
      Res.ok ((5, some Err.EOF), [9, 9, 9, 9, 9, 9]) ⟨[], [], []⟩ ∧
    (∀ dst : List Byte,
      withBuf dst readBytesInto ⟨[], [], []⟩ = Res.ok ((0, some Err.EOF), dst) ⟨[], [], []⟩) ∧
    Client.GetBytesRangeInto (fun _ n => n) [102] 2 0 [9, 9]
        ⟨Conn.idle, oneBucketStore.withBucket [102] (Bucket.empty.setBytes [102] ⟨[1, 2, 3], []⟩)⟩ =
      Res.ok (0, some Err.EOF, [9, 9])
        ⟨Conn.idle, oneBucketStore.withBucket [102] (Bucket.empty.setBytes [102] ⟨[1, 2, 3], []⟩)⟩ := by
  refine ⟨readBytesInto_no_payload 5 _ [] [] (by decide) (by decide) (by decide),
    readBytesInto_no_payload 5 _ [] [] (by decide) (by decide) (by decide),
    fun dst => readBytesInto_eof dst [] [], ?_⟩
  have hop := GetBytesRangeInto_eval [102] (Bucket.empty.setBytes [102] ⟨[1, 2, 3], []⟩)
    ⟨[1, 2, 3], []⟩ 2 0 2 [] [] (setBytes_get _ _ _) (by decide) (by decide) (by decide) (by decide)
    (by decide) 4 (by decide)
  rw [if_neg (by decide)] at hop
  have hb := getBucket_withBucket oneBucketStore [102] (Bucket.empty.setBytes [102] ⟨[1, 2, 3], []⟩)
  have h := turn_panic (fun _ n => n) getBytesRangeIntoCmd [102] (Store.GetBytesRangeInto [102])
    _ _ _ (PutUint32 2 ++ (PutUint32 0 ++ (PutUint32 2 ++ []))) [] _ Panic.sliceBounds (by decide)
    (by decide) (dispatch_cases _ _).2.2.2.1 hb hop
  rw [withBucket_self _ _ _ hb] at h
  simp only [List.append_nil, List.nil_append] at h
  have hu : u32 2 = 2 := by decide
  simp [Client.GetBytesRangeInto, Conn.idle, Proc.bind, onClientConn_run, sendMessage_ok,
    sendBytes_ok, sendUint32_ok, try_, check, Client.await, h, hu, readMessage_ok,
    readBytesInto_eof, Proc.pure, Proc.raise, ackReply_ne_errNoKeyReply]

/-! ## Reads that meet the end of the stream -/

theorem ReadAtLeast_short (min : Nat) (q buf out : List Byte) (w : List Bool)
    (h1 : q.length < min) (h2 : min ≤ buf.length) :
    ReadAtLeast min ⟨⟨q, out, w⟩, buf⟩ =
      if q = [] then Res.ok (0, some Err.EOF) ⟨⟨[], out, w⟩, buf⟩
      else Res.ok (q.length, some Err.ErrUnexpectedEOF) ⟨⟨[], out, w⟩, q ++ buf.drop q.length⟩ := by
  have hq : q.length ≤ buf.length := by omega
  by_cases hn : q = []
  · subst hn
    simp [ReadAtLeast, show ¬ buf.length < min by omega, show min ≠ 0 by omega]
  · have hpos : 0 < q.length := List.length_pos.mpr hn
    simp [ReadAtLeast, show ¬ buf.length < min by omega, show min ≠ 0 by omega, hn,
      List.take_of_length_le hq, List.drop_eq_nil_of_le hq, show ¬ min ≤ q.length by omega, hpos]

/-- Fewer than four bytes are left: `readUint32` returns `io.EOF` when none is
left and panics otherwise. -/
theorem readUint32_short (q out : List Byte) (w : List Bool) (h : q.length < 4) :
    readUint32 ⟨q, out, w⟩ =
      if q = [] then Res.ok (0, some Err.EOF) ⟨[], out, w⟩
      else Res.panic (Panic.err Err.ErrUnexpectedEOF) ⟨[], out, w⟩ := by
  have hr := ReadAtLeast_short 4 q [0, 0, 0, 0] out w h (by simp)
  by_cases hn : q = []
  · subst hn
    exact readUint32_eof out w
  · simp only [hn, if_false] at hr ⊢
    simp [readUint32, Proc.bind, withBuf, hr, Proc.raise]

/-- Fewer bytes are left than the buffer takes: `readFillBuf` returns `io.EOF`
when none is left and otherwise panics with the bytes that did arrive at the
front of the buffer. -/
theorem readFillBuf_short (q buf out : List Byte) (w : List Bool) (h : q.length < buf.length) :
    readFillBuf ⟨⟨q, out, w⟩, buf⟩ =
      if q = [] then Res.ok (some Err.EOF) ⟨⟨[], out, w⟩, buf⟩
      else Res.panic (Panic.err Err.ErrUnexpectedEOF) ⟨⟨[], out, w⟩, q ++ buf.drop q.length⟩ := by
  have hr := ReadAtLeast_short buf.length q buf out w h (le_refl _)
  by_cases hn : q = []
  · simp only [hn, if_true] at hr ⊢
    simp [readFillBuf, Proc.bind, Proc.get, hr, Proc.pure]
  · simp only [hn, if_false] at hr ⊢
    simp [readFillBuf, Proc.bind, Proc.get, hr, Proc.raise]

theorem readFillStored_short (key : Key) (s : GoSlice) (lo hi : Nat) (b : Bucket)
    (q out : List Byte) (w : List Bool) (h1 : lo ≤ hi) (h2 : hi ≤ s.cap) (hq : q.length < hi - lo) :
    readFillStored key s lo hi ⟨b, ⟨q, out, w⟩⟩ =
      if q = [] then
        Res.ok (some Err.EOF)
          ⟨b.setBytes key (s.patch lo ((s.array.take hi).drop lo)), ⟨[], out, w⟩⟩
      else
        Res.panic (Panic.err Err.ErrUnexpectedEOF)
          ⟨b.setBytes key (s.patch lo (q ++ ((s.array.take hi).drop lo).drop q.length)),
            ⟨[], out, w⟩⟩ := by
  have hlen : ((s.array.take hi).drop lo).length = hi - lo := by
    simp only [List.length_drop, List.length_take, GoSlice.array, List.length_append]
    unfold GoSlice.cap at h2
    omega
  have hr := readFillBuf_short q ((s.array.take hi).drop lo) out w (by omega)
  by_cases hn : q = []
  · simp only [hn, if_true] at hr ⊢
    simp [readFillStored, Proc.bind, slice_ok s lo hi _ h1 h2, Proc.zoom, hr]
  · simp only [hn, if_false] at hr ⊢
    simp [readFillStored, Proc.bind, slice_ok s lo hi _ h1 h2, Proc.zoom, hr]

theorem readFillLocal_short (buf : GoSlice) (lo hi : Nat) (b : Bucket)
    (q out : List Byte) (w : List Bool) (h1 : lo ≤ hi) (h2 : hi ≤ buf.cap) (hq : q.length < hi - lo) :
    readFillLocal buf lo hi ⟨b, ⟨q, out, w⟩⟩ =
      if q = [] then
        Res.ok (some Err.EOF, buf.patch lo ((buf.array.take hi).drop lo)) ⟨b, ⟨[], out, w⟩⟩
      else Res.panic (Panic.err Err.ErrUnexpectedEOF) ⟨b, ⟨[], out, w⟩⟩ := by
  have hlen : ((buf.array.take hi).drop lo).length = hi - lo := by
    simp only [List.length_drop, List.length_take, GoSlice.array, List.length_append]
    unfold GoSlice.cap at h2
    omega
  have hr := readFillBuf_short q ((buf.array.take hi).drop lo) out w (by omega)
  by_cases hn : q = []
  · simp only [hn, if_true] at hr ⊢
    simp [readFillLocal, Proc.bind, slice_ok buf lo hi _ h1 h2, onConn_run, withBuf, hr, Proc.pure]
  · simp only [hn, if_false] at hr ⊢
    simp [readFillLocal, Proc.bind, slice_ok buf lo hi _ h1 h2, onConn_run, withBuf, hr]

/-- The length of a blob has arrived and fewer bytes follow than it announces:
`readBytes` returns `io.EOF` when none follows and panics otherwise. -/
theorem readBytes_short (n : Nat) (q out : List Byte) (w : List Bool) (hn : n < 2 ^ 32)
    (hq : q.length < n) :
    readBytes ⟨PutUint32 n ++ q, out, w⟩ =
      if q = [] then Res.ok (List.replicate n 0, some Err.EOF) ⟨[], out, w⟩
      else Res.panic (Panic.err Err.ErrUnexpectedEOF) ⟨[], out, w⟩ := by
  have hr := readFillBuf_short q (List.replicate n 0) out w (by simpa using hq)
  by_cases hn0 : q = []
  · have hu := readUint32_ok n hn [] out w
    simp only [List.append_nil] at hu
    simp only [hn0, if_true] at hr ⊢
    simp [readBytes, Proc.bind, hu, withBuf, hr, Proc.pure]
  · simp only [hn0, if_false] at hr ⊢
    simp [readBytes, Proc.bind, readUint32_ok n hn, withBuf, hr]

/-! ## C25: range reads on all 32-bit arguments -/

/-- C25 (the code at the failing inputs). `GetBytesRange` with start `3` and
end `1` on the value `1, 2, 3, 4` acknowledges and panics on the slice
`data[3:2]`. `GetBytesRangeInto` with the same start and end and the capacity
`2^32 - 1` does the same. After `TruncateBytes(K, 1)` on the value `1, 2, 3`,
`GetBytesRangeInto` with start `1`, end `2^32 - 1` and capacity `2` replies
with the payload `2, 3`: the end has wrapped to `0`, the difference
`end - start` has wrapped above the capacity, and the slice `data[1:3]` reaches
past the length `1` of the value into the bytes that the truncation cut off. -/
theorem C25_range_reads_fail_or_leak :
    Store.GetBytesRange [102]
        ⟨Bucket.empty.setBytes [102] ⟨[1, 2, 3, 4], []⟩,
          ⟨PutUint32 3 ++ (PutUint32 1 ++ []), [], []⟩⟩ =
      Res.panic Panic.sliceBounds
        ⟨Bucket.empty.setBytes [102] ⟨[1, 2, 3, 4], []⟩, ⟨[], [ackReply], []⟩⟩ ∧
    Store.GetBytesRangeInto [102]
        ⟨Bucket.empty.setBytes [102] ⟨[1, 2, 3, 4], []⟩,
          ⟨PutUint32 3 ++ (PutUint32 1 ++ (PutUint32 4294967295 ++ [])), [], []⟩⟩ =
      Res.panic Panic.sliceBounds
        ⟨Bucket.empty.setBytes [102] ⟨[1, 2, 3, 4], []⟩, ⟨[], [ackReply], []⟩⟩ ∧
    (Store.TruncateBytes [102] >>= fun _ => Store.GetBytesRangeInto [102])
        ⟨Bucket.empty.setBytes [102] ⟨[1, 2, 3], []⟩,
          ⟨PutUint32 1 ++ (PutUint32 1 ++ (PutUint32 4294967295 ++ (PutUint32 2 ++ []))), [], []⟩⟩ =
      Res.ok ()
        ⟨(Bucket.empty.setBytes [102] ⟨[1, 2, 3], []⟩).setBytes [102] ⟨[1], [2, 3]⟩,
          ⟨[], [ackReply] ++ ([ackReply] ++ lenPrefixed [2, 3]), []⟩⟩ := by
  refine ⟨?_, ?_, ?_⟩
  · have h := GetBytesRange_eval [102] (Bucket.empty.setBytes [102] ⟨[1, 2, 3, 4], []⟩)
      ⟨[1, 2, 3, 4], []⟩ 3 1 [] [] (setBytes_get _ _ _) (by decide) (by decide) (by decide)
      (by decide)
    rw [if_neg (by decide)] at h
    exact h
  · have h := GetBytesRangeInto_eval [102] (Bucket.empty.setBytes [102] ⟨[1, 2, 3, 4], []⟩)
      ⟨[1, 2, 3, 4], []⟩ 3 1 4294967295 [] [] (setBytes_get _ _ _) (by decide) (by decide)
      (by decide) (by decide) (by decide) 2 (by decide)
    rw [if_neg (by decide)] at h
    exact h
  · have ht := TruncateBytes_run [102] (Bucket.empty.setBytes [102] ⟨[1, 2, 3], []⟩)
      ⟨[1, 2, 3], []⟩ 1
      (PutUint32 1 ++ (PutUint32 4294967295 ++ (PutUint32 2 ++ []))) [] (setBytes_get _ _ _)
      (by decide) (by decide)
    rw [if_pos (by decide)] at ht
    have hg := GetBytesRangeInto_eval [102]
      ((Bucket.empty.setBytes [102] ⟨[1, 2, 3], []⟩).setBytes [102] ⟨[1], [2, 3]⟩)
      ⟨[1], [2, 3]⟩ 1 4294967295 2 [] ([] ++ [ackReply]) (setBytes_get _ _ _) (by decide)
      (by decide) (by decide) (by decide) (by decide) 3 (by decide)
    rw [if_pos (by decide)] at hg
    simp only [Proc.bind_eq, Proc.bind]
    rw [ht]
    exact hg

/-! ## C26: a write whose payload does not arrive -/

/-- The payload of `SetBytes` is cut short: the operation panics and the bucket
is as it was. -/
theorem SetBytes_short (key : Key) (b : Bucket) (n : Nat) (q out : List Byte) (w : List Bool)
    (hn : n < 2 ^ 32) (hq : q.length < n) :
    Store.SetBytes key ⟨b, ⟨PutUint32 n ++ q, out, w⟩⟩ =
      Res.panic (Panic.err (if q = [] then Err.EOF else Err.ErrUnexpectedEOF)) ⟨b, ⟨[], out, w⟩⟩ := by
  have hr := readBytes_short n q out w hn hq
  by_cases h0 : q = []
  · simp only [h0, if_true] at hr ⊢
    have hr2 : readBytes ⟨PutUint32 n, out, w⟩ =
        Res.ok (List.replicate n 0, some Err.EOF) ⟨[], out, w⟩ := by simpa using hr
    simp [Store.SetBytes, Proc.bind, onConn_run, hr2, check, try_, Proc.raise]
  · simp only [h0, if_false] at hr ⊢
    simp [Store.SetBytes, Proc.bind, onConn_run, hr]

/-- The payload of `SetBytesRange` on an absent key is cut short (and the sum
`start + newSize` does not overflow): the operation panics and the bucket is as
it was. -/
theorem SetBytesRange_absent_short (grow : Nat → Nat → Nat) (key : Key) (b : Bucket)
    (start n : Nat) (q out : List Byte) (w : List Bool) (hb : b.bytedata key = none)
    (hsum : start + n < 2 ^ 32) (hq : q.length < n) :
    Store.SetBytesRange grow key ⟨b, ⟨PutUint32 start ++ (PutUint32 n ++ q), out, w⟩⟩ =
      Res.panic (Panic.err (if q = [] then Err.EOF else Err.ErrUnexpectedEOF)) ⟨b, ⟨[], out, w⟩⟩ := by
  have hadd : add32 start n = start + n := add32_eq _ _ hsum
  have hr := readFillLocal_short (GoSlice.make (start + n)) start (start + n) b q out w (by omega)
    (by simp [GoSlice.cap, GoSlice.make]) (by omega)
  by_cases h0 : q = []
  · simp only [h0, if_true] at hr ⊢
    have hu := readUint32_ok n (by omega) [] out w
    simp only [List.append_nil] at hu
    simp [Store.SetBytesRange, Proc.bind, onConn_run, readUint32_ok start (by omega), hu, check,
      try_, Proc.pure, Proc.get, hb, hadd, hr, Proc.raise]
  · simp only [h0, if_false] at hr ⊢
    simp [Store.SetBytesRange, Proc.bind, onConn_run, readUint32_ok start (by omega),
      readUint32_ok n (by omega), check, try_, Proc.pure, Proc.get, hb, hadd, hr]

/-- C26 (the code at the failing input). The key `f` holds `1, 2, 3`. A
`SetBytesRange` request with start `0` announces 3 bytes, and the stream ends
after the first of them, `9`: the operation panics and the stored value is
`9, 2, 3`. A request with start `1` announces 4 bytes, and the stream ends
after `8, 9`: the operation panics and the stored value is `1, 8, 9`. In both
cases the bytes that did arrive were read into the stored array. -/
theorem C26_partial_payload_is_stored :
    Store.SetBytesRange (fun _ n => n) [102]
        ⟨Bucket.empty.setBytes [102] ⟨[1, 2, 3], []⟩,
          ⟨PutUint32 0 ++ (PutUint32 3 ++ [9]), [], []⟩⟩ =
      Res.panic (Panic.err Err.ErrUnexpectedEOF)
        ⟨(Bucket.empty.setBytes [102] ⟨[1, 2, 3], []⟩).setBytes [102] ⟨[9, 2, 3], []⟩,
          ⟨[], [], []⟩⟩ ∧
    Store.SetBytesRange (fun _ n => n) [102]
        ⟨Bucket.empty.setBytes [102] ⟨[1, 2, 3], []⟩,
          ⟨PutUint32 1 ++ (PutUint32 4 ++ [8, 9]), [], []⟩⟩ =
      Res.panic (Panic.err Err.EOF)
        ⟨(Bucket.empty.setBytes [102] ⟨[1, 2, 3], []⟩).setBytes [102] ⟨[1, 8, 9], []⟩,
          ⟨[], [], []⟩⟩ := by
  have hb := setBytes_get Bucket.empty [102] ⟨[1, 2, 3], []⟩
  have hu : u32 (GoSlice.len ⟨[1, 2, 3], []⟩) = 3 := by decide
  constructor
  · have hr := readFillStored_short [102] ⟨[1, 2, 3], []⟩ 0 3
      (Bucket.empty.setBytes [102] ⟨[1, 2, 3], []⟩) [9] [] [] (by decide) (by decide) (by decide)
    rw [if_neg (by decide)] at hr
    have ha : add32 0 3 = 3 := by decide
    simp only [Store.SetBytesRange, Proc.bind_eq, Proc.bind, onConn_run,
      readUint32_ok 0 (by decide), readUint32_ok 3 (by decide), check, try_, Proc.pure, Proc.get,
      hb, hu, ha, le_refl, if_true, hr]
    have hp : GoSlice.patch ⟨[1, 2, 3], []⟩ 0
        ([9] ++ List.drop ([9] : List Byte).length
          (List.drop 0 (List.take 3 (GoSlice.array ⟨[1, 2, 3], []⟩)))) = ⟨[9, 2, 3], []⟩ := by
      decide
    rw [hp]
  · have hr := readFillStored_ok [102] ⟨[1, 2, 3], []⟩ 1 3
      (Bucket.empty.setBytes [102] ⟨[1, 2, 3], []⟩) [8, 9] [] [] [] (by decide) (by decide)
      (by decide)
    simp only [List.append_nil] at hr
    have hl := readFillLocal_short (GoSlice.make 2) 0 2
      ((Bucket.empty.setBytes [102] ⟨[1, 2, 3], []⟩).setBytes [102]
        (GoSlice.patch ⟨[1, 2, 3], []⟩ 1 [8, 9])) [] [] [] (by decide) (by decide) (by decide)
    rw [if_pos rfl] at hl
    have ha : add32 1 4 = 5 := by decide
    have h1 : sub32 4 (sub32 3 1) = 2 := by decide
    have h2 : sub32 (add32 3 2) 3 = 2 := by decide
    have h3 : sub32 2 2 = 0 := by decide
    have hp : GoSlice.patch ⟨[1, 2, 3], []⟩ 1 [8, 9] = ⟨[1, 8, 9], []⟩ := by decide
    simp only [Store.SetBytesRange, Proc.bind_eq, Proc.bind, onConn_run,
      readUint32_ok 1 (by decide), readUint32_ok 4 (by decide), check, try_, Proc.pure, Proc.get,
      hb, hu, ha]
    rw [if_neg (by decide), if_pos (by decide)]
    simp only [Proc.bind, hr, Proc.pure, Proc.get, h1, h2, h3]
    rw [hl]
    simp only [Proc.raise, hp]

/-! ## C24: a range write after a truncation -/

/-- Without overflow of `start + len(data)`: after `TruncateBytes(K, size)` with
`size < len(V)`, `SetBytesRange(K, start, data)` with `start > size` leaves the
first `size` bytes of `V`, then zeros up to `start`, then `data`. None of the
bytes that `V` held from `size` on is part of the value. -/
theorem truncate_then_set_range (grow : Nat → Nat → Nat) (key : Key) (b : Bucket) (s : GoSlice)
    (size start : Nat) (data rest out : List Byte)
    (hb : b.bytedata key = some s) (hs : s.data.length < 2 ^ 32)
    (hsize : size < s.data.length) (hstart : size < start)
    (hsum : start + data.length < 2 ^ 32) :
    ∃ spare,
      (Store.TruncateBytes key >>= fun _ => Store.SetBytesRange grow key)
          ⟨b, ⟨PutUint32 size ++ (PutUint32 start ++ (lenPrefixed data ++ rest)), out, []⟩⟩ =
        Res.ok ()
          ⟨b.setBytes key
              ⟨s.data.take size ++ List.replicate (start - size) 0 ++ data, spare⟩,
            ⟨rest, out ++ [ackReply] ++ [ackReply], []⟩⟩ := by
  have ht := TruncateBytes_run key b s size (PutUint32 start ++ (lenPrefixed data ++ rest)) out hb hs
    (by omega)
  rw [if_pos hsize] at ht
  have hlen : (s.data.take size).length = size := by
    rw [List.length_take]
    omega
  obtain ⟨spare, hr⟩ := SetBytesRange_present_run grow key
    (b.setBytes key ⟨s.data.take size, s.data.drop size ++ s.spare⟩)
    ⟨s.data.take size, s.data.drop size ++ s.spare⟩ start data rest (out ++ [ackReply])
    (setBytes_get _ _ _) (by rw [hlen]; omega) hsum
  refine ⟨spare, ?_⟩
  simp only [Proc.bind_eq, Proc.bind, ht]
  rw [hr, setBytes_setBytes]
  have hW : splice (s.data.take size) start data =
      s.data.take size ++ List.replicate (start - size) 0 ++ data := by
    simp only [splice, hlen]
    rw [List.take_of_length_le (by rw [hlen]; omega),
      List.drop_eq_nil_of_le (by rw [hlen]; omega), List.append_nil]
  rw [hW]

/-- C24 (the code at the failing input). The key `f` holds `1, 2, 3`. After
`TruncateBytes(K, 1)`, `SetBytesRange(K, 4294967295, data)` with the two bytes
`7, 8` as data panics: `start + newSize` wraps to `1`, which is not above the
length `1`, so the write is taken to lie inside the value and the slice
`actualData[4294967295:1]` is out of bounds. The second acknowledgement is not
written, the data is left unread, and the value stays `1`. -/
theorem C24_range_write_after_truncate_overflow :
    (Store.TruncateBytes [102] >>= fun _ => Store.SetBytesRange (fun _ n => n) [102])
        ⟨Bucket.empty.setBytes [102] ⟨[1, 2, 3], []⟩,
          ⟨PutUint32 1 ++ (PutUint32 4294967295 ++ (lenPrefixed [7, 8] ++ [])), [], []⟩⟩ =
      Res.panic Panic.sliceBounds
        ⟨(Bucket.empty.setBytes [102] ⟨[1, 2, 3], []⟩).setBytes [102] ⟨[1], [2, 3]⟩,
          ⟨[7, 8], [ackReply], []⟩⟩ := by
  have ht := TruncateBytes_run [102] (Bucket.empty.setBytes [102] ⟨[1, 2, 3], []⟩)
    ⟨[1, 2, 3], []⟩ 1 (PutUint32 4294967295 ++ (lenPrefixed [7, 8] ++ [])) []
    (setBytes_get _ _ _) (by decide) (by decide)
  rw [if_pos (by decide)] at ht
  have hb := setBytes_get (Bucket.empty.setBytes [102] ⟨[1, 2, 3], []⟩) [102] ⟨[1], [2, 3]⟩
  have hu : u32 (GoSlice.len ⟨[1], [2, 3]⟩) = 1 := by decide
  have ha : add32 4294967295 2 = 1 := by decide
  have hl : lenPrefixed ([7, 8] : List Byte) ++ [] = PutUint32 2 ++ [7, 8] := by
    simp [lenPrefixed, u32]
  have hsl := slice_panic (σ := BucketConn) ⟨[1], [2, 3]⟩ 4294967295 1
    ⟨(Bucket.empty.setBytes [102] ⟨[1, 2, 3], []⟩).setBytes [102] ⟨[1], [2, 3]⟩,
      ⟨[7, 8], [] ++ [ackReply], []⟩⟩ (by decide)
  rw [hl] at ht
  simp only [Proc.bind_eq, Proc.bind, hl, ht]
  simp only [Store.SetBytesRange, Proc.bind_eq, Proc.bind, onConn_run,
    readUint32_ok 4294967295 (by decide), readUint32_ok 2 (by decide), check, try_, Proc.pure,
    Proc.get, hb, hu, ha, le_refl, if_true, readFillStored, hsl]
  rfl

/-! ## C27: what an operation leaves alone -/

/-- A property of buckets that holds before a byte-value write on `key` and
that assignments to `key` in the byte mapping do not disturb holds when the
operation has ended, by return or by panic. -/
theorem SetBytesRange_keeps (grow : Nat → Nat → Nat) (key : Key) (b : Bucket) (c : Conn)
    (P : Bucket → Prop) (hP : P b) (hset : ∀ (b1 : Bucket) (v : GoSlice), P b1 → P (b1.setBytes key v)) :
    (Store.SetBytesRange grow key ⟨b, c⟩).sat (fun _ s => P s.bucket) (fun s => P s.bucket) := by
  simp only [Store.SetBytesRange, Proc.bind_eq, sat_bind, sat_get, onConn, sat_zoom, check, sat_try]
  refine sat_of_forall _ _ _ (fun a1 c1 => ⟨fun _ => ?_, fun _ => hP⟩) (fun _ => hP)
  refine sat_of_forall _ _ _ (fun a2 c2 => ⟨fun _ => ?_, fun _ => hP⟩) (fun _ => hP)
  cases b.bytedata key with
  | none =>
    dsimp only
    simp only [sat_bind]
    refine sat_mono _ _ _ _ _ (readFillLocal_sat _ _ _ b c2) (fun a s hs => ?_)
      (fun s hs => by rw [hs]; exact hP)
    have hs1 : P s.bucket := by rw [hs.1]; exact hP
    have hnew : P (s.bucket.setBytes key a.2) := hset _ _ hs1
    simp only [sat_try, sat_modify, sat_bind, sat_zoom]
    refine ⟨fun _ => ?_, fun _ => hs1⟩
    exact sat_of_forall _ _ _ (fun _ _ => ⟨fun _ => hnew, fun _ => hnew⟩) (fun _ => hnew)
  | some actualData =>
    have hQ : ∀ (lo : Nat) (s : BucketConn),
        (s.bucket = b ∨ ∃ w, s.bucket = b.setBytes key (actualData.patch lo w)) → P s.bucket := by
      intro lo s hs
      rcases hs with hs | ⟨w, hs⟩
      · rw [hs]; exact hP
      · rw [hs]; exact hset _ _ hP
    dsimp only
    split
    · simp only [sat_bind]
      refine sat_mono _ _ _ _ _ (readFillStored_sat key actualData _ _ b c2) (fun _ s hs => ?_)
        (fun s hs => hQ _ s hs)
      have hbd := hQ _ s hs
      simp only [sat_try, sat_zoom]
      refine ⟨fun _ => ?_, fun _ => hbd⟩
      exact sat_of_forall _ _ _ (fun _ _ => ⟨fun _ => hbd, fun _ => hbd⟩) (fun _ => hbd)
    · split
      · simp only [sat_bind]
        refine sat_mono _ _ _ _ _ (readFillStored_sat key actualData _ _ b c2) (fun _ s hs => ?_)
          (fun s hs => hQ _ s hs)
        have hbd := hQ _ s hs
        simp only [sat_try, sat_get, sat_pure, sat_bind]
        refine ⟨fun _ => ?_, fun _ => hbd⟩
        refine sat_mono _ _ _ _ _ (readFillLocal_sat _ _ _ s.bucket s.conn) (fun a t ht => ?_)
          (fun t ht => by rw [ht]; exact hbd)
        have ht1 : P t.bucket := by rw [ht.1]; exact hbd
        have hnew : P (t.bucket.setBytes key
            (GoSlice.append grow ((s.bucket.bytedata key).getD actualData) a.2.data)) :=
          hset _ _ ht1
        simp only [sat_try, sat_modify, sat_bind, sat_zoom]
        refine ⟨fun _ => ?_, fun _ => ht1⟩
        exact sat_of_forall _ _ _ (fun _ _ => ⟨fun _ => hnew, fun _ => hnew⟩) (fun _ => hnew)
      · simp only [sat_pure, sat_bind]
        refine sat_mono _ _ _ _ _ (readFillLocal_sat _ _ _ b c2) (fun a t ht => ?_)
          (fun t ht => by rw [ht]; exact hP)
        have ht1 : P t.bucket := by rw [ht.1]; exact hP
        have hnew : P (t.bucket.setBytes key (GoSlice.append grow actualData a.2.data)) :=
          hset _ _ ht1
        simp only [sat_try, sat_modify, sat_bind, sat_zoom]
        refine ⟨fun _ => ?_, fun _ => ht1⟩
        exact sat_of_forall _ _ _ (fun _ _ => ⟨fun _ => hnew, fun _ => hnew⟩) (fun _ => hnew)

theorem byte_writes_keep (key : Key) (b : Bucket) (c : Conn) (P : Bucket → Prop) (hP : P b)
    (hset : ∀ (b1 : Bucket) (v : GoSlice), P b1 → P (b1.setBytes key v))
    (hdel : ∀ b1 : Bucket, P b1 → P (b1.delBytes key)) :
    (Store.SetBytes key ⟨b, c⟩).sat (fun _ s => P s.bucket) (fun s => P s.bucket) ∧
    (Store.DelBytes key ⟨b, c⟩).sat (fun _ s => P s.bucket) (fun s => P s.bucket) ∧
    (Store.TruncateBytes key ⟨b, c⟩).sat (fun _ s => P s.bucket) (fun s => P s.bucket) := by
  refine ⟨?_, ?_, ?_⟩
  · simp only [Store.SetBytes, Proc.bind_eq, sat_bind, onConn, sat_zoom, check, sat_try, sat_modify]
    repeat' (first
      | exact hP
      | exact hset _ _ hP
      | exact hdel _ hP
      | simp only [sat_bind, sat_zoom, sat_try, sat_pure, sat_raise, sat_get, sat_modify, sat_slice,
          check]
      | split
      | refine ⟨fun _ => ?_, fun _ => ?_⟩
      | refine sat_of_forall _ _ _ (fun _ _ => ?_) (fun _ => ?_))
  · simp only [Store.DelBytes, Proc.bind_eq, sat_bind, sat_get, onConn]
    cases b.bytedata key <;>
    repeat' (first
      | exact hP
      | exact hset _ _ hP
      | exact hdel _ hP
      | simp only [sat_bind, sat_zoom, sat_try, sat_pure, sat_raise, sat_get, sat_modify, sat_slice,
          check]
      | split
      | refine ⟨fun _ => ?_, fun _ => ?_⟩
      | refine sat_of_forall _ _ _ (fun _ _ => ?_) (fun _ => ?_))
  · simp only [Store.TruncateBytes, Proc.bind_eq, sat_bind, sat_get, onConn, sat_zoom, check, sat_try]
    refine sat_of_forall _ _ _ (fun a c1 => ⟨fun _ => ?_, fun _ => hP⟩) (fun _ => hP)
    cases b.bytedata key <;>
    repeat' (first
      | exact hP
      | exact hset _ _ hP
      | exact hdel _ hP
      | simp only [sat_bind, sat_zoom, sat_try, sat_pure, sat_raise, sat_get, sat_modify, sat_slice,
          check]
      | split
      | refine ⟨fun _ => ?_, fun _ => ?_⟩
      | refine sat_of_forall _ _ _ (fun _ _ => ?_) (fun _ => ?_))

theorem uint_writes_keep (key : Key) (b : Bucket) (c : Conn) (P : Bucket → Prop) (hP : P b)
    (hset : ∀ (b1 : Bucket) (v : Nat), P b1 → P (b1.setUint key v))
    (hdel : ∀ b1 : Bucket, P b1 → P (b1.delUint key)) :
    (Store.SetUint key ⟨b, c⟩).sat (fun _ s => P s.bucket) (fun s => P s.bucket) ∧
    (Store.SetUintIfMax key ⟨b, c⟩).sat (fun _ s => P s.bucket) (fun s => P s.bucket) ∧
    (Store.DelUint key ⟨b, c⟩).sat (fun _ s => P s.bucket) (fun s => P s.bucket) := by
  refine ⟨?_, ?_, ?_⟩
  · simp only [Store.SetUint, Proc.bind_eq, sat_bind, onConn, sat_zoom, check, sat_try, sat_modify]
    repeat' (first
      | exact hP
      | exact hset _ _ hP
      | exact hdel _ hP
      | simp only [sat_bind, sat_zoom, sat_try, sat_pure, sat_raise, sat_get, sat_modify, sat_slice,
          check]
      | split
      | refine ⟨fun _ => ?_, fun _ => ?_⟩
      | refine sat_of_forall _ _ _ (fun _ _ => ?_) (fun _ => ?_))
  · simp only [Store.SetUintIfMax, Proc.bind_eq, sat_bind, sat_get, onConn, sat_zoom, check, sat_try]
    refine sat_of_forall _ _ _ (fun a c1 => ⟨fun _ => ?_, fun _ => hP⟩) (fun _ => hP)
    cases b.uintdata key with
    | none =>
      repeat' (first
      | exact hP
      | exact hset _ _ hP
      | exact hdel _ hP
      | simp only [sat_bind, sat_zoom, sat_try, sat_pure, sat_raise, sat_get, sat_modify, sat_slice,
          check]
      | split
      | refine ⟨fun _ => ?_, fun _ => ?_⟩
      | refine sat_of_forall _ _ _ (fun _ _ => ?_) (fun _ => ?_))
    | some u =>
      dsimp only
      split
      · repeat' (first
      | exact hP
      | exact hset _ _ hP
      | exact hdel _ hP
      | simp only [sat_bind, sat_zoom, sat_try, sat_pure, sat_raise, sat_get, sat_modify, sat_slice,
          check]
      | split
      | refine ⟨fun _ => ?_, fun _ => ?_⟩
      | refine sat_of_forall _ _ _ (fun _ _ => ?_) (fun _ => ?_))
      · simp only [sat_bind, Proc.pure_eq, sat_pure, sat_zoom, sat_try]
        exact sat_of_forall _ _ _ (fun _ _ => ⟨fun _ => hP, fun _ => hP⟩) (fun _ => hP)
  · simp only [Store.DelUint, Proc.bind_eq, sat_bind, sat_get, onConn]
    cases b.uintdata key <;>
    repeat' (first
      | exact hP
      | exact hset _ _ hP
      | exact hdel _ hP
      | simp only [sat_bind, sat_zoom, sat_try, sat_pure, sat_raise, sat_get, sat_modify, sat_slice,
          check]
      | split
      | refine ⟨fun _ => ?_, fun _ => ?_⟩
      | refine sat_of_forall _ _ _ (fun _ _ => ?_) (fun _ => ?_))

/-- What a store operation does to its bucket carries over to the store. -/
theorem onBucket_sat (key : Key) (op : Proc BucketConn Unit) (st : Store) (c : Conn)
    (Q : Bucket → Bucket → Prop)
    (hop : ∀ b : Bucket, (op ⟨b, c⟩).sat (fun _ t => Q b t.bucket) (fun t => Q b t.bucket))
    (R : Store → Prop) (h0 : R st)
    (hR : ∀ b b1 : Bucket, st.getBucket key = some b → Q b b1 → R (st.withBucket key b1)) :
    (onBucket key op ⟨st, c⟩).sat (fun _ w => R w.store) (fun w => R w.store) := by
  cases hb : st.getBucket key with
  | none =>
    simp only [onBucket, hb]
    exact h0
  | some b =>
    rw [onBucket_run key op st c b hb]
    have h := hop b
    cases hr : op ⟨b, c⟩ with
    | ok a t =>
      rw [hr] at h
      exact hR b _ hb h
    | panic e t =>
      rw [hr] at h
      exact hR b _ hb h

theorem withBucket_frame (st : Store) (key other : Key) (b b1 : Bucket)
    (hb : st.getBucket key = some b)
    (h : b1.bytedata other = b.bytedata other ∧ b1.uintdata other = b.uintdata other) :
    (st.withBucket key b1).bytesAt other = st.bytesAt other ∧
    (st.withBucket key b1).uintAt other = st.uintAt other := by
  unfold Store.getBucket at hb
  by_cases hn : st.hash.Get other = st.hash.Get key
  · simp [Store.bytesAt, Store.uintAt, Store.getBucket, Store.withBucket, hn, hb, h.1, h.2]
  · simp [Store.bytesAt, Store.uintAt, Store.getBucket, Store.withBucket, Function.update_noteq hn]

/-- Each of the twelve store operations on `key` leaves the two entries of
every other key of the bucket as they were, whether it returns or panics. The
operations are listed in the order of the `switch` of `handleRequest`. -/
theorem operations_frame (grow : Nat → Nat → Nat) (key other : Key) (b : Bucket) (c : Conn)
    (hne : other ≠ key) :
    (Store.GetBytes key ⟨b, c⟩).sat (fun _ s => s.bucket.bytedata other = b.bytedata other ∧ s.bucket.uintdata other = b.uintdata other)
      (fun s => s.bucket.bytedata other = b.bytedata other ∧ s.bucket.uintdata other = b.uintdata other) ∧
    (Store.GetBytesInto key ⟨b, c⟩).sat (fun _ s => s.bucket.bytedata other = b.bytedata other ∧ s.bucket.uintdata other = b.uintdata other)
      (fun s => s.bucket.bytedata other = b.bytedata other ∧ s.bucket.uintdata other = b.uintdata other) ∧
    (Store.GetBytesRange key ⟨b, c⟩).sat (fun _ s => s.bucket.bytedata other = b.bytedata other ∧ s.bucket.uintdata other = b.uintdata other)
      (fun s => s.bucket.bytedata other = b.bytedata other ∧ s.bucket.uintdata other = b.uintdata other) ∧
    (Store.GetBytesRangeInto key ⟨b, c⟩).sat (fun _ s => s.bucket.bytedata other = b.bytedata other ∧ s.bucket.uintdata other = b.uintdata other)
      (fun s => s.bucket.bytedata other = b.bytedata other ∧ s.bucket.uintdata other = b.uintdata other) ∧
    (Store.SetBytes key ⟨b, c⟩).sat (fun _ s => s.bucket.bytedata other = b.bytedata other ∧ s.bucket.uintdata other = b.uintdata other)
      (fun s => s.bucket.bytedata other = b.bytedata other ∧ s.bucket.uintdata other = b.uintdata other) ∧
    (Store.SetBytesRange grow key ⟨b, c⟩).sat (fun _ s => s.bucket.bytedata other = b.bytedata other ∧ s.bucket.uintdata other = b.uintdata other)
      (fun s => s.bucket.bytedata other = b.bytedata other ∧ s.bucket.uintdata other = b.uintdata other) ∧
    (Store.DelBytes key ⟨b, c⟩).sat (fun _ s => s.bucket.bytedata other = b.bytedata other ∧ s.bucket.uintdata other = b.uintdata other)
      (fun s => s.bucket.bytedata other = b.bytedata other ∧ s.bucket.uintdata other = b.uintdata other) ∧
    (Store.TruncateBytes key ⟨b, c⟩).sat (fun _ s => s.bucket.bytedata other = b.bytedata other ∧ s.bucket.uintdata other = b.uintdata other)
      (fun s => s.bucket.bytedata other = b.bytedata other ∧ s.bucket.uintdata other = b.uintdata other) ∧
    (Store.SetUint key ⟨b, c⟩).sat (fun _ s => s.bucket.bytedata other = b.bytedata other ∧ s.bucket.uintdata other = b.uintdata other)
      (fun s => s.bucket.bytedata other = b.bytedata other ∧ s.bucket.uintdata other = b.uintdata other) ∧
    (Store.GetUint key ⟨b, c⟩).sat (fun _ s => s.bucket.bytedata other = b.bytedata other ∧ s.bucket.uintdata other = b.uintdata other)
      (fun s => s.bucket.bytedata other = b.bytedata other ∧ s.bucket.uintdata other = b.uintdata other) ∧
    (Store.DelUint key ⟨b, c⟩).sat (fun _ s => s.bucket.bytedata other = b.bytedata other ∧ s.bucket.uintdata other = b.uintdata other)
      (fun s => s.bucket.bytedata other = b.bytedata other ∧ s.bucket.uintdata other = b.uintdata other) ∧
    (Store.SetUintIfMax key ⟨b, c⟩).sat (fun _ s => s.bucket.bytedata other = b.bytedata other ∧ s.bucket.uintdata other = b.uintdata other)
      (fun s => s.bucket.bytedata other = b.bytedata other ∧ s.bucket.uintdata other = b.uintdata other) := by
  have hr := reads_keep_bucket key b c
  have keep : ∀ (r : Res BucketConn Unit),
      r.sat (fun _ s => s.bucket = b) (fun s => s.bucket = b) →
      r.sat (fun _ s => s.bucket.bytedata other = b.bytedata other ∧
          s.bucket.uintdata other = b.uintdata other)
        (fun s => s.bucket.bytedata other = b.bytedata other ∧
          s.bucket.uintdata other = b.uintdata other) := fun r h =>
    sat_mono r _ _ _ _ h (fun _ s hs => by rw [hs]; exact ⟨rfl, rfl⟩)
      (fun s hs => by rw [hs]; exact ⟨rfl, rfl⟩)
  have hsetB : ∀ (b1 : Bucket) (v : GoSlice),
      (b1.bytedata other = b.bytedata other ∧ b1.uintdata other = b.uintdata other) →
      ((b1.setBytes key v).bytedata other = b.bytedata other ∧
        (b1.setBytes key v).uintdata other = b.uintdata other) := by
    intro b1 v h
    simpa [Bucket.setBytes, Function.update_noteq hne] using h
  have hdelB : ∀ b1 : Bucket,
      (b1.bytedata other = b.bytedata other ∧ b1.uintdata other = b.uintdata other) →
      ((b1.delBytes key).bytedata other = b.bytedata other ∧
        (b1.delBytes key).uintdata other = b.uintdata other) := by
    intro b1 h
    simpa [Bucket.delBytes, Function.update_noteq hne] using h
  have hsetU : ∀ (b1 : Bucket) (v : Nat),
      (b1.bytedata other = b.bytedata other ∧ b1.uintdata other = b.uintdata other) →
      ((b1.setUint key v).bytedata other = b.bytedata other ∧
        (b1.setUint key v).uintdata other = b.uintdata other) := by
    intro b1 v h
    simpa [Bucket.setUint, Function.update_noteq hne] using h
  have hdelU : ∀ b1 : Bucket,
      (b1.bytedata other = b.bytedata other ∧ b1.uintdata other = b.uintdata other) →
      ((b1.delUint key).bytedata other = b.bytedata other ∧
        (b1.delUint key).uintdata other = b.uintdata other) := by
    intro b1 h
    simpa [Bucket.delUint, Function.update_noteq hne] using h
  have hw := byte_writes_keep key b c
    (fun b1 => b1.bytedata other = b.bytedata other ∧ b1.uintdata other = b.uintdata other)
    ⟨rfl, rfl⟩ hsetB hdelB
  have hu := uint_writes_keep key b c
    (fun b1 => b1.bytedata other = b.bytedata other ∧ b1.uintdata other = b.uintdata other)
    ⟨rfl, rfl⟩ hsetU hdelU
  exact ⟨keep _ hr.1, keep _ hr.2.1, keep _ hr.2.2.1, keep _ hr.2.2.2.1, hw.1,
    SetBytesRange_keeps grow key b c
      (fun b1 => b1.bytedata other = b.bytedata other ∧ b1.uintdata other = b.uintdata other)
      ⟨rfl, rfl⟩ hsetB,
    hw.2.1, hw.2.2, hu.1, keep _ hr.2.2.2.2, hu.2.2, hu.2.1⟩

/-- The `switch` of `handleRequest` runs one of the twelve store operations on
the bucket of the key, or panics on an unknown command. -/
theorem dispatch_shape (grow : Nat → Nat → Nat) (cmd : Message) (key : Key) :
    (∃ op : Proc BucketConn Unit,
      (op = Store.GetBytes key ∨
      op = Store.GetBytesInto key ∨
      op = Store.GetBytesRange key ∨
      op = Store.GetBytesRangeInto key ∨
      op = Store.SetBytes key ∨
      op = Store.SetBytesRange grow key ∨
      op = Store.DelBytes key ∨
      op = Store.TruncateBytes key ∨
      op = Store.SetUint key ∨
      op = Store.GetUint key ∨
      op = Store.DelUint key ∨
      op = Store.SetUintIfMax key) ∧
      Store.handleRequest.dispatch grow cmd key = onBucket key op) ∨
    Store.handleRequest.dispatch grow cmd key = Proc.raise (Panic.unknownCommand cmd) := by
  by_cases h0 : cmd = getBytesCmd
  · subst h0
    exact Or.inl ⟨_, Or.inl rfl, (dispatch_cases grow key).1⟩
  by_cases h1 : cmd = getBytesIntoCmd
  · subst h1
    exact Or.inl ⟨_, Or.inr (Or.inl rfl), (dispatch_cases grow key).2.1⟩
  by_cases h2 : cmd = getBytesRangeCmd
  · subst h2
    exact Or.inl ⟨_, Or.inr (Or.inr (Or.inl rfl)), (dispatch_cases grow key).2.2.1⟩
  by_cases h3 : cmd = getBytesRangeIntoCmd
  · subst h3
    exact Or.inl ⟨_, Or.inr (Or.inr (Or.inr (Or.inl rfl))), (dispatch_cases grow key).2.2.2.1⟩
  by_cases h4 : cmd = setBytesCmd
  · subst h4
    exact Or.inl ⟨_, Or.inr (Or.inr (Or.inr (Or.inr (Or.inl rfl)))), (dispatch_cases grow key).2.2.2.2.1⟩
  by_cases h5 : cmd = setBytesRangeCmd
  · subst h5
    exact Or.inl ⟨_, Or.inr (Or.inr (Or.inr (Or.inr (Or.inr (Or.inl rfl))))), (dispatch_cases grow key).2.2.2.2.2.1⟩
  by_cases h6 : cmd = delBytesCmd
  · subst h6
    exact Or.inl ⟨_, Or.inr (Or.inr (Or.inr (Or.inr (Or.inr (Or.inr (Or.inl rfl)))))), (dispatch_cases grow key).2.2.2.2.2.2.1⟩
  by_cases h7 : cmd = truncateBytesCmd
  · subst h7
    exact Or.inl ⟨_, Or.inr (Or.inr (Or.inr (Or.inr (Or.inr (Or.inr (Or.inr (Or.inl rfl))))))), (dispatch_cases grow key).2.2.2.2.2.2.2.1⟩
  by_cases h8 : cmd = setUintCmd
  · subst h8
    exact Or.inl ⟨_, Or.inr (Or.inr (Or.inr (Or.inr (Or.inr (Or.inr (Or.inr (Or.inr (Or.inl rfl)))))))), (dispatch_cases grow key).2.2.2.2.2.2.2.2.1⟩
  by_cases h9 : cmd = getUintCmd
  · subst h9
    exact Or.inl ⟨_, Or.inr (Or.inr (Or.inr (Or.inr (Or.inr (Or.inr (Or.inr (Or.inr (Or.inr (Or.inl rfl))))))))), (dispatch_cases grow key).2.2.2.2.2.2.2.2.2.1⟩
  by_cases h10 : cmd = delUintCmd
  · subst h10
    exact Or.inl ⟨_, Or.inr (Or.inr (Or.inr (Or.inr (Or.inr (Or.inr (Or.inr (Or.inr (Or.inr (Or.inr (Or.inl rfl)))))))))), (dispatch_cases grow key).2.2.2.2.2.2.2.2.2.2.1⟩
  by_cases h11 : cmd = setUintIfMaxCmd
  · subst h11
    exact Or.inl ⟨_, Or.inr (Or.inr (Or.inr (Or.inr (Or.inr (Or.inr (Or.inr (Or.inr (Or.inr (Or.inr (Or.inr (rfl))))))))))), (dispatch_cases grow key).2.2.2.2.2.2.2.2.2.2.2⟩
  right
  simp only [Store.handleRequest.dispatch, h0, h1, h2, h3, h4, h5, h6, h7, h8, h9, h10, h11, if_false]

/-- Whatever command is dispatched on `key`, the store holds for every other
key what it held before, whether the handler returns or panics. -/
theorem dispatch_frame (grow : Nat → Nat → Nat) (cmd : Message) (key other : Key) (st : Store)
    (c : Conn) (hne : other ≠ key) :
    (Store.handleRequest.dispatch grow cmd key ⟨st, c⟩).sat
      (fun _ w => w.store.bytesAt other = st.bytesAt other ∧ w.store.uintAt other = st.uintAt other)
      (fun w => w.store.bytesAt other = st.bytesAt other ∧ w.store.uintAt other = st.uintAt other) := by
  have hall := fun b : Bucket => operations_frame grow key other b c hne
  have lift : ∀ op : Proc BucketConn Unit,
      (∀ b : Bucket, (op ⟨b, c⟩).sat
        (fun _ s => s.bucket.bytedata other = b.bytedata other ∧
          s.bucket.uintdata other = b.uintdata other)
        (fun s => s.bucket.bytedata other = b.bytedata other ∧
          s.bucket.uintdata other = b.uintdata other)) →
      (onBucket key op ⟨st, c⟩).sat
        (fun _ w => w.store.bytesAt other = st.bytesAt other ∧
          w.store.uintAt other = st.uintAt other)
        (fun w => w.store.bytesAt other = st.bytesAt other ∧
          w.store.uintAt other = st.uintAt other) := fun op hop =>
    onBucket_sat key op st c
      (fun b b1 => b1.bytedata other = b.bytedata other ∧ b1.uintdata other = b.uintdata other) hop
      (fun st1 => st1.bytesAt other = st.bytesAt other ∧ st1.uintAt other = st.uintAt other)
      ⟨rfl, rfl⟩ (fun b b1 hb h => withBucket_frame st key other b b1 hb h)
  rcases dispatch_shape grow cmd key with ⟨op, hop, heq⟩ | heq <;> rw [heq]
  · rcases hop with rfl | rfl | rfl | rfl | rfl | rfl | rfl | rfl | rfl | rfl | rfl | rfl
    · exact lift _ (fun b => (hall b).1)
    · exact lift _ (fun b => (hall b).2.1)
    · exact lift _ (fun b => (hall b).2.2.1)
    · exact lift _ (fun b => (hall b).2.2.2.1)
    · exact lift _ (fun b => (hall b).2.2.2.2.1)
    · exact lift _ (fun b => (hall b).2.2.2.2.2.1)
    · exact lift _ (fun b => (hall b).2.2.2.2.2.2.1)
    · exact lift _ (fun b => (hall b).2.2.2.2.2.2.2.1)
    · exact lift _ (fun b => (hall b).2.2.2.2.2.2.2.2.1)
    · exact lift _ (fun b => (hall b).2.2.2.2.2.2.2.2.2.1)
    · exact lift _ (fun b => (hall b).2.2.2.2.2.2.2.2.2.2.1)
    · exact lift _ (fun b => (hall b).2.2.2.2.2.2.2.2.2.2.2)
  · exact ⟨rfl, rfl⟩

/-- A get-style command leaves the whole store as it was. -/
theorem dispatch_get_keeps_store (grow : Nat → Nat → Nat) (cmd : Message) (key : Key) (st : Store)
    (c : Conn)
    (hcmd : cmd = getBytesCmd ∨ cmd = getBytesIntoCmd ∨ cmd = getBytesRangeCmd ∨
      cmd = getBytesRangeIntoCmd ∨ cmd = getUintCmd) :
    (Store.handleRequest.dispatch grow cmd key ⟨st, c⟩).sat (fun _ w => w.store = st)
      (fun w => w.store = st) := by
  have hr := fun b : Bucket => reads_keep_bucket key b c
  have lift : ∀ op : Proc BucketConn Unit,
      (∀ b : Bucket, (op ⟨b, c⟩).sat (fun _ s => s.bucket = b) (fun s => s.bucket = b)) →
      (onBucket key op ⟨st, c⟩).sat (fun _ w => w.store = st) (fun w => w.store = st) :=
    fun op hop =>
      onBucket_sat key op st c (fun b b1 => b1 = b) hop (fun st1 => st1 = st) rfl
        (fun b b1 hb h => by rw [h]; exact withBucket_self st key b hb)
  have hd := dispatch_cases grow key
  rcases hcmd with h | h | h | h | h
  · rw [h, hd.1]
    exact lift _ (fun b => (hr b).1)
  · rw [h, hd.2.1]
    exact lift _ (fun b => (hr b).2.1)
  · rw [h, hd.2.2.1]
    exact lift _ (fun b => (hr b).2.2.1)
  · rw [h, hd.2.2.2.1]
    exact lift _ (fun b => (hr b).2.2.2.1)
  · rw [h, hd.2.2.2.2.2.2.2.2.2.1]
    exact lift _ (fun b => (hr b).2.2.2.2)

/-- C27. Frame. For every store operation on a key `key`, every bucket and
every connection contents, and every key `other` different from `key`: the byte
value and the integer of `other` in that bucket (or their absence) are after
the operation what they were before, whether the operation returns or panics.
The five get operations leave the whole bucket as it was. For the store as a
whole: whatever command the handler dispatches on `key`, the store holds for
`other` what it held before, also when `other` lives in another bucket; and
the five get commands leave the whole store unchanged. -/
theorem C27_frame (grow : Nat → Nat → Nat) (key other : Key) (b : Bucket) (c : Conn)
    (hne : other ≠ key) :
    (      (Store.GetBytes key ⟨b, c⟩).sat
        (fun _ s => s.bucket.bytedata other = b.bytedata other ∧
          s.bucket.uintdata other = b.uintdata other)
        (fun s => s.bucket.bytedata other = b.bytedata other ∧
          s.bucket.uintdata other = b.uintdata other) ∧
      (Store.GetBytesInto key ⟨b, c⟩).sat
        (fun _ s => s.bucket.bytedata other = b.bytedata other ∧
          s.bucket.uintdata other = b.uintdata other)
        (fun s => s.bucket.bytedata other = b.bytedata other ∧
          s.bucket.uintdata other = b.uintdata other) ∧
      (Store.GetBytesRange key ⟨b, c⟩).sat
        (fun _ s => s.bucket.bytedata other = b.bytedata other ∧
          s.bucket.uintdata other = b.uintdata other)
        (fun s => s.bucket.bytedata other = b.bytedata other ∧
          s.bucket.uintdata other = b.uintdata other) ∧
      (Store.GetBytesRangeInto key ⟨b, c⟩).sat
        (fun _ s => s.bucket.bytedata other = b.bytedata other ∧
          s.bucket.uintdata other = b.uintdata other)
        (fun s => s.bucket.bytedata other = b.bytedata other ∧
          s.bucket.uintdata other = b.uintdata other) ∧
      (Store.SetBytes key ⟨b, c⟩).sat
        (fun _ s => s.bucket.bytedata other = b.bytedata other ∧
          s.bucket.uintdata other = b.uintdata other)
        (fun s => s.bucket.bytedata other = b.bytedata other ∧
          s.bucket.uintdata other = b.uintdata other) ∧
      (Store.SetBytesRange grow key ⟨b, c⟩).sat
        (fun _ s => s.bucket.bytedata other = b.bytedata other ∧
          s.bucket.uintdata other = b.uintdata other)
        (fun s => s.bucket.bytedata other = b.bytedata other ∧
          s.bucket.uintdata other = b.uintdata other) ∧
      (Store.DelBytes key ⟨b, c⟩).sat
        (fun _ s => s.bucket.bytedata other = b.bytedata other ∧
          s.bucket.uintdata other = b.uintdata other)
        (fun s => s.bucket.bytedata other = b.bytedata other ∧
          s.bucket.uintdata other = b.uintdata other) ∧
      (Store.TruncateBytes key ⟨b, c⟩).sat
        (fun _ s => s.bucket.bytedata other = b.bytedata other ∧
          s.bucket.uintdata other = b.uintdata other)
        (fun s => s.bucket.bytedata other = b.bytedata other ∧
          s.bucket.uintdata other = b.uintdata other) ∧
      (Store.SetUint key ⟨b, c⟩).sat
        (fun _ s => s.bucket.bytedata other = b.bytedata other ∧
          s.bucket.uintdata other = b.uintdata other)
        (fun s => s.bucket.bytedata other = b.bytedata other ∧
          s.bucket.uintdata other = b.uintdata other) ∧
      (Store.GetUint key ⟨b, c⟩).sat
        (fun _ s => s.bucket.bytedata other = b.bytedata other ∧
          s.bucket.uintdata other = b.uintdata other)
        (fun s => s.bucket.bytedata other = b.bytedata other ∧
          s.bucket.uintdata other = b.uintdata other) ∧
      (Store.DelUint key ⟨b, c⟩).sat
        (fun _ s => s.bucket.bytedata other = b.bytedata other ∧
          s.bucket.uintdata other = b.uintdata other)
        (fun s => s.bucket.bytedata other = b.bytedata other ∧
          s.bucket.uintdata other = b.uintdata other) ∧
      (Store.SetUintIfMax key ⟨b, c⟩).sat
        (fun _ s => s.bucket.bytedata other = b.bytedata other ∧
          s.bucket.uintdata other = b.uintdata other)
        (fun s => s.bucket.bytedata other = b.bytedata other ∧
          s.bucket.uintdata other = b.uintdata other)) ∧
    (      (Store.GetBytes key ⟨b, c⟩).sat (fun _ s => s.bucket = b) (fun s => s.bucket = b) ∧
      (Store.GetBytesInto key ⟨b, c⟩).sat (fun _ s => s.bucket = b) (fun s => s.bucket = b) ∧
      (Store.GetBytesRange key ⟨b, c⟩).sat (fun _ s => s.bucket = b) (fun s => s.bucket = b) ∧
      (Store.GetBytesRangeInto key ⟨b, c⟩).sat (fun _ s => s.bucket = b) (fun s => s.bucket = b) ∧
      (Store.GetUint key ⟨b, c⟩).sat (fun _ s => s.bucket = b) (fun s => s.bucket = b)) ∧
    (∀ (cmd : Message) (st : Store),
      (Store.handleRequest.dispatch grow cmd key ⟨st, c⟩).sat
        (fun _ w => w.store.bytesAt other = st.bytesAt other ∧
          w.store.uintAt other = st.uintAt other)
        (fun w => w.store.bytesAt other = st.bytesAt other ∧
          w.store.uintAt other = st.uintAt other)) ∧
    (∀ (cmd : Message) (st : Store),
      (cmd = getBytesCmd ∨ cmd = getBytesIntoCmd ∨ cmd = getBytesRangeCmd ∨
        cmd = getBytesRangeIntoCmd ∨ cmd = getUintCmd) →
      (Store.handleRequest.dispatch grow cmd key ⟨st, c⟩).sat (fun _ w => w.store = st)
        (fun w => w.store = st)) :=
  ⟨operations_frame grow key other b c hne, reads_keep_bucket key b c,
    fun cmd st => dispatch_frame grow cmd key other st c hne,
    fun cmd st hcmd => dispatch_get_keeps_store grow cmd key st c hcmd⟩

/-- An instance of C27: a `SetBytes` request on the key `f` with payload `1`
leaves the value `5` that the bucket holds for the key `g`. -/
theorem C27_frame_witness :
    (Store.SetBytes [102]
        ⟨Bucket.empty.setBytes [103] ⟨[5], []⟩, ⟨lenPrefixed [1], [], []⟩⟩).sat
      (fun _ s => s.bucket.bytedata [103] = (Bucket.empty.setBytes [103] ⟨[5], []⟩).bytedata [103] ∧
        s.bucket.uintdata [103] = (Bucket.empty.setBytes [103] ⟨[5], []⟩).uintdata [103])
      (fun s => s.bucket.bytedata [103] = (Bucket.empty.setBytes [103] ⟨[5], []⟩).bytedata [103] ∧
        s.bucket.uintdata [103] = (Bucket.empty.setBytes [103] ⟨[5], []⟩).uintdata [103]) :=
  (C27_frame (fun _ n => n) [102] [103] (Bucket.empty.setBytes [103] ⟨[5], []⟩)
    ⟨lenPrefixed [1], [], []⟩ (by decide)).1.2.2.2.2.1

/-! ## C21: the end of the stream inside a request -/

theorem take_word (a : Nat) (r : List Byte) (m : Nat) :
    (m < 4 → ((PutUint32 a ++ r).take m).length < 4) ∧
    (4 ≤ m → (PutUint32 a ++ r).take m = PutUint32 a ++ r.take (m - 4)) := by
  constructor
  · intro h
    rw [List.length_take]
    omega
  · intro h
    rw [List.take_append_eq_append_take]
    have hl : (PutUint32 a).length = 4 := rfl
    rw [hl, List.take_of_length_le (by rw [hl]; exact h)]

theorem panicsWith_eof {σ α : Type} (r : Res σ α) (q : List Byte) (s : σ) (P : Panic → Prop)
    (h : r = Res.panic (Panic.err (if q = [] then Err.EOF else Err.ErrUnexpectedEOF)) s)
    (h1 : P (Panic.err Err.EOF)) (h2 : P (Panic.err Err.ErrUnexpectedEOF)) : r.panicsWith P := by
  rw [h]
  by_cases h0 : q = []
  · simp only [h0, if_true, Res.panicsWith]
    exact h1
  · simp only [h0, if_false, Res.panicsWith]
    exact h2

/-- The operations whose first field is a 32-bit word, on fewer than four
bytes: they panic for the end of the stream, and the bucket is as it was. -/
theorem first_word_short (grow : Nat → Nat → Nat) (key : Key) (b : Bucket) (q out : List Byte)
    (w : List Bool) (hq : q.length < 4) :
    Store.GetBytesInto key ⟨b, ⟨q, out, w⟩⟩ =
      Res.panic (Panic.err (if q = [] then Err.EOF else Err.ErrUnexpectedEOF)) ⟨b, ⟨[], out, w⟩⟩ ∧
    Store.GetBytesRange key ⟨b, ⟨q, out, w⟩⟩ =
      Res.panic (Panic.err (if q = [] then Err.EOF else Err.ErrUnexpectedEOF)) ⟨b, ⟨[], out, w⟩⟩ ∧
    Store.GetBytesRangeInto key ⟨b, ⟨q, out, w⟩⟩ =
      Res.panic (Panic.err (if q = [] then Err.EOF else Err.ErrUnexpectedEOF)) ⟨b, ⟨[], out, w⟩⟩ ∧
    Store.SetBytes key ⟨b, ⟨q, out, w⟩⟩ =
      Res.panic (Panic.err (if q = [] then Err.EOF else Err.ErrUnexpectedEOF)) ⟨b, ⟨[], out, w⟩⟩ ∧
    Store.SetBytesRange grow key ⟨b, ⟨q, out, w⟩⟩ =
      Res.panic (Panic.err (if q = [] then Err.EOF else Err.ErrUnexpectedEOF)) ⟨b, ⟨[], out, w⟩⟩ ∧
    Store.TruncateBytes key ⟨b, ⟨q, out, w⟩⟩ =
      Res.panic (Panic.err (if q = [] then Err.EOF else Err.ErrUnexpectedEOF)) ⟨b, ⟨[], out, w⟩⟩ ∧
    Store.SetUint key ⟨b, ⟨q, out, w⟩⟩ =
      Res.panic (Panic.err (if q = [] then Err.EOF else Err.ErrUnexpectedEOF)) ⟨b, ⟨[], out, w⟩⟩ ∧
    Store.SetUintIfMax key ⟨b, ⟨q, out, w⟩⟩ =
      Res.panic (Panic.err (if q = [] then Err.EOF else Err.ErrUnexpectedEOF)) ⟨b, ⟨[], out, w⟩⟩ := by
  have hr := readUint32_short q out w hq
  by_cases h0 : q = []
  · rw [if_pos h0] at hr
    simp only [if_pos h0]
    refine ⟨?_, ?_, ?_, ?_, ?_, ?_, ?_, ?_⟩
    · simp [Store.GetBytesInto, Proc.bind, onConn_run, hr, check, try_, Proc.raise]
    · simp [Store.GetBytesRange, Proc.bind, onConn_run, hr, check, try_, Proc.raise]
    · simp [Store.GetBytesRangeInto, Proc.bind, onConn_run, hr, check, try_, Proc.raise]
    · simp [Store.SetBytes, readBytes, Proc.bind, onConn_run, hr, check, try_, Proc.raise, Proc.pure]
    · simp [Store.SetBytesRange, Proc.bind, onConn_run, hr, check, try_, Proc.raise]
    · simp [Store.TruncateBytes, Proc.bind, onConn_run, hr, check, try_, Proc.raise]
    · simp [Store.SetUint, Proc.bind, onConn_run, hr, check, try_, Proc.raise]
    · simp [Store.SetUintIfMax, Proc.bind, onConn_run, hr, check, try_, Proc.raise]
  · rw [if_neg h0] at hr
    simp only [if_neg h0]
    refine ⟨?_, ?_, ?_, ?_, ?_, ?_, ?_, ?_⟩
    · simp [Store.GetBytesInto, Proc.bind, onConn_run, hr]
    · simp [Store.GetBytesRange, Proc.bind, onConn_run, hr]
    · simp [Store.GetBytesRangeInto, Proc.bind, onConn_run, hr]
    · simp [Store.SetBytes, readBytes, Proc.bind, onConn_run, hr]
    · simp [Store.SetBytesRange, Proc.bind, onConn_run, hr]
    · simp [Store.TruncateBytes, Proc.bind, onConn_run, hr]
    · simp [Store.SetUint, Proc.bind, onConn_run, hr]
    · simp [Store.SetUintIfMax, Proc.bind, onConn_run, hr]

/-- The operations with a second 32-bit word, when fewer than four bytes follow
the first word. -/
theorem second_word_short (grow : Nat → Nat → Nat) (key : Key) (b : Bucket) (a : Nat)
    (q out : List Byte) (w : List Bool) (ha : a < 2 ^ 32) (hq : q.length < 4) :
    Store.GetBytesRange key ⟨b, ⟨PutUint32 a ++ q, out, w⟩⟩ =
      Res.panic (Panic.err (if q = [] then Err.EOF else Err.ErrUnexpectedEOF)) ⟨b, ⟨[], out, w⟩⟩ ∧
    Store.GetBytesRangeInto key ⟨b, ⟨PutUint32 a ++ q, out, w⟩⟩ =
      Res.panic (Panic.err (if q = [] then Err.EOF else Err.ErrUnexpectedEOF)) ⟨b, ⟨[], out, w⟩⟩ ∧
    Store.SetBytesRange grow key ⟨b, ⟨PutUint32 a ++ q, out, w⟩⟩ =
      Res.panic (Panic.err (if q = [] then Err.EOF else Err.ErrUnexpectedEOF)) ⟨b, ⟨[], out, w⟩⟩ := by
  have hr := readUint32_short q out w hq
  have h1 := readUint32_ok a ha q out w
  by_cases h0 : q = []
  · rw [if_pos h0] at hr
    simp only [if_pos h0]
    refine ⟨?_, ?_, ?_⟩
    · simp only [Store.GetBytesRange, Proc.bind_eq, Proc.bind, onConn_run, h1, check, try_,
        Proc.pure, hr, Proc.raise]
    · simp only [Store.GetBytesRangeInto, Proc.bind_eq, Proc.bind, onConn_run, h1, check, try_,
        Proc.pure, hr, Proc.raise]
    · simp only [Store.SetBytesRange, Proc.bind_eq, Proc.bind, onConn_run, h1, check, try_,
        Proc.pure, hr, Proc.raise]
  · rw [if_neg h0] at hr
    simp only [if_neg h0]
    refine ⟨?_, ?_, ?_⟩
    · simp only [Store.GetBytesRange, Proc.bind_eq, Proc.bind, onConn_run, h1, check, try_,
        Proc.pure, hr]
    · simp only [Store.GetBytesRangeInto, Proc.bind_eq, Proc.bind, onConn_run, h1, check, try_,
        Proc.pure, hr]
    · simp only [Store.SetBytesRange, Proc.bind_eq, Proc.bind, onConn_run, h1, check, try_,
        Proc.pure, hr]

/-- `GetBytesRangeInto` when fewer than four bytes follow its first two words. -/
theorem third_word_short (key : Key) (b : Bucket) (a e : Nat)
    (q out : List Byte) (w : List Bool) (ha : a < 2 ^ 32) (he : e < 2 ^ 32) (hq : q.length < 4) :
    Store.GetBytesRangeInto key ⟨b, ⟨PutUint32 a ++ (PutUint32 e ++ q), out, w⟩⟩ =
      Res.panic (Panic.err (if q = [] then Err.EOF else Err.ErrUnexpectedEOF))
        ⟨b, ⟨[], out, w⟩⟩ := by
  have hr := readUint32_short q out w hq
  have h1 := readUint32_ok a ha (PutUint32 e ++ q) out w
  have h2 := readUint32_ok e he q out w
  by_cases h0 : q = []
  · rw [if_pos h0] at hr
    simp only [if_pos h0]
    simp only [Store.GetBytesRangeInto, Proc.bind_eq, Proc.bind, onConn_run, h1, h2, check, try_,
      Proc.pure, hr, Proc.raise]
  · rw [if_neg h0] at hr
    simp only [if_neg h0]
    simp only [Store.GetBytesRangeInto, Proc.bind_eq, Proc.bind, onConn_run, h1, h2, check, try_,
      Proc.pure, hr]

/-- The payload of `SetBytesRange` is cut short: whatever the bucket holds for
the key, the operation panics, for the end of the stream or, when
`start + newSize` overflows, on a slice. -/
theorem SetBytesRange_payload_short (grow : Nat → Nat → Nat) (key : Key) (b : Bucket)
    (start n : Nat) (q out : List Byte) (w : List Bool)
    (hst : start < 2 ^ 32) (hn : n < 2 ^ 32) (hq : q.length < n) :
    (Store.SetBytesRange grow key ⟨b, ⟨PutUint32 start ++ (PutUint32 n ++ q), out, w⟩⟩).panicsWith
      (fun p => p = Panic.err Err.EOF ∨ p = Panic.err Err.ErrUnexpectedEOF ∨
        (p = Panic.sliceBounds ∧ 2 ^ 32 ≤ start + n)) := by
  have h1 := readUint32_ok start hst (PutUint32 n ++ q) out w
  have h2 := readUint32_ok n hn q out w
  cases hb : b.bytedata key with
  | none =>
    by_cases hov : start + n < 2 ^ 32
    · exact panicsWith_eof _ q _ _
        (SetBytesRange_absent_short grow key b start n q out w hb hov hq) (Or.inl rfl)
        (Or.inr (Or.inl rfl))
    · have hsl := slice_panic (σ := BucketConn) (GoSlice.make (add32 start n)) start
        (add32 start n) ⟨b, ⟨q, out, w⟩⟩ (by unfold add32; omega)
      simp only [Store.SetBytesRange, Proc.bind_eq, Proc.bind, onConn_run, h1, h2, check, try_,
        Proc.pure, Proc.get, hb, readFillLocal, hsl]
      exact Or.inr (Or.inr ⟨rfl, by omega⟩)
  | some s =>
    have hA : u32 s.len ≤ s.data.length := Nat.mod_le _ _
    have hcap : s.data.length ≤ s.cap := by unfold GoSlice.cap; omega
    by_cases hin : add32 start n ≤ u32 s.len
    · by_cases hlo : start ≤ add32 start n
      · have hwin : q.length < add32 start n - start := by unfold add32 at *; omega
        have hr := readFillStored_short key s start (add32 start n) b q out w hlo (by omega) hwin
        by_cases h0 : q = []
        · rw [if_pos h0] at hr
          simp only [Store.SetBytesRange, Proc.bind_eq, Proc.bind, onConn_run, h1, h2, check, try_,
            Proc.pure, Proc.get, hb, hin, if_true, hr, Proc.raise]
          exact Or.inl rfl
        · rw [if_neg h0] at hr
          simp only [Store.SetBytesRange, Proc.bind_eq, Proc.bind, onConn_run, h1, h2, check, try_,
            Proc.pure, Proc.get, hb, hin, if_true, hr]
          exact Or.inr (Or.inl rfl)
      · have hsl := slice_panic (σ := BucketConn) s start (add32 start n) ⟨b, ⟨q, out, w⟩⟩
          (fun h => hlo h.1)
        simp only [Store.SetBytesRange, Proc.bind_eq, Proc.bind, onConn_run, h1, h2, check, try_,
          Proc.pure, Proc.get, hb, hin, if_true, readFillStored, hsl]
        exact Or.inr (Or.inr ⟨rfl, by unfold add32 at hlo; omega⟩)
    · by_cases hB : start < u32 s.len
      · have hsum : start + n < 2 ^ 32 := by unfold add32 at hin; omega
        have hadd : add32 start n = start + n := add32_eq _ _ hsum
        rw [hadd] at hin
        by_cases hfirst : q.length < u32 s.len - start
        · have hr := readFillStored_short key s start (u32 s.len) b q out w (by omega) (by omega)
            hfirst
          by_cases h0 : q = []
          · rw [if_pos h0] at hr
            simp only [Store.SetBytesRange, Proc.bind_eq, Proc.bind, onConn_run, h1, h2, check,
              try_, Proc.pure, Proc.get, hb, hadd, hin, if_false, hB, if_true, hr, Proc.raise]
            exact Or.inl rfl
          · rw [if_neg h0] at hr
            simp only [Store.SetBytesRange, Proc.bind_eq, Proc.bind, onConn_run, h1, h2, check,
              try_, Proc.pure, Proc.get, hb, hadd, hin, if_false, hB, if_true, hr]
            exact Or.inr (Or.inl rfl)
        · have hsplit : q = q.take (u32 s.len - start) ++ q.drop (u32 s.len - start) :=
            (List.take_append_drop _ _).symm
          have hf1 := readFillStored_ok key s start (u32 s.len) b (q.take (u32 s.len - start))
            (q.drop (u32 s.len - start)) out w (by omega) hA
            (by rw [List.length_take]; omega)
          rw [← hsplit] at hf1
          have hk1 : sub32 (u32 s.len) start = u32 s.len - start := sub32_eq _ _ (by omega) (by omega)
          have hk2 : sub32 n (u32 s.len - start) = n - (u32 s.len - start) :=
            sub32_eq _ _ (by omega) hn
          have hk3 : add32 (u32 s.len) (n - (u32 s.len - start)) = start + n := by
            rw [add32_eq _ _ (by omega)]; omega
          have hk4 : sub32 (start + n) (u32 s.len) = n - (u32 s.len - start) := by
            rw [sub32_eq _ _ (by omega) hsum]; omega
          have hk5 : sub32 (n - (u32 s.len - start)) (n - (u32 s.len - start)) = 0 := by
            rw [sub32_eq _ _ (by omega) (by omega)]; omega
          have hf2 := readFillLocal_short (GoSlice.make (n - (u32 s.len - start))) 0
            (n - (u32 s.len - start))
            (b.setBytes key (s.patch start (q.take (u32 s.len - start))))
            (q.drop (u32 s.len - start)) out w (by omega) (by simp [GoSlice.make, GoSlice.cap])
            (by rw [List.length_drop]; omega)
          by_cases h0 : q.drop (u32 s.len - start) = []
          · rw [if_pos h0] at hf2
            simp only [Store.SetBytesRange, Proc.bind_eq, Proc.bind, onConn_run, h1, h2, check,
              try_, Proc.pure, Proc.get, hb, hadd, hin, if_false, hB, if_true, hf1, setBytes_get,
              Option.getD_some, hk1, hk2, hk3, hk4, hk5, hf2, Proc.raise]
            exact Or.inl rfl
          · rw [if_neg h0] at hf2
            simp only [Store.SetBytesRange, Proc.bind_eq, Proc.bind, onConn_run, h1, h2, check,
              try_, Proc.pure, Proc.get, hb, hadd, hin, if_false, hB, if_true, hf1, setBytes_get,
              Option.getD_some, hk1, hk2, hk3, hk4, hk5, hf2]
            exact Or.inr (Or.inl rfl)
      · by_cases hov : start + n < 2 ^ 32
        · have hadd : add32 start n = start + n := add32_eq _ _ hov
          rw [hadd] at hin
          have hk4 : sub32 (start + n) (u32 s.len) = start + n - u32 s.len :=
            sub32_eq _ _ (by omega) hov
          have hk5 : sub32 (start + n - u32 s.len) n = start - u32 s.len := by
            rw [sub32_eq _ _ (by omega) (by omega)]; omega
          have hf2 := readFillLocal_short (GoSlice.make (start + n - u32 s.len))
            (start - u32 s.len) (start + n - u32 s.len) b q out w (by omega)
            (by simp [GoSlice.make, GoSlice.cap]) (by omega)
          by_cases h0 : q = []
          · rw [if_pos h0] at hf2
            simp only [Store.SetBytesRange, Proc.bind_eq, Proc.bind, onConn_run, h1, h2, check,
              try_, Proc.pure, Proc.get, hb, hadd, hin, if_false, hB, hk4, hk5, hf2, Proc.raise]
            exact Or.inl rfl
          · rw [if_neg h0] at hf2
            simp only [Store.SetBytesRange, Proc.bind_eq, Proc.bind, onConn_run, h1, h2, check,
              try_, Proc.pure, Proc.get, hb, hadd, hin, if_false, hB, hk4, hk5, hf2]
            exact Or.inr (Or.inl rfl)
        · have hsl := slice_panic (σ := BucketConn)
            (GoSlice.make (sub32 (add32 start n) (u32 s.len)))
            (sub32 (sub32 (add32 start n) (u32 s.len)) n) (sub32 (add32 start n) (u32 s.len))
            ⟨b, ⟨q, out, w⟩⟩ (by
              intro h
              have := h.1
              unfold add32 sub32 at *
              omega)
          simp only [Store.SetBytesRange, Proc.bind_eq, Proc.bind, onConn_run, h1, h2, check, try_,
            Proc.pure, Proc.get, hb, hin, if_false, hB, readFillLocal, hsl]
          exact Or.inr (Or.inr ⟨rfl, by omega⟩)

/-- The key of a request is cut short: `readString` returns `io.EOF` or panics
with `io.ErrUnexpectedEOF`. -/
theorem readString_short (key : Key) (m : Nat) (out : List Byte) (w : List Bool)
    (hk : key.length < 2 ^ 32) (hm : m < 4 + key.length) :
    (∃ x, readString ⟨(lenPrefixed key).take m, out, w⟩ = Res.ok (x, some Err.EOF) ⟨[], out, w⟩) ∨
    readString ⟨(lenPrefixed key).take m, out, w⟩ =
      Res.panic (Panic.err Err.ErrUnexpectedEOF) ⟨[], out, w⟩ := by
  have hu : u32 key.length = key.length := Nat.mod_eq_of_lt hk
  rcases Nat.lt_or_ge m 4 with h4 | h4
  · have hq := (take_word (u32 key.length) key m).1 h4
    have hr := readUint32_short _ out w hq
    unfold lenPrefixed
    by_cases h0 : (PutUint32 (u32 key.length) ++ key).take m = []
    · rw [if_pos h0] at hr
      left
      exact ⟨[], by simp [readString, readBytes, Proc.bind, hr, Proc.pure]⟩
    · rw [if_neg h0] at hr
      right
      simp [readString, readBytes, Proc.bind, hr]
  · have ht := (take_word (u32 key.length) key m).2 h4
    have hr := readBytes_short (u32 key.length) (key.take (m - 4)) out w (by omega)
      (by rw [List.length_take, hu]; omega)
    unfold lenPrefixed
    rw [ht]
    by_cases h0 : key.take (m - 4) = []
    · rw [if_pos h0] at hr
      left
      exact ⟨List.replicate (u32 key.length) 0, by simp [readString, Proc.bind, hr, Proc.pure]⟩
    · rw [if_neg h0] at hr
      right
      simp [readString, Proc.bind, hr]

theorem turn_key_short (grow : Nat → Nat → Nat) (cmd : Message) (key : Key) (st : Store) (m : Nat)
    (out : List Byte) (w : List Bool) (hc : cmd ≠ stopCmd) (hk : key.length < 2 ^ 32)
    (hm : m < 4 + key.length) :
    (Store.handleRequest.turn grow ⟨st, ⟨cmd :: (lenPrefixed key).take m, out, w⟩⟩).panicsWith
      (fun p => p = Panic.err Err.EOF ∨ p = Panic.err Err.ErrUnexpectedEOF) := by
  rcases readString_short key m out w hk hm with ⟨x, hr⟩ | hr
  · simp only [Store.handleRequest.turn, Proc.bind_eq, Proc.bind, onWorkerConn_run, readMessage_ok,
      check, try_, Proc.pure, hc, hr, reduceCtorEq, if_false, Proc.raise]
    exact Or.inl rfl
  · simp only [Store.handleRequest.turn, Proc.bind_eq, Proc.bind, onWorkerConn_run, readMessage_ok,
      check, try_, Proc.pure, hc, hr, reduceCtorEq, if_false]
    exact Or.inr rfl

theorem turn_eof_any (grow : Nat → Nat → Nat) (st : Store) (out : List Byte) (w : List Bool) :
    Store.handleRequest.turn grow ⟨st, ⟨[], out, w⟩⟩ = Res.ok false ⟨st, ⟨[], out, w⟩⟩ := by
  simp [Store.handleRequest.turn, Proc.bind, onWorkerConn_run, readMessage_eof, Proc.pure]

/-- With fuel for one turn more than the requests it completes, the loop of
`handleRequest` returns when the stream ends after these requests. -/
theorem loop_serves (grow : Nat → Nat → Nat) (n : Nat) (s t : Worker) (h : Serves grow n s t)
    (ht : t.conn.inp = []) (k : Nat) :
    Store.handleRequest.loop grow (n + 1 + k) s = Res.ok true t := by
  induction h with
  | zero s =>
    obtain ⟨st, ⟨inp, out, w⟩⟩ := s
    simp only at ht
    subst ht
    rw [show 0 + 1 + k = k + 1 by omega]
    simp [Store.handleRequest.loop, Proc.bind, turn_eof_any, Proc.pure]
  | step n s s1 t h _ ih =>
    rw [show n + 1 + 1 + k = (n + 1 + k) + 1 by omega]
    simp only [Store.handleRequest.loop, Proc.bind_eq, Proc.bind, h, if_true]
    exact ih ht

theorem panicsWith_mono {σ α : Type} (r : Res σ α) (P Q : Panic → Prop) (h : r.panicsWith P)
    (hPQ : ∀ p, P p → Q p) : r.panicsWith Q := by
  cases r with
  | ok a s => exact h
  | panic p s => exact hPQ p h

theorem panicsWith_onBucket (key : Key) (op : Proc BucketConn Unit) (st : Store) (c : Conn)
    (b : Bucket) (hb : st.getBucket key = some b) (P : Panic → Prop)
    (h : (op ⟨b, c⟩).panicsWith P) : (onBucket key op ⟨st, c⟩).panicsWith P := by
  rw [onBucket_run key op st c b hb]
  cases hr : op ⟨b, c⟩ with
  | ok a t =>
    rw [hr] at h
    exact h
  | panic e t =>
    rw [hr] at h
    exact h

/-- The fields of a request are cut short: the store operation panics. -/
theorem dispatch_short (grow : Nat → Nat → Nat) (r : Request) (hf : r.fits) (st : Store)
    (b : Bucket) (hb : st.getBucket r.key = some b) (m : Nat) (hm : m < r.fields.length)
    (out : List Byte) (w : List Bool) :
    (Store.handleRequest.dispatch grow r.cmd r.key ⟨st, ⟨r.fields.take m, out, w⟩⟩).panicsWith
      r.framingPanic := by
  have eofP : ∀ r : Request, r.framingPanic (Panic.err Err.EOF) := fun r => Or.inl rfl
  have ueofP : ∀ r : Request, r.framingPanic (Panic.err Err.ErrUnexpectedEOF) :=
    fun r => Or.inr (Or.inl rfl)
  have hd := dispatch_cases grow r.key
  have hw4 : ∀ a : Nat, (PutUint32 a).length = 4 := fun _ => rfl
  cases r with
  | getBytes key => simp [Request.fields] at hm
  | delBytes key => simp [Request.fields] at hm
  | getUint key => simp [Request.fields] at hm
  | delUint key => simp [Request.fields] at hm
  | getBytesInto key n =>
    simp only [Request.cmd, Request.key, Request.fields, hw4] at hb hm hd ⊢
    rw [hd.2.1]
    have hq : ((PutUint32 n).take m).length < 4 := by rw [List.length_take]; omega
    exact panicsWith_onBucket key _ st _ b hb _
      (panicsWith_eof _ _ _ _ (first_word_short grow key b _ out w hq).1 (eofP _) (ueofP _))
  | truncateBytes key n =>
    simp only [Request.cmd, Request.key, Request.fields, hw4] at hb hm hd ⊢
    rw [hd.2.2.2.2.2.2.2.1]
    have hq : ((PutUint32 n).take m).length < 4 := by rw [List.length_take]; omega
    exact panicsWith_onBucket key _ st _ b hb _
      (panicsWith_eof _ _ _ _ (first_word_short grow key b _ out w hq).2.2.2.2.2.1 (eofP _)
        (ueofP _))
  | setUint key n =>
    simp only [Request.cmd, Request.key, Request.fields, hw4] at hb hm hd ⊢
    rw [hd.2.2.2.2.2.2.2.2.1]
    have hq : ((PutUint32 n).take m).length < 4 := by rw [List.length_take]; omega
    exact panicsWith_onBucket key _ st _ b hb _
      (panicsWith_eof _ _ _ _ (first_word_short grow key b _ out w hq).2.2.2.2.2.2.1 (eofP _)
        (ueofP _))
  | setUintIfMax key n =>
    simp only [Request.cmd, Request.key, Request.fields, hw4] at hb hm hd ⊢
    rw [hd.2.2.2.2.2.2.2.2.2.2.2]
    have hq : ((PutUint32 n).take m).length < 4 := by rw [List.length_take]; omega
    exact panicsWith_onBucket key _ st _ b hb _
      (panicsWith_eof _ _ _ _ (first_word_short grow key b _ out w hq).2.2.2.2.2.2.2 (eofP _)
        (ueofP _))
  | getBytesRange key a e =>
    simp only [Request.cmd, Request.key, Request.fields, List.length_append, hw4] at hb hm hd ⊢
    rw [hd.2.2.1]
    refine panicsWith_onBucket key _ st _ b hb _ ?_
    rcases Nat.lt_or_ge m 4 with h4 | h4
    · exact panicsWith_eof _ _ _ _
        (first_word_short grow key b _ out w ((take_word a _ m).1 h4)).2.1 (eofP _) (ueofP _)
    · rw [(take_word a _ m).2 h4]
      have hq : ((PutUint32 e).take (m - 4)).length < 4 := by rw [List.length_take]; omega
      exact panicsWith_eof _ _ _ _
        (second_word_short grow key b a _ out w hf.1 hq).1 (eofP _) (ueofP _)
  | getBytesRangeInto key a e n =>
    simp only [Request.cmd, Request.key, Request.fields, List.length_append, hw4] at hb hm hd ⊢
    rw [hd.2.2.2.1]
    refine panicsWith_onBucket key _ st _ b hb _ ?_
    rcases Nat.lt_or_ge m 4 with h4 | h4
    · exact panicsWith_eof _ _ _ _
        (first_word_short grow key b _ out w ((take_word a _ m).1 h4)).2.2.1 (eofP _) (ueofP _)
    · rw [(take_word a _ m).2 h4]
      rcases Nat.lt_or_ge (m - 4) 4 with h8 | h8
      · exact panicsWith_eof _ _ _ _
          (second_word_short grow key b a _ out w hf.1 ((take_word e _ (m - 4)).1 h8)).2.1
          (eofP _) (ueofP _)
      · rw [(take_word e _ (m - 4)).2 h8]
        have hq : ((PutUint32 n).take (m - 4 - 4)).length < 4 := by
          rw [List.length_take]; omega
        exact panicsWith_eof _ _ _ _
          (third_word_short key b a e _ out w hf.1 hf.2.1 hq) (eofP _) (ueofP _)
  | setBytes key d =>
    have hu : u32 d.length = d.length := Nat.mod_eq_of_lt hf
    simp only [Request.cmd, Request.key, Request.fields, lenPrefixed, List.length_append, hw4]
      at hb hm hd ⊢
    rw [hd.2.2.2.2.1]
    refine panicsWith_onBucket key _ st _ b hb _ ?_
    rcases Nat.lt_or_ge m 4 with h4 | h4
    · exact panicsWith_eof _ _ _ _
        (first_word_short grow key b _ out w ((take_word _ _ m).1 h4)).2.2.2.1 (eofP _) (ueofP _)
    · rw [(take_word _ _ m).2 h4]
      exact panicsWith_eof _ _ _ _
        (SetBytes_short key b (u32 d.length) _ out w (by rw [hu]; exact hf)
          (by rw [List.length_take, hu]; omega)) (eofP _) (ueofP _)
  | setBytesRange key a d =>
    have hu : u32 d.length = d.length := Nat.mod_eq_of_lt hf.2
    simp only [Request.cmd, Request.key, Request.fields, lenPrefixed, List.length_append, hw4]
      at hb hm hd ⊢
    rw [hd.2.2.2.2.2.1]
    refine panicsWith_onBucket key _ st _ b hb _ ?_
    rcases Nat.lt_or_ge m 4 with h4 | h4
    · exact panicsWith_eof _ _ _ _
        (first_word_short grow key b _ out w ((take_word a _ m).1 h4)).2.2.2.2.1 (eofP _)
        (ueofP _)
    · rw [(take_word a _ m).2 h4]
      rcases Nat.lt_or_ge (m - 4) 4 with h8 | h8
      · exact panicsWith_eof _ _ _ _
          (second_word_short grow key b a _ out w hf.1 ((take_word _ _ (m - 4)).1 h8)).2.2
          (eofP _) (ueofP _)
      · rw [(take_word _ _ (m - 4)).2 h8]
        refine panicsWith_mono _ _ _
          (SetBytesRange_payload_short grow key b a (u32 d.length) _ out w hf.1
            (by rw [hu]; exact hf.2) (by rw [List.length_take, hu]; omega)) ?_
        intro p hp
        rcases hp with hp | hp | ⟨hp, hov⟩
        · exact Or.inl hp
        · exact Or.inr (Or.inl hp)
        · exact Or.inr (Or.inr ⟨hp, key, a, d, rfl, by rw [hu] at hov; exact hov⟩)

theorem request_cmd_ne_stop (r : Request) : r.cmd ≠ stopCmd := by
  cases r <;> simp only [Request.cmd] <;> decide

/-- A turn of the handler on a request that is cut short anywhere after its
command byte. -/
theorem turn_request_short (grow : Nat → Nat → Nat) (r : Request) (hf : r.fits)
    (hk : r.key.length < 2 ^ 32) (st : Store) (b : Bucket) (hb : st.getBucket r.key = some b)
    (n : Nat) (h1 : 1 ≤ n) (h2 : n < r.bytes.length) (out : List Byte) (w : List Bool) :
    (Store.handleRequest.turn grow ⟨st, ⟨r.bytes.take n, out, w⟩⟩).panicsWith r.framingPanic := by
  obtain ⟨m, rfl⟩ : ∃ m, n = m + 1 := ⟨n - 1, by omega⟩
  have hc := request_cmd_ne_stop r
  have hlen : (lenPrefixed r.key).length = 4 + r.key.length := by
    simp [lenPrefixed, PutUint32]
    omega
  simp only [Request.bytes, List.length_cons, List.length_append, hlen] at h2
  simp only [Request.bytes, List.take_succ_cons]
  by_cases hm : m < 4 + r.key.length
  · rw [List.take_append_of_le_length (by rw [hlen]; omega)]
    exact panicsWith_mono _ _ _ (turn_key_short grow r.cmd r.key st m out w hc hk hm)
      (fun p hp => hp.elim Or.inl (fun h => Or.inr (Or.inl h)))
  · rw [List.take_append_eq_append_take, List.take_of_length_le (by rw [hlen]; omega), hlen,
      turn_run grow r.cmd r.key st _ out w hc hk]
    have hd := dispatch_short grow r hf st b hb (m - (4 + r.key.length)) (by omega) out w
    cases hr : Store.handleRequest.dispatch grow r.cmd r.key
        ⟨st, ⟨r.fields.take (m - (4 + r.key.length)), out, w⟩⟩ with
    | ok a t =>
      rw [hr] at hd
      exact hd.elim
    | panic e t =>
      rw [hr] at hd
      exact hd

/-- When a turn of the loop panics, the loop panics. -/
theorem loop_panics (grow : Nat → Nat → Nat) (s : Worker) (P : Panic → Prop)
    (h : (Store.handleRequest.turn grow s).panicsWith P) (fuel : Nat) :
    (Store.handleRequest.loop grow (fuel + 1) s).panicsWith P := by
  cases hr : Store.handleRequest.turn grow s with
  | ok a t =>
    rw [hr] at h
    exact h.elim
  | panic e t =>
    rw [hr] at h
    simp only [Store.handleRequest.loop, Proc.bind_eq, Proc.bind, hr]
    exact h

/-- After `n` complete requests, a turn that panics makes the loop panic. -/
theorem loop_serves_panics (grow : Nat → Nat → Nat) (n : Nat) (s t : Worker)
    (h : Serves grow n s t) (P : Panic → Prop)
    (ht : (Store.handleRequest.turn grow t).panicsWith P) (k : Nat) :
    (Store.handleRequest.loop grow (n + 1 + k) s).panicsWith P := by
  induction h with
  | zero s =>
    rw [show 0 + 1 + k = k + 1 by omega]
    exact loop_panics grow s P ht k
  | step n s s1 t h _ ih =>
    rw [show n + 1 + 1 + k = (n + 1 + k) + 1 by omega]
    simp only [Store.handleRequest.loop, Proc.bind_eq, Proc.bind, h, if_true]
    exact ih ht

/-! ## The input of a connection only shrinks -/

theorem ReadAtLeast_inp (min : Nat) (s : ConnBuf) (N : Nat) (h : s.conn.inp.length ≤ N) :
    (ReadAtLeast min s).sat (fun _ s1 => s1.conn.inp.length ≤ N) (fun _ => True) := by
  unfold ReadAtLeast
  split
  · exact h
  · split
    · exact h
    · have hd : (List.drop s.buf.length s.conn.inp).length ≤ N := by
        rw [List.length_drop]
        omega
      dsimp only
      split
      · exact hd
      · split <;> exact hd

theorem withBuf_inp {α : Type} (buf : List Byte) (p : Proc ConnBuf α) (c : Conn) (N : Nat)
    (hp : (p ⟨c, buf⟩).sat (fun _ s1 => s1.conn.inp.length ≤ N) (fun _ => True)) :
    (withBuf buf p c).sat (fun _ c1 => c1.inp.length ≤ N) (fun _ => True) := by
  unfold withBuf
  cases hr : p ⟨c, buf⟩ with
  | ok a s =>
    rw [hr] at hp
    exact hp
  | panic e s => trivial

theorem readFillBuf_inp (s : ConnBuf) (N : Nat) (h : s.conn.inp.length ≤ N) :
    (readFillBuf s).sat (fun _ s1 => s1.conn.inp.length ≤ N) (fun _ => True) := by
  simp only [readFillBuf, Proc.bind_eq, sat_bind, sat_get]
  refine sat_mono _ _ _ _ _ (ReadAtLeast_inp _ s N h) (fun a s1 h1 => ?_) (fun _ _ => trivial)
  split
  · trivial
  · exact h1

theorem readMessage_inp (c : Conn) (N : Nat) (h : c.inp.length ≤ N) :
    (readMessage c).sat (fun _ c1 => c1.inp.length ≤ N) (fun _ => True) := by
  simp only [readMessage, Proc.bind_eq, sat_bind]
  refine sat_mono _ _ _ _ _ (withBuf_inp _ _ c N (ReadAtLeast_inp _ _ N h)) (fun a c1 h1 => ?_)
    (fun _ _ => trivial)
  split
  · trivial
  · exact h1

theorem readUint32_inp (c : Conn) (N : Nat) (h : c.inp.length ≤ N) :
    (readUint32 c).sat (fun _ c1 => c1.inp.length ≤ N) (fun _ => True) := by
  simp only [readUint32, Proc.bind_eq, sat_bind]
  refine sat_mono _ _ _ _ _ (withBuf_inp _ _ c N (ReadAtLeast_inp _ _ N h)) (fun a c1 h1 => ?_)
    (fun _ _ => trivial)
  split
  · trivial
  · exact h1

theorem readBytes_inp (c : Conn) (N : Nat) (h : c.inp.length ≤ N) :
    (readBytes c).sat (fun _ c1 => c1.inp.length ≤ N) (fun _ => True) := by
  simp only [readBytes, Proc.bind_eq, sat_bind]
  refine sat_mono _ _ _ _ _ (readUint32_inp c N h) (fun a c1 h1 => ?_) (fun _ _ => trivial)
  split
  · exact h1
  · simp only [sat_bind]
    refine sat_mono _ _ _ _ _ (withBuf_inp _ _ c1 N (readFillBuf_inp _ N h1)) (fun a c2 h2 => h2)
      (fun _ _ => trivial)

theorem Write_inp (d : List Byte) (c : Conn) (N : Nat) (h : c.inp.length ≤ N) :
    (Conn.Write d c).sat (fun _ c1 => c1.inp.length ≤ N) (fun _ => True) := by
  unfold Conn.Write
  split <;> exact h

theorem sendBytes_inp (d : List Byte) (c : Conn) (N : Nat) (h : c.inp.length ≤ N) :
    (sendBytes d c).sat (fun _ c1 => c1.inp.length ≤ N) (fun _ => True) := by
  simp only [sendBytes, sendUint32, Proc.bind_eq, sat_bind]
  exact sat_mono _ _ _ _ _ (Write_inp _ c N h) (fun a c1 h1 => Write_inp _ c1 N h1)
    (fun _ _ => trivial)

theorem readFillStored_inp (key : Key) (data : GoSlice) (lo hi : Nat) (s : BucketConn) (N : Nat)
    (h : s.conn.inp.length ≤ N) :
    (readFillStored key data lo hi s).sat (fun _ s1 => s1.conn.inp.length ≤ N) (fun _ => True) := by
  simp only [readFillStored, Proc.bind_eq, sat_bind, sat_slice, sat_zoom]
  refine ⟨fun _ => ?_, fun _ => trivial⟩
  exact sat_mono _ _ _ _ _ (readFillBuf_inp _ N h) (fun _ _ h1 => h1) (fun _ _ => trivial)

theorem readFillLocal_inp (buf : GoSlice) (lo hi : Nat) (s : BucketConn) (N : Nat)
    (h : s.conn.inp.length ≤ N) :
    (readFillLocal buf lo hi s).sat (fun _ s1 => s1.conn.inp.length ≤ N) (fun _ => True) := by
  simp only [readFillLocal, Proc.bind_eq, sat_bind, sat_slice, onConn, sat_zoom, sat_pure]
  refine ⟨fun _ => ?_, fun _ => trivial⟩
  exact sat_mono _ _ _ _ _ (withBuf_inp _ _ _ N (readFillBuf_inp _ N h)) (fun _ _ h1 => h1)
    (fun _ _ => trivial)

theorem GetBytes_inp (key : Key) (b : Bucket) (c : Conn) (N : Nat)
    (h : c.inp.length ≤ N) :
    (Store.GetBytes key ⟨b, c⟩).sat (fun _ s => s.conn.inp.length ≤ N) (fun _ => True) := by
  simp only [Store.GetBytes, Proc.bind_eq, sat_bind, sat_get, onConn, sat_zoom, check, sat_try]
  cases b.bytedata key <;>
    repeat' (first
      | trivial
      | assumption
      | intro _
      | with_reducible apply And.intro
      | refine sat_mono _ _ _ _ _ (sendBytes_inp _ _ N (by assumption)) (fun _ _ _ => ?_)
          (fun _ _ => trivial)
      | refine sat_mono _ _ _ _ _ (Write_inp _ _ N (by assumption)) (fun _ _ _ => ?_)
          (fun _ _ => trivial)
      | simp only [sat_bind, sat_zoom, sat_try, sat_pure, sat_raise, sat_get, sat_modify, sat_slice,
          check, sendMessage, sendUint32, Proc.pure_eq])

theorem GetBytesInto_inp (key : Key) (b : Bucket) (c : Conn) (N : Nat)
    (h : c.inp.length ≤ N) :
    (Store.GetBytesInto key ⟨b, c⟩).sat (fun _ s => s.conn.inp.length ≤ N) (fun _ => True) := by
  simp only [Store.GetBytesInto, Proc.bind_eq, sat_bind, sat_get, onConn, sat_zoom, check, sat_try]
  cases b.bytedata key <;>
    repeat' (first
      | trivial
      | assumption
      | intro _
      | with_reducible apply And.intro
      | refine sat_mono _ _ _ _ _ (readUint32_inp _ N (by assumption)) (fun _ _ _ => ?_)
          (fun _ _ => trivial)
      | refine sat_mono _ _ _ _ _ (sendBytes_inp _ _ N (by assumption)) (fun _ _ _ => ?_)
          (fun _ _ => trivial)
      | refine sat_mono _ _ _ _ _ (Write_inp _ _ N (by assumption)) (fun _ _ _ => ?_)
          (fun _ _ => trivial)
      | simp only [sat_bind, sat_zoom, sat_try, sat_pure, sat_raise, sat_get, sat_modify, sat_slice,
          check, sendMessage, sendUint32, Proc.pure_eq]
      | split)

theorem GetBytesRange_inp (key : Key) (b : Bucket) (c : Conn) (N : Nat)
    (h : c.inp.length ≤ N) :
    (Store.GetBytesRange key ⟨b, c⟩).sat (fun _ s => s.conn.inp.length ≤ N) (fun _ => True) := by
  simp only [Store.GetBytesRange, Proc.bind_eq, sat_bind, sat_get, onConn, sat_zoom, check, sat_try]
  cases b.bytedata key <;>
    repeat' (first
      | trivial
      | assumption
      | intro _
      | with_reducible apply And.intro
      | refine sat_mono _ _ _ _ _ (readUint32_inp _ N (by assumption)) (fun _ _ _ => ?_)
          (fun _ _ => trivial)
      | refine sat_mono _ _ _ _ _ (sendBytes_inp _ _ N (by assumption)) (fun _ _ _ => ?_)
          (fun _ _ => trivial)
      | refine sat_mono _ _ _ _ _ (Write_inp _ _ N (by assumption)) (fun _ _ _ => ?_)
          (fun _ _ => trivial)
      | simp only [sat_bind, sat_zoom, sat_try, sat_pure, sat_raise, sat_get, sat_modify, sat_slice,
          check, sendMessage, sendUint32, Proc.pure_eq]
      | split)

theorem GetBytesRangeInto_inp (key : Key) (b : Bucket) (c : Conn) (N : Nat)
    (h : c.inp.length ≤ N) :
    (Store.GetBytesRangeInto key ⟨b, c⟩).sat (fun _ s => s.conn.inp.length ≤ N) (fun _ => True) := by
  simp only [Store.GetBytesRangeInto, Proc.bind_eq, sat_bind, sat_get, onConn, sat_zoom, check, sat_try]
  cases b.bytedata key <;>
    repeat' (first
      | trivial
      | assumption
      | intro _
      | with_reducible apply And.intro
      | refine sat_mono _ _ _ _ _ (readUint32_inp _ N (by assumption)) (fun _ _ _ => ?_)
          (fun _ _ => trivial)
      | refine sat_mono _ _ _ _ _ (sendBytes_inp _ _ N (by assumption)) (fun _ _ _ => ?_)
          (fun _ _ => trivial)
      | refine sat_mono _ _ _ _ _ (Write_inp _ _ N (by assumption)) (fun _ _ _ => ?_)
          (fun _ _ => trivial)
      | simp only [sat_bind, sat_zoom, sat_try, sat_pure, sat_raise, sat_get, sat_modify, sat_slice,
          check, sendMessage, sendUint32, Proc.pure_eq]
      | split)

theorem SetBytes_inp (key : Key) (b : Bucket) (c : Conn) (N : Nat)
    (h : c.inp.length ≤ N) :
    (Store.SetBytes key ⟨b, c⟩).sat (fun _ s => s.conn.inp.length ≤ N) (fun _ => True) := by
  simp only [Store.SetBytes, Proc.bind_eq, sat_bind, sat_get, onConn, sat_zoom, check, sat_try]
  repeat' (first
    | trivial
    | assumption
    | intro _
    | with_reducible apply And.intro
    | refine sat_mono _ _ _ _ _ (readBytes_inp _ N (by assumption)) (fun _ _ _ => ?_)
        (fun _ _ => trivial)
    | refine sat_mono _ _ _ _ _ (Write_inp _ _ N (by assumption)) (fun _ _ _ => ?_)
        (fun _ _ => trivial)
    | simp only [sat_bind, sat_zoom, sat_try, sat_pure, sat_raise, sat_get, sat_modify, sat_slice,
        check, sendMessage, sendUint32, Proc.pure_eq])

theorem SetBytesRange_inp (grow : Nat → Nat → Nat) (key : Key) (b : Bucket) (c : Conn) (N : Nat)
    (h : c.inp.length ≤ N) :
    (Store.SetBytesRange grow key ⟨b, c⟩).sat (fun _ s => s.conn.inp.length ≤ N) (fun _ => True) := by
  simp only [Store.SetBytesRange, Proc.bind_eq, sat_bind, sat_get, onConn, sat_zoom, check, sat_try]
  cases b.bytedata key <;>
    repeat' (first
      | trivial
      | assumption
      | intro _
      | with_reducible apply And.intro
      | refine sat_mono _ _ _ _ _ (readUint32_inp _ N (by assumption)) (fun _ _ _ => ?_)
          (fun _ _ => trivial)
      | refine sat_mono _ _ _ _ _ (Write_inp _ _ N (by assumption)) (fun _ _ _ => ?_)
          (fun _ _ => trivial)
      | refine sat_mono _ _ _ _ _ (readFillStored_inp _ _ _ _ _ N (by assumption)) (fun _ _ _ => ?_)
          (fun _ _ => trivial)
      | refine sat_mono _ _ _ _ _ (readFillLocal_inp _ _ _ _ N (by assumption)) (fun _ _ _ => ?_)
          (fun _ _ => trivial)
      | simp only [sat_bind, sat_zoom, sat_try, sat_pure, sat_raise, sat_get, sat_modify, sat_slice,
          check, sendMessage, sendUint32, Proc.pure_eq]
      | split)

theorem DelBytes_inp (key : Key) (b : Bucket) (c : Conn) (N : Nat)
    (h : c.inp.length ≤ N) :
    (Store.DelBytes key ⟨b, c⟩).sat (fun _ s => s.conn.inp.length ≤ N) (fun _ => True) := by
  simp only [Store.DelBytes, Proc.bind_eq, sat_bind, sat_get, onConn, sat_zoom, check, sat_try]
  cases b.bytedata key <;>
    repeat' (first
      | trivial
      | assumption
      | intro _
      | with_reducible apply And.intro
      | refine sat_mono _ _ _ _ _ (Write_inp _ _ N (by assumption)) (fun _ _ _ => ?_)
          (fun _ _ => trivial)
      | simp only [sat_bind, sat_zoom, sat_try, sat_pure, sat_raise, sat_get, sat_modify, sat_slice,
          check, sendMessage, sendUint32, Proc.pure_eq])

theorem TruncateBytes_inp (key : Key) (b : Bucket) (c : Conn) (N : Nat)
    (h : c.inp.length ≤ N) :
    (Store.TruncateBytes key ⟨b, c⟩).sat (fun _ s => s.conn.inp.length ≤ N) (fun _ => True) := by
  simp only [Store.TruncateBytes, Proc.bind_eq, sat_bind, sat_get, onConn, sat_zoom, check, sat_try]
  cases b.bytedata key <;>
    repeat' (first
      | trivial
      | assumption
      | intro _
      | with_reducible apply And.intro
      | refine sat_mono _ _ _ _ _ (readUint32_inp _ N (by assumption)) (fun _ _ _ => ?_)
          (fun _ _ => trivial)
      | refine sat_mono _ _ _ _ _ (Write_inp _ _ N (by assumption)) (fun _ _ _ => ?_)
          (fun _ _ => trivial)
      | simp only [sat_bind, sat_zoom, sat_try, sat_pure, sat_raise, sat_get, sat_modify, sat_slice,
          check, sendMessage, sendUint32, Proc.pure_eq]
      | split)

theorem SetUint_inp (key : Key) (b : Bucket) (c : Conn) (N : Nat)
    (h : c.inp.length ≤ N) :
    (Store.SetUint key ⟨b, c⟩).sat (fun _ s => s.conn.inp.length ≤ N) (fun _ => True) := by
  simp only [Store.SetUint, Proc.bind_eq, sat_bind, sat_get, onConn, sat_zoom, check, sat_try]
  repeat' (first
    | trivial
    | assumption
    | intro _
    | with_reducible apply And.intro
    | refine sat_mono _ _ _ _ _ (readUint32_inp _ N (by assumption)) (fun _ _ _ => ?_)
        (fun _ _ => trivial)
    | refine sat_mono _ _ _ _ _ (Write_inp _ _ N (by assumption)) (fun _ _ _ => ?_)
        (fun _ _ => trivial)
    | simp only [sat_bind, sat_zoom, sat_try, sat_pure, sat_raise, sat_get, sat_modify, sat_slice,
        check, sendMessage, sendUint32, Proc.pure_eq])

theorem GetUint_inp (key : Key) (b : Bucket) (c : Conn) (N : Nat)
    (h : c.inp.length ≤ N) :
    (Store.GetUint key ⟨b, c⟩).sat (fun _ s => s.conn.inp.length ≤ N) (fun _ => True) := by
  simp only [Store.GetUint, Proc.bind_eq, sat_bind, sat_get, onConn, sat_zoom, check, sat_try]
  cases b.uintdata key <;>
    repeat' (first
      | trivial
      | assumption
      | intro _
      | with_reducible apply And.intro
      | refine sat_mono _ _ _ _ _ (Write_inp _ _ N (by assumption)) (fun _ _ _ => ?_)
          (fun _ _ => trivial)
      | simp only [sat_bind, sat_zoom, sat_try, sat_pure, sat_raise, sat_get, sat_modify, sat_slice,
          check, sendMessage, sendUint32, Proc.pure_eq])

theorem DelUint_inp (key : Key) (b : Bucket) (c : Conn) (N : Nat)
    (h : c.inp.length ≤ N) :
    (Store.DelUint key ⟨b, c⟩).sat (fun _ s => s.conn.inp.length ≤ N) (fun _ => True) := by
  simp only [Store.DelUint, Proc.bind_eq, sat_bind, sat_get, onConn, sat_zoom, check, sat_try]
  cases b.uintdata key <;>
    repeat' (first
      | trivial
      | assumption
      | intro _
      | with_reducible apply And.intro
      | refine sat_mono _ _ _ _ _ (Write_inp _ _ N (by assumption)) (fun _ _ _ => ?_)
          (fun _ _ => trivial)
      | simp only [sat_bind, sat_zoom, sat_try, sat_pure, sat_raise, sat_get, sat_modify, sat_slice,
          check, sendMessage, sendUint32, Proc.pure_eq])

theorem SetUintIfMax_inp (key : Key) (b : Bucket) (c : Conn) (N : Nat)
    (h : c.inp.length ≤ N) :
    (Store.SetUintIfMax key ⟨b, c⟩).sat (fun _ s => s.conn.inp.length ≤ N) (fun _ => True) := by
  simp only [Store.SetUintIfMax, Proc.bind_eq, sat_bind, sat_get, onConn, sat_zoom, check, sat_try]
  cases b.uintdata key <;>
    repeat' (first
      | trivial
      | assumption
      | intro _
      | with_reducible apply And.intro
      | refine sat_mono _ _ _ _ _ (readUint32_inp _ N (by assumption)) (fun _ _ _ => ?_)
          (fun _ _ => trivial)
      | refine sat_mono _ _ _ _ _ (Write_inp _ _ N (by assumption)) (fun _ _ _ => ?_)
          (fun _ _ => trivial)
      | simp only [sat_bind, sat_zoom, sat_try, sat_pure, sat_raise, sat_get, sat_modify, sat_slice,
          check, sendMessage, sendUint32, Proc.pure_eq]
      | split)

theorem sat_ok {σ α : Type} (a : α) (s : σ) (Q : α → σ → Prop) (E : σ → Prop) :
    (Res.ok a s).sat Q E ↔ Q a s := Iff.rfl

theorem readString_inp (c : Conn) (N : Nat) (h : c.inp.length ≤ N) :
    (readString c).sat (fun _ c1 => c1.inp.length ≤ N) (fun _ => True) := by
  simp only [readString, Proc.bind_eq, sat_bind, sat_pure]
  exact sat_mono _ _ _ _ _ (readBytes_inp c N h) (fun _ _ h1 => h1) (fun _ _ => trivial)

theorem onBucket_inp (key : Key) (op : Proc BucketConn Unit) (st : Store) (c : Conn) (N : Nat)
    (hop : ∀ b : Bucket, (op ⟨b, c⟩).sat (fun _ t => t.conn.inp.length ≤ N) (fun _ => True)) :
    (onBucket key op ⟨st, c⟩).sat (fun _ w => w.conn.inp.length ≤ N) (fun _ => True) := by
  cases hb : st.getBucket key with
  | none =>
    simp only [onBucket, hb]
    trivial
  | some b =>
    rw [onBucket_run key op st c b hb]
    have h := hop b
    cases hr : op ⟨b, c⟩ with
    | ok a t =>
      rw [hr] at h
      exact h
    | panic e t => trivial

/-- Whatever command is dispatched, the handler leaves no more input on the
connection than it found. -/
theorem dispatch_inp (grow : Nat → Nat → Nat) (cmd : Message) (key : Key) (st : Store)
    (c : Conn) (N : Nat) (h : c.inp.length ≤ N) :
    (Store.handleRequest.dispatch grow cmd key ⟨st, c⟩).sat
      (fun _ w => w.conn.inp.length ≤ N) (fun _ => True) := by
  rcases dispatch_shape grow cmd key with ⟨op, hop, heq⟩ | heq <;> rw [heq]
  · rcases hop with rfl | rfl | rfl | rfl | rfl | rfl | rfl | rfl | rfl | rfl | rfl | rfl
    · exact onBucket_inp _ _ _ _ _ (fun b => GetBytes_inp key b c N h)
    · exact onBucket_inp _ _ _ _ _ (fun b => GetBytesInto_inp key b c N h)
    · exact onBucket_inp _ _ _ _ _ (fun b => GetBytesRange_inp key b c N h)
    · exact onBucket_inp _ _ _ _ _ (fun b => GetBytesRangeInto_inp key b c N h)
    · exact onBucket_inp _ _ _ _ _ (fun b => SetBytes_inp key b c N h)
    · exact onBucket_inp _ _ _ _ _ (fun b => SetBytesRange_inp grow key b c N h)
    · exact onBucket_inp _ _ _ _ _ (fun b => DelBytes_inp key b c N h)
    · exact onBucket_inp _ _ _ _ _ (fun b => TruncateBytes_inp key b c N h)
    · exact onBucket_inp _ _ _ _ _ (fun b => SetUint_inp key b c N h)
    · exact onBucket_inp _ _ _ _ _ (fun b => GetUint_inp key b c N h)
    · exact onBucket_inp _ _ _ _ _ (fun b => DelUint_inp key b c N h)
    · exact onBucket_inp _ _ _ _ _ (fun b => SetUintIfMax_inp key b c N h)
  · trivial

/-- A turn of the handler that lets the loop go on has consumed input: at
least the command byte. -/
theorem turn_consumes (grow : Nat → Nat → Nat) (s s1 : Worker)
    (h : Store.handleRequest.turn grow s = Res.ok true s1) :
    s1.conn.inp.length < s.conn.inp.length := by
  obtain ⟨st, ⟨inp, out, w⟩⟩ := s
  cases inp with
  | nil =>
    rw [turn_eof_any] at h
    simp at h
  | cons m q =>
    have key : (Store.handleRequest.turn grow ⟨st, ⟨m :: q, out, w⟩⟩).sat
        (fun again t => again = true → t.conn.inp.length ≤ q.length) (fun _ => True) := by
      simp only [Store.handleRequest.turn, Proc.bind_eq, sat_bind, onWorkerConn, sat_zoom]
      rw [readMessage_ok]
      simp only [sat_ok, reduceCtorEq, if_false, check, sat_bind, sat_try]
      refine ⟨fun _ => ?_, fun hh => (hh rfl).elim⟩
      split
      · simp only [sat_bind, sat_zoom, sat_try, sat_modify, sat_pure, sendMessage]
        refine sat_of_forall _ _ _ (fun _ _ => ⟨fun _ => ?_, fun _ => trivial⟩) (fun _ => trivial)
        intro hh
        cases hh
      · simp only [sat_bind, sat_zoom, sat_try, sat_pure]
        refine sat_mono _ _ _ _ _ (readString_inp _ q.length (le_refl _)) (fun a c1 h1 => ?_)
          (fun _ _ => trivial)
        refine ⟨fun _ => ?_, fun _ => trivial⟩
        exact sat_mono _ _ _ _ _ (dispatch_inp grow m a.1 st c1 q.length h1)
          (fun _ _ h2 _ => h2) (fun _ _ => trivial)
    rw [h] at key
    have := key rfl
    simp only [List.length_cons]
    omega

/-- Each of the `n` complete requests has consumed at least one byte. -/
theorem serves_consumes (grow : Nat → Nat → Nat) (n : Nat) (s t : Worker)
    (h : Serves grow n s t) : n + t.conn.inp.length ≤ s.conn.inp.length := by
  induction h with
  | zero s => omega
  | step n s s1 t h _ ih =>
    have := turn_consumes grow s s1 h
    omega

/-- The turns that `handleRequest` allows for are enough: when the stream ends
after `n` complete requests, `handleRequest` returns. -/
theorem handleRequest_serves (grow : Nat → Nat → Nat) (n : Nat) (s t : Worker)
    (h : Serves grow n s t) (ht : t.conn.inp = []) :
    Store.handleRequest grow s = Res.ok true t := by
  have hc := serves_consumes grow n s t h
  have hl := loop_serves grow n s t h ht (s.conn.inp.length - n)
  rw [show n + 1 + (s.conn.inp.length - n) = s.conn.inp.length + 1 by omega] at hl
  exact hl

/-- When a turn panics after `n` complete requests, `handleRequest` panics
the same way. -/
theorem handleRequest_serves_panics (grow : Nat → Nat → Nat) (n : Nat) (s t : Worker)
    (h : Serves grow n s t) (P : Panic → Prop)
    (ht : (Store.handleRequest.turn grow t).panicsWith P) :
    (Store.handleRequest grow s).panicsWith P := by
  have hc := serves_consumes grow n s t h
  have hl := loop_serves_panics grow n s t h P ht (s.conn.inp.length - n)
  rw [show n + 1 + (s.conn.inp.length - n) = s.conn.inp.length + 1 by omega] at hl
  exact hl

/-- The request `SetUint(key, v)` on the input is one complete turn. -/
theorem serves_setUint (grow : Nat → Nat → Nat) (key : Key) (v : Nat) (st : Store) (b : Bucket)
    (hk : key.length < 2 ^ 32) (hv : v < 2 ^ 32) (hb : st.getBucket key = some b)
    (rest out : List Byte) :
    Serves grow 1 ⟨st, ⟨(Request.setUint key v).bytes ++ rest, out, []⟩⟩
      ⟨st.withBucket key (b.setUint key v), ⟨rest, out ++ [ackReply], []⟩⟩ := by
  refine Serves.step 0 _ _ _ ?_ (Serves.zero _)
  have h := turn_ok grow setUintCmd key (Store.SetUint key) st b (b.setUint key v)
    (PutUint32 v ++ rest) out ⟨rest, out ++ [ackReply], []⟩ (by decide) hk
    (dispatch_cases grow key).2.2.2.2.2.2.2.2.1 hb (SetUint_run key b v rest out hv)
  simpa [Request.bytes, Request.cmd, Request.key, Request.fields, List.append_assoc] using h

/-- C21. Server-side end of stream. When the stream ends before any byte of a
command, the turn of the handler ends the loop without a panic and without
touching the store, and `handleRequest` returns; the same holds after any
number of complete requests, for `handleRequest` and for its loop with turns
to spare. When the stream ends inside a request, that is after `n` bytes of a
request of the protocol with `1 ≤ n` and `n` less than the length of the
request (in the key length, the key, or any field, also right at the start of
a field), the turn panics, and so does `handleRequest`, also after any number
of complete requests: with `io.EOF` or `io.ErrUnexpectedEOF`, or, for a
`SetBytesRange` request whose `start + len(data)` overflows, on a slice. It
never returns. -/
theorem C21_end_of_stream (grow : Nat → Nat → Nat) (r : Request) (hf : r.fits)
    (hk : r.key.length < 2 ^ 32) (st : Store) (b : Bucket) (hb : st.getBucket r.key = some b)
    (n : Nat) (h1 : 1 ≤ n) (h2 : n < r.bytes.length) (out : List Byte) (w : List Bool) :
    (∀ (st0 : Store) (out0 : List Byte) (w0 : List Bool),
      Store.handleRequest.turn grow ⟨st0, ⟨[], out0, w0⟩⟩ = Res.ok false ⟨st0, ⟨[], out0, w0⟩⟩ ∧
      Store.handleRequest grow ⟨st0, ⟨[], out0, w0⟩⟩ = Res.ok true ⟨st0, ⟨[], out0, w0⟩⟩) ∧
    (∀ (k : Nat) (s t : Worker), Serves grow k s t → t.conn.inp = [] →
      Store.handleRequest grow s = Res.ok true t ∧
      ∀ fuel : Nat, Store.handleRequest.loop grow (k + 1 + fuel) s = Res.ok true t) ∧
    (Store.handleRequest.turn grow ⟨st, ⟨r.bytes.take n, out, w⟩⟩).panicsWith r.framingPanic ∧
    (Store.handleRequest grow ⟨st, ⟨r.bytes.take n, out, w⟩⟩).panicsWith r.framingPanic ∧
    (∀ (k : Nat) (s : Worker), Serves grow k s ⟨st, ⟨r.bytes.take n, out, w⟩⟩ →
      (Store.handleRequest grow s).panicsWith r.framingPanic ∧
      ∀ fuel : Nat, (Store.handleRequest.loop grow (k + 1 + fuel) s).panicsWith r.framingPanic) := by
  have ht := turn_request_short grow r hf hk st b hb n h1 h2 out w
  refine ⟨fun st0 out0 w0 => ⟨turn_eof_any grow st0 out0 w0, ?_⟩,
    fun k s t hs hin => ⟨handleRequest_serves grow k s t hs hin,
      fun fuel => loop_serves grow k s t hs hin fuel⟩, ht,
    loop_panics grow _ _ ht _,
    fun k s hs => ⟨handleRequest_serves_panics grow k s _ hs _ ht,
      fun fuel => loop_serves_panics grow k s _ hs _ ht fuel⟩⟩
  simp [Store.handleRequest, Store.handleRequest.loop, Proc.bind, turn_eof_any, Proc.pure]

/-- An instance of C21: the request `SetUint("f", 7)` in full, followed by the
first 8 of the 10 bytes of the same request, on a store with one bucket. -/
theorem C21_end_of_stream_witness :
    (Store.handleRequest (fun _ n => n)
      ⟨oneBucketStore, ⟨(Request.setUint [102] 7).bytes ++ (Request.setUint [102] 7).bytes.take 8,
        [], []⟩⟩).panicsWith (Request.setUint [102] 7).framingPanic :=
  ((C21_end_of_stream (fun _ n => n) (Request.setUint [102] 7)
    (show (7 : Nat) < 2 ^ 32 by decide) (show [(102 : Byte)].length < 2 ^ 32 by decide)
    (oneBucketStore.withBucket [102] (Bucket.empty.setUint [102] 7))
    (Bucket.empty.setUint [102] 7) (getBucket_withBucket _ _ _) 8 (by decide) (by decide)
    [ackReply] []).2.2.2.2 1 _
    (serves_setUint (fun _ n => n) [102] 7 oneBucketStore Bucket.empty (by decide) (by decide)
      (oneBucketStore_getBucket _) _ [])).1

end Kvdroid
